import Mathlib

/-!
# Verification of the fcupdater spreadsheet reconciliation core

This file gives a shallow embedding, in Lean 4, of the parts of the
`fcupdater` Rust program that the specification talks about: the formula
reference rewriter, the XML entity codec, the worksheet parser/serializer,
the reconciliation row mapper, the source-index construction, the RK number
decoder and the integer cell parser.  Strings are modelled as `List Char`
(all patterns the code searches for are ASCII, so byte positions and char
positions coincide on the scanned delimiters), `u32`/`usize` as `Nat` with
explicit `% 2 ^ 32` or bound checks where the machine width matters, and
fallible code as `Except`/`Option`.  Functions that the Rust source writes
as index-advancing loops are embedded with an explicit fuel argument so
that they stay structurally recursive and kernel-computable; the fuel is
always instantiated with a bound that the loop can never exhaust
(every iteration advances the index by at least one character).
-/

/-! ## Basic character and string utilities -/

/-- Rust `char::is_ascii_alphabetic`. -/
def isAsciiAlpha (c : Char) : Bool :=
  ('A' ≤ c && c ≤ 'Z') || ('a' ≤ c && c ≤ 'z')

/-- Rust `char::is_ascii_digit`. -/
def isAsciiDigit (c : Char) : Bool :=
  '0' ≤ c && c ≤ '9'

/-- Rust `char::is_ascii_alphanumeric`. -/
def isAsciiAlnum (c : Char) : Bool :=
  isAsciiAlpha c || isAsciiDigit c

/-- Rust `str::trim` (we only need whitespace handling for the ASCII
whitespace the data actually contains). -/
def trimChars (s : List Char) : List Char :=
  ((s.dropWhile Char.isWhitespace).reverse.dropWhile Char.isWhitespace).reverse

/-- Rust `str::find(pattern)`: index of the first occurrence of `pat`. -/
def findSub : List Char → List Char → Option Nat
  | s, pat =>
    if pat.isPrefixOf s then some 0
    else
      match s with
      | [] => none
      | _ :: t => (findSub t pat).map (· + 1)

/-- Loop of the decimal printer: most significant digits first; the fuel
argument only needs to be at least `n` (the quotient `n / 10` is strictly
smaller whenever `10 ≤ n`). -/
def natDigitsGo : Nat → Nat → List Char
  | 0, _ => []
  | fuel + 1, n =>
    if n < 10 then [Char.ofNat (48 + n)]
    else natDigitsGo fuel (n / 10) ++ [Char.ofNat (48 + n % 10)]

/-- Decimal digits of a natural number, mirroring Rust's `u32::to_string`
(no sign, no leading zeros, `0` printed as `"0"`). -/
def natDigits (n : Nat) : List Char :=
  natDigitsGo (n + 1) n

/-- Rust `str::parse::<u32>()` restricted to the plain digit strings the
program feeds it: succeeds on a non-empty all-digit string whose value fits
in 32 bits. -/
def parseU32 (s : List Char) : Option Nat :=
  if s = [] then none
  else if s.all isAsciiDigit then
    let v := s.foldl (fun acc c => acc * 10 + (c.toNat - '0'.toNat)) 0
    if v ≤ 4294967295 then some v else none
  else none

/-! ## Column name codec (`col_to_name` / `name_to_col`, excel/writer.rs).
Both module trees contain the same two functions. -/

/-- Loop body of `col_to_name`: digits of `col` in bijective base 26,
least significant first.  The Rust loop runs while `col > 0`; the fuel
(first argument) only needs to be at least `col`, since the quotient
`(col - 1) / 26` is strictly smaller than `col`. -/
def colToNameRevGo : Nat → Nat → List Char
  | 0, _ => []
  | fuel + 1, col =>
    if col = 0 then []
    else Char.ofNat ('A'.toNat + (col - 1) % 26) :: colToNameRevGo fuel ((col - 1) / 26)

/-- `col_to_name` from excel/writer.rs (std_only/writer.rs is identical):
column number to spreadsheet letters, with `0` mapped to `"A"`. -/
def col_to_name (col : Nat) : List Char :=
  if col = 0 then ['A'] else (colToNameRevGo col col).reverse

/-- `name_to_col`: letters to column number; `saturating_mul`/`saturating_add`
on `u32` are modelled by capping at `2 ^ 32 - 1`. -/
def name_to_col (name : List Char) : Option Nat :=
  if name = [] then none
  else if name.all isAsciiAlpha then
    some (name.foldl
      (fun out ch => min 4294967295 (min 4294967295 (out * 26) + (ch.toUpper.toNat - 'A'.toNat + 1)))
      0)
  else none

/-! ## Formula reference rewriter (excel/writer.rs and std_only/writer.rs)

`try_parse_and_rewrite_cell_ref` is byte-for-byte the same function in both
module trees.  `rewrite_formula_rows` differs: the excel version tracks
double-quoted string literals (with `""` as an escaped quote) and copies
their contents verbatim, the std_only version has no string-literal state.
-/

/-- `is_cell_ref_start`. -/
def is_cell_ref_start (ch : Char) : Bool :=
  ch = '$' || isAsciiAlpha ch

/-- The reject guard of `try_parse_and_rewrite_cell_ref` for the characters
just before and just after a candidate match: alphanumeric, `_` or `.`. -/
def refGuard : Option Char → Bool
  | none => false
  | some ch => isAsciiAlnum ch || ch = '_' || ch = '.'

/-- `$`-lock step: if the suffix starts with `$`, consume it (count 1) and
continue on the tail, otherwise count 0. -/
def lockSplit (s : List Char) : Nat × List Char :=
  if s.head? = some '$' then (1, s.tail) else (0, s)

/-- The text a `$` lock re-emits: `"$"` when the lock was consumed. -/
def lockChars (k : Nat) : List Char :=
  if k = 0 then [] else ['$']

/-- Core of `try_parse_and_rewrite_cell_ref`, phrased on the suffix of the
character array that starts at the candidate position (`s`), together with
the character just before that position (`prev`).  It greedily consumes
`$? letters $? digits`; rejects if the letters are not a valid column name,
if `prev` is alphanumeric/`_`/`.`, or if the character right after the
consumed run is; and on success returns the number of characters consumed
together with the replacement text (original `$` locks and column letters,
row passed through `resolver`). -/
def tryParseCore (s : List Char) (prev : Option Char)
    (resolver : Nat → Nat) : Option (Nat × List Char) :=
  let p1 := lockSplit s
  let colText := p1.2.takeWhile isAsciiAlpha
  if colText = [] then none
  else
    match name_to_col colText with
    | none => none
    | some _ =>
      let p2 := lockSplit (p1.2.drop colText.length)
      let rowText := p2.2.takeWhile isAsciiDigit
      if rowText = [] then none
      else
        let consumed := p1.1 + colText.length + p2.1 + rowText.length
        if refGuard prev then none
        else if refGuard s[consumed]? then none
        else
          match parseU32 rowText with
          | none => none
          | some oldRow =>
            some (consumed,
              lockChars p1.1 ++ colText
                ++ lockChars p2.1 ++ natDigits (resolver oldRow))

/-- `try_parse_and_rewrite_cell_ref(chars, start, resolver)` from the Rust
source: the scan reads `chars` from index `start` (the suffix
`chars.drop start`), consults `chars[start - 1]` as the preceding-character
guard (`None` at `start = 0`), and `chars[stop]` — which is position
`consumed` of the suffix — as the following-character guard.  Returns the
index one past the match together with the replacement text. -/
def try_parse_and_rewrite_cell_ref (chars : List Char) (start : Nat)
    (resolver : Nat → Nat) : Option (Nat × List Char) :=
  (tryParseCore (chars.drop start)
      (if start = 0 then none else chars[start - 1]?) resolver).map
    (fun p => (start + p.1, p.2))

/-- Scanner loop of the excel `rewrite_formula_rows`, with explicit fuel
(each loop iteration advances `i` by at least one, so fuel
`chars.length` from `i = 0` is always enough). -/
def rewriteGoE (resolver : Nat → Nat) (chars : List Char) :
    Nat → Nat → Bool → List Char
  | 0, _, _ => []
  | fuel + 1, i, inString =>
    match chars[i]? with
    | none => []
    | some ch =>
      if ch = '"' then
        if inString then
          if chars[i + 1]? = some '"' then
            '"' :: '"' :: rewriteGoE resolver chars fuel (i + 2) true
          else
            '"' :: rewriteGoE resolver chars fuel (i + 1) false
        else
          '"' :: rewriteGoE resolver chars fuel (i + 1) true
      else if inString then
        ch :: rewriteGoE resolver chars fuel (i + 1) true
      else if is_cell_ref_start ch then
        match try_parse_and_rewrite_cell_ref chars i resolver with
        | some (stop, replaced) =>
          replaced ++ rewriteGoE resolver chars fuel stop false
        | none => ch :: rewriteGoE resolver chars fuel (i + 1) false
      else
        ch :: rewriteGoE resolver chars fuel (i + 1) false

/-- `rewrite_formula_rows` from src/excel/writer.rs (tracks string
literals). -/
def Excel.rewrite_formula_rows (formula : List Char) (resolver : Nat → Nat) :
    List Char :=
  rewriteGoE resolver formula formula.length 0 false

/-- Scanner loop of the std_only `rewrite_formula_rows` (no string-literal
tracking). -/
def rewriteGoS (resolver : Nat → Nat) (chars : List Char) :
    Nat → Nat → List Char
  | 0, _ => []
  | fuel + 1, i =>
    match chars[i]? with
    | none => []
    | some ch =>
      if is_cell_ref_start ch then
        match try_parse_and_rewrite_cell_ref chars i resolver with
        | some (stop, replaced) =>
          replaced ++ rewriteGoS resolver chars fuel stop
        | none => ch :: rewriteGoS resolver chars fuel (i + 1)
      else
        ch :: rewriteGoS resolver chars fuel (i + 1)

/-- `rewrite_formula_rows` from src/std_only/writer.rs. -/
def StdOnly.rewrite_formula_rows (formula : List Char) (resolver : Nat → Nat) :
    List Char :=
  rewriteGoS resolver formula formula.length 0

/-- The body of a double-quoted formula string literal, as the excel
scanner sees it: any characters other than `"`, with `""` standing for an
escaped quote. -/
inductive LitBody : List Char → Prop
  | nil : LitBody []
  | cons (c : Char) (h : c ≠ '"') (t : List Char) (ht : LitBody t) :
      LitBody (c :: t)
  | esc (t : List Char) (ht : LitBody t) : LitBody ('"' :: '"' :: t)

/-! ## XML entity codec (std_only/writer.rs and excel/xml.rs, excel/writer.rs)

The std_only module escapes with chained `str::replace` calls and decodes
with chained `str::replace` calls; the excel module escapes the same way
(`xml_escape_text` in excel/writer.rs) but decodes with a character scanner
(`decode_xml_entities` in excel/xml.rs) that also understands numeric
entities. -/

/-- One pass of Rust `str::replace(pat, rep)`: scan left to right, on a
match emit `rep` and continue after the matched text (the replacement is
not rescanned), otherwise emit the character.  The second argument counts
characters of an already-matched region still to be consumed, which keeps
the recursion structural.  `pat` is never empty in this program. -/
def replaceAllGo (pat rep : List Char) : List Char → Nat → List Char
  | [], _ => []
  | _ :: t, skip + 1 => replaceAllGo pat rep t skip
  | c :: t, 0 =>
    if pat ≠ [] ∧ pat.isPrefixOf (c :: t) then
      rep ++ replaceAllGo pat rep t (pat.length - 1)
    else
      c :: replaceAllGo pat rep t 0

/-- Rust `str::replace(pat, rep)` (for non-empty `pat`). -/
def replaceAll (pat rep s : List Char) : List Char :=
  replaceAllGo pat rep s 0

/-- `xml_escape_text` from src/std_only/writer.rs:
`s.replace('&',"&amp;").replace('<',"&lt;").replace('>',"&gt;")`. -/
def StdOnly.xml_escape_text (s : List Char) : List Char :=
  replaceAll ['>'] (['&', 'g', 't', ';'])
    (replaceAll ['<'] (['&', 'l', 't', ';'])
      (replaceAll ['&'] (['&', 'a', 'm', 'p', ';']) s))

/-- `xml_escape_text` from src/excel/writer.rs (same replace chain). -/
def Excel.xml_escape_text (s : List Char) : List Char :=
  replaceAll ['>'] (['&', 'g', 't', ';'])
    (replaceAll ['<'] (['&', 'l', 't', ';'])
      (replaceAll ['&'] (['&', 'a', 'm', 'p', ';']) s))

/-- `xml_escape_attr` (same in both module trees): text escape, then
`"` and `'`. -/
def StdOnly.xml_escape_attr (s : List Char) : List Char :=
  replaceAll ['\''] (['&', 'a', 'p', 'o', 's', ';'])
    (replaceAll ['"'] (['&', 'q', 'u', 'o', 't', ';']) (StdOnly.xml_escape_text s))

/-- `xml_escape_attr` from src/excel/writer.rs. -/
def Excel.xml_escape_attr (s : List Char) : List Char :=
  replaceAll ['\''] (['&', 'a', 'p', 'o', 's', ';'])
    (replaceAll ['"'] (['&', 'q', 'u', 'o', 't', ';']) (Excel.xml_escape_text s))

/-- `decode_xml_entities` from src/std_only/writer.rs: chained
`str::replace` of the five named entities, in the source's order
(`&lt; &gt; &quot; &apos; &amp;`). -/
def StdOnly.decode_xml_entities (s : List Char) : List Char :=
  replaceAll (['&', 'a', 'm', 'p', ';']) ['&']
    (replaceAll (['&', 'a', 'p', 'o', 's', ';']) ['\'']
      (replaceAll (['&', 'q', 'u', 'o', 't', ';']) ['"']
        (replaceAll (['&', 'g', 't', ';']) ['>']
          (replaceAll (['&', 'l', 't', ';']) ['<'] s))))

/-- Strip one leading `+` (Rust's integer `from_str` accepts it). -/
def stripPlus : List Char → List Char
  | '+' :: t => t
  | t => t

/-- Rust `char::is_ascii_hexdigit` value reading. -/
def hexDigitVal (c : Char) : Option Nat :=
  if '0' ≤ c ∧ c ≤ '9' then some (c.toNat - '0'.toNat)
  else if 'a' ≤ c ∧ c ≤ 'f' then some (c.toNat - 'a'.toNat + 10)
  else if 'A' ≤ c ∧ c ≤ 'F' then some (c.toNat - 'A'.toNat + 10)
  else none

/-- Rust `u32::from_str_radix(s, 16)`: optional `+`, then non-empty hex
digits, overflow-checked against `2 ^ 32`. -/
def parseHexU32 (s : List Char) : Option Nat :=
  let t := stripPlus s
  if t = [] then none
  else if t.all (fun c => (hexDigitVal c).isSome) then
    let v := t.foldl (fun acc c => acc * 16 + ((hexDigitVal c).getD 0)) 0
    if v ≤ 4294967295 then some v else none
  else none

/-- Rust `char::from_u32`: valid Unicode scalar values only. -/
def charFromU32 (n : Nat) : Option Char :=
  if n.isValidChar then some (Char.ofNat n) else none

/-- `decode_numeric_entity` from src/excel/xml.rs: `#x…`/`#X…` hex or
`#…` decimal character references. -/
def decode_numeric_entity (ent : List Char) : Option Char :=
  if ent.take 2 = ['#', 'x'] ∨ ent.take 2 = ['#', 'X'] then
    (parseHexU32 (ent.drop 2)).bind charFromU32
  else if ent.take 1 = ['#'] then
    (parseU32 (stripPlus (ent.drop 1))).bind charFromU32
  else none

/-- `decode_single_entity` from src/excel/xml.rs. -/
def decode_single_entity (ent : List Char) : Option Char :=
  if ent = ['l', 't'] then some '<'
  else if ent = ['g', 't'] then some '>'
  else if ent = ['q', 'u', 'o', 't'] then some '"'
  else if ent = ['a', 'p', 'o', 's'] then some '\''
  else if ent = "amp".toList then some '&'
  else decode_numeric_entity ent

/-- The scanner's entity terminator test: not a `;`. -/
def notSemi (c : Char) : Bool :=
  c ≠ ';'

/-- Scanner of `decode_xml_entities` from src/excel/xml.rs: at `&`, the
entity text runs to the first `;` (the Rust code searches the whole rest,
so the candidate exists iff the remainder contains a `;`); a non-empty
entity that decodes emits its character and the scan resumes after the
`;`, otherwise the `&` is copied.  The skip counter consumes an accepted
entity's characters to keep the recursion structural. -/
def decodeExcelGo : List Char → Nat → List Char
  | [], _ => []
  | _ :: t, skip + 1 => decodeExcelGo t skip
  | c :: t, 0 =>
    if c = '&' then
      let ent := t.takeWhile notSemi
      if ent.length < t.length ∧ ent ≠ [] then
        match decode_single_entity ent with
        | some d => d :: decodeExcelGo t (ent.length + 1)
        | none => '&' :: decodeExcelGo t 0
      else '&' :: decodeExcelGo t 0
    else c :: decodeExcelGo t 0

/-- `decode_xml_entities` from src/excel/xml.rs (the `!s.contains('&')`
fast path returns the input unchanged, which the scanner also does). -/
def Excel.decode_xml_entities (s : List Char) : List Char :=
  decodeExcelGo s 0

/-- Per-character escape images used to state what the escape chains
compute: the three text entities. -/
def escFun3 (c : Char) : List Char :=
  if c = '&' then ['&', 'a', 'm', 'p', ';']
  else if c = '<' then ['&', 'l', 't', ';']
  else if c = '>' then ['&', 'g', 't', ';']
  else [c]

/-- Per-character escape images of the attribute escape: the five
entities. -/
def escFun5 (c : Char) : List Char :=
  if c = '&' then ['&', 'a', 'm', 'p', ';']
  else if c = '<' then ['&', 'l', 't', ';']
  else if c = '>' then ['&', 'g', 't', ';']
  else if c = '"' then ['&', 'q', 'u', 'o', 't', ';']
  else if c = '\'' then ['&', 'a', 'p', 'o', 's', ';']
  else [c]

/-- Concatenation of per-character images. -/
def concatMapF (f : Char → List Char) : List Char → List Char
  | [] => []
  | c :: t => f c ++ concatMapF f t

/-! ## RK number decoding (excel/source_reader_biff.rs)

`decode_rk_number` works on `f64`; we embed it over idealized reals
(`Option ℚ`, with `none` for the non-finite IEEE-754 bit patterns): the
IEEE *decoding* of a bit pattern is exact, the `f64::from(i32)` conversion
is exact, and the one arithmetic operation (`value /= 100.0`) is idealized
as exact rational division. -/

/-- Interpret a 64-bit IEEE-754 binary64 bit pattern as an idealized real:
sign bit 63, 11 exponent bits, 52 mantissa bits; `none` for the
all-ones-exponent patterns (NaN/±inf). -/
def f64BitsToIdeal (b : Nat) : Option ℚ :=
  let sign : Nat := b / 2 ^ 63 % 2
  let e : Nat := b / 2 ^ 52 % 2 ^ 11
  let m : Nat := b % 2 ^ 52
  if e = 2047 then none
  else
    let mag : ℚ :=
      if e = 0 then (m : ℚ) * (2 : ℚ) ^ (-(1074 : ℤ))
      else ((2 ^ 52 + m : ℕ) : ℚ) * (2 : ℚ) ^ ((e : ℤ) - 1075)
    some (if sign = 1 then -mag else mag)

/-- `decode_rk_number(rk: u32)` from src/excel/source_reader_biff.rs:
bit 0 is the ÷100 flag, bit 1 the integer flag; the integer form is
`rk.cast_signed() >> 2` (arithmetic shift = floor division by 4 of the
two's-complement value), the float form places `rk & 0xFFFF_FFFC`
(here `rk / 4 * 4`, which clears the two low bits of a 32-bit value) as
the high 32 bits of an 8-byte double. -/
def decode_rk_number (rk : Nat) : Option ℚ :=
  let r : Nat := rk % 2 ^ 32
  let div100 : Prop := r % 2 = 1
  let isInt : Prop := r / 2 % 2 = 1
  let value : Option ℚ :=
    if isInt then
      let signed : ℤ := if r < 2 ^ 31 then (r : ℤ) else (r : ℤ) - 2 ^ 32
      some ((Int.fdiv signed 4 : ℤ) : ℚ)
    else
      f64BitsToIdeal ((r / 4 * 4) * 2 ^ 32)
  if div100 then value.map (· / 100) else value

/-! ## Row reconciliation mappers (master_sheet.rs / main.rs)

Row numbers and row counts are `u32`/`usize`; both are embedded as `Nat`
with explicit `% 2 ^ 32` or `≤ 4294967295` where a cast matters. -/

/-- One step of `<[u32]>::binary_search` as `count_deleted_le` calls it
(src/master_sheet.rs:535-540, src/main.rs:671-676): `left`/`right`
halving, `Ok mid` on an exact hit, `Err left` when the window closes.
The fuel bounds the iteration count; `l.length + 1` always suffices
because `right - left` shrinks every step. -/
def binarySearchGo (l : List Nat) (target : Nat) : Nat → Nat → Nat → Except Nat Nat
  | left, _, 0 => Except.error left
  | left, right, fuel + 1 =>
    if left < right then
      match l[left + (right - left) / 2]? with
      | none => Except.error left
      | some v =>
        if v < target then
          binarySearchGo l target (left + (right - left) / 2 + 1) right fuel
        else if target < v then
          binarySearchGo l target left (left + (right - left) / 2) fuel
        else Except.ok (left + (right - left) / 2)
    else Except.error left

/-- `count_deleted_le(sorted_deleted_rows, row)` from src/master_sheet.rs
lines 535-540 (textually identical in src/main.rs lines 671-676):
`binary_search` on the sorted deleted-row list, `Ok(idx) => idx + 1`,
`Err(idx) => idx`. -/
def count_deleted_le (sorted_deleted_rows : List Nat) (row : Nat) : Nat :=
  match binarySearchGo sorted_deleted_rows row 0 sorted_deleted_rows.length
      (sorted_deleted_rows.length + 1) with
  | Except.ok idx => idx + 1
  | Except.error idx => idx

/-- Modelled from the spec: `shift_row(row, increase, decrease)` lives in
the crate root (not under src/); the spec's rule for a row strictly below
the old band is `new = max(1, old + (final_band_length − old_band_length))`,
and `RowMapper` carries that signed delta split into the two saturated
`u32` differences `increase`/`decrease`, so the model adds `increase`,
subtracts `decrease` (`Nat` subtraction saturates at 0 exactly like the
signed formula floors) and floors the result at 1. -/
def shift_row (row increase decrease : Nat) : Nat :=
  max 1 (row + increase - decrease)

/-- `RowMapper` from src/master_sheet.rs lines 169-177. -/
structure RowMapper where
  has_old_rows : Bool
  data_start_row : Nat
  old_end_row : Nat
  deleted_rows : List Nat
  old_count_u32 : Nat
  increase : Nat
  decrease : Nat

/-- `RowMapper::map` from src/master_sheet.rs lines 179-192: inside the
old band subtract the count of deleted rows `≤ old_ref_row`
(`u32::try_from(..).unwrap_or(old_count_u32)` falls back only when the
count exceeds `u32::MAX`; the subtraction saturates), strictly past the
band apply `shift_row`, otherwise return the row unchanged. -/
def RowMapper.map (m : RowMapper) (old_ref_row : Nat) : Nat :=
  if m.has_old_rows ∧ m.data_start_row ≤ old_ref_row ∧ old_ref_row ≤ m.old_end_row then
    let c := count_deleted_le m.deleted_rows old_ref_row
    let deleted_le := if c ≤ 4294967295 then c else m.old_count_u32
    old_ref_row - deleted_le
  else if m.old_end_row < old_ref_row then
    shift_row old_ref_row m.increase m.decrease
  else old_ref_row

/-- The `RowMapper` value `rebuild_master_rows` constructs
(src/master_sheet.rs lines 322-330): `increase`/`decrease` are the two
saturated differences of the final and old band lengths (the counts have
already passed `usize_to_u32`, so they are `≤ u32::MAX`). -/
def mkRowMapper (old_count final_count data_start_row old_end_row : Nat)
    (deleted_rows : List Nat) : RowMapper :=
  { has_old_rows := decide (0 < old_count)
    data_start_row := data_start_row
    old_end_row := old_end_row
    deleted_rows := deleted_rows
    old_count_u32 := old_count
    increase := final_count - old_count
    decrease := old_count - final_count }

/-- `generic_map` closure from src/main.rs lines 571-581 (std_only tree):
same three cases, but the in-band deleted count is truncated with
`as u32` and the below-band shift goes through `i64`
(`old_ref_row as i64 + delta`, floored at 1, then cast `as u32`, which
truncates a non-negative value to its low 32 bits). -/
def generic_map (old_count final_count data_start_row old_end_row : Nat)
    (deleted_rows : List Nat) (old_ref_row : Nat) : Nat :=
  if 0 < old_count ∧ data_start_row ≤ old_ref_row ∧ old_ref_row ≤ old_end_row then
    let deleted_le := count_deleted_le deleted_rows old_ref_row % 2 ^ 32
    old_ref_row - deleted_le
  else if old_end_row < old_ref_row then
    let shifted : ℤ := (old_ref_row : ℤ) + ((final_count : ℤ) - (old_count : ℤ))
    if shifted < 1 then 1 else shifted.toNat % 2 ^ 32
  else old_ref_row

/-! ## Worksheet model (excel/writer.rs, excel/xml.rs)

`Worksheet` mirrors the excel-tree structures: strings are `List Char`,
`BTreeMap<u32, _>` is an association list kept sorted by strictly
increasing key (`btInsert`/`btGet`), attribute vectors are
`List (List Char × List Char)`. -/

/-- `BTreeMap::insert` on a key-sorted association list. -/
def btInsert {α : Type} (k : Nat) (v : α) : List (Nat × α) → List (Nat × α)
  | [] => [(k, v)]
  | (k2, v2) :: t =>
    if k < k2 then (k, v) :: (k2, v2) :: t
    else if k = k2 then (k, v) :: t
    else (k2, v2) :: btInsert k v t

/-- `BTreeMap::get` on a key-sorted association list. -/
def btGet {α : Type} (k : Nat) : List (Nat × α) → Option α
  | [] => none
  | (k2, v) :: t => if k = k2 then some v else btGet k t

/-- `Cell` from excel/writer.rs. -/
structure Cell where
  attrs : List (List Char × List Char)
  inner_xml : Option (List Char)
deriving DecidableEq

/-- `Row` from excel/writer.rs: `cells` is a `BTreeMap<u32, Cell>`. -/
structure Row where
  attrs : List (List Char × List Char)
  cells : List (Nat × Cell)
deriving DecidableEq

/-- `Worksheet` from excel/writer.rs; `pfx`/`sfx` embed the `prefix` and
`suffix` string fields (everything before the first row and from
`</sheetData>` on). -/
structure Worksheet where
  pfx : List Char
  sfx : List Char
  rows : List (Nat × Row)
deriving DecidableEq

/-- `get_attr` from excel/writer.rs: value of the first binding of `name`. -/
def get_attr (attrs : List (List Char × List Char)) (name : List Char) :
    Option (List Char) :=
  match attrs with
  | [] => none
  | (k, v) :: t => if k = name then some v else get_attr t name

/-- `set_attr` from excel/writer.rs: overwrite the first binding of `name`
in place, else push a new binding at the end. -/
def set_attr (attrs : List (List Char × List Char)) (name value : List Char) :
    List (List Char × List Char) :=
  match attrs with
  | [] => [(name, value)]
  | (k, v) :: t =>
    if k = name then (k, value) :: t else (k, v) :: set_attr t name value

/-- `remove_attr` from excel/writer.rs. -/
def remove_attr (attrs : List (List Char × List Char)) (name : List Char) :
    List (List Char × List Char) :=
  attrs.filter (fun p => !(p.1 = name))

/-- `extract_first_tag_text` from excel/xml.rs: text between the first
`<tag...>` and the following `</tag>`. -/
def extract_first_tag_text (xml tag : List Char) : Option (List Char) :=
  match findSub xml ('<' :: tag) with
  | none => none
  | some os =>
    match findSub (xml.drop os) ['>'] with
    | none => none
    | some erel =>
      let bodyStart := os + erel + 1
      match findSub (xml.drop bodyStart) ('<' :: '/' :: tag ++ ['>']) with
      | none => none
      | some crel => some ((xml.drop bodyStart).take crel)

/-- Loop of `extract_all_tag_text` from excel/xml.rs; the cursor advances
by at least one per iteration, so fuel `xml.length + 1` never runs out. -/
def extractAllGo (xml tag : List Char) : Nat → Nat → List Char → Option (List Char)
  | _, 0, acc => if acc = [] then none else some acc
  | cursor, fuel + 1, acc =>
    match findSub (xml.drop cursor) ('<' :: tag) with
    | none => if acc = [] then none else some acc
    | some orel =>
      match findSub (xml.drop (cursor + orel)) ['>'] with
      | none => none
      | some erel =>
        let bodyStart := cursor + orel + erel + 1
        match findSub (xml.drop bodyStart) ('<' :: '/' :: tag ++ ['>']) with
        | none => none
        | some crel =>
          extractAllGo xml tag (bodyStart + crel + (tag.length + 3)) fuel
            (acc ++ (xml.drop bodyStart).take crel)

/-- `extract_all_tag_text` from excel/xml.rs: concatenated bodies of every
`<tag...>...</tag>` pair, `none` when there is none (or a tag is broken). -/
def extract_all_tag_text (xml tag : List Char) : Option (List Char) :=
  extractAllGo xml tag 0 (xml.length + 1) []

/-- `replace_first_tag_text` from excel/writer.rs: `some` is the mutated
string (Rust returns `true` and mutates in place), `none` means no
complete first tag was found (Rust returns `false`, string untouched). -/
def replace_first_tag_text (xml tag newText : List Char) : Option (List Char) :=
  match findSub xml ('<' :: tag) with
  | none => none
  | some os =>
    match findSub (xml.drop os) ['>'] with
    | none => none
    | some erel =>
      let contentStart := os + erel + 1
      match findSub (xml.drop contentStart) ('<' :: '/' :: tag ++ ['>']) with
      | none => none
      | some crel =>
        some (xml.take contentStart ++ newText ++ xml.drop (contentStart + crel))

/-- Rust `str::parse::<usize>()` restricted to the plain digit strings the
program feeds it (shared-string indices): non-empty, all digits, value
below `2 ^ 64`. -/
def parseUsize (s : List Char) : Option Nat :=
  if s = [] then none
  else if s.all isAsciiDigit then
    let v := s.foldl (fun acc c => acc * 10 + (c.toNat - '0'.toNat)) 0
    if v ≤ 18446744073709551615 then some v else none
  else none

/-- `cell_display_value` from excel/writer.rs lines 640-660. -/
def cell_display_value (cell : Cell) (shared_strings : List (List Char)) :
    Option (List Char) :=
  let cellType := get_attr cell.attrs ['t']
  let inner := cell.inner_xml.getD []
  if cellType = some ('i' :: 'n' :: 'l' :: 'i' :: 'n' :: 'e' :: 'S' :: 't' :: ['r']) then
    (extract_all_tag_text inner ['t']).map Excel.decode_xml_entities
  else
    let decoded := Excel.decode_xml_entities
      ((extract_first_tag_text inner ['v']).getD [])
    if cellType = some ['s'] then
      match parseUsize decoded with
      | none => none
      | some idx => shared_strings[idx]?
    else if cellType = some ['b'] then
      some (if decoded = ['1'] then ['T', 'R', 'U', 'E'] else ['F', 'A', 'L', 'S', 'E'])
    else some decoded

/-- `Worksheet::get_display_at` from excel/writer.rs lines 118-126. -/
def Worksheet.get_display_at (ws : Worksheet) (col row : Nat)
    (shared_strings : List (List Char)) : List Char :=
  match btGet row ws.rows with
  | none => []
  | some rowObj =>
    match btGet col rowObj.cells with
    | none => []
    | some cell => (cell_display_value cell shared_strings).getD []

/-- `collect_master_data_rows` from src/master_sheet.rs lines 518-534:
walk the row keys from `data_start_row` on in ascending order (the map is
key-sorted, `range(data_start_row..)` is the filter) and keep every row
whose three identity columns (region 2, name 3, address 6) are not all
blank; blank rows are skipped, not a stopping point. -/
def collect_master_data_rows (ws : Worksheet) (shared_strings : List (List Char))
    (data_start_row : Nat) : List Nat :=
  (((ws.rows.map Prod.fst).filter (fun r => data_start_row ≤ r)).filter
    (fun row =>
      !(List.isEmpty (trimChars (ws.get_display_at 2 row shared_strings))
        && List.isEmpty (trimChars (ws.get_display_at 3 row shared_strings))
        && List.isEmpty (trimChars (ws.get_display_at 6 row shared_strings)))))

/-! ## Integer cell parsing (numeric.rs and the crate-root glue) -/

/-- `f64::round` (round half away from zero) over the idealized reals. -/
def qRound (q : ℚ) : ℤ :=
  if 0 ≤ q then ⌊q + 1 / 2⌋ else -⌊-q + 1 / 2⌋

/-- `round_f64_to_i32` from src/numeric.rs over the idealized reals
(`none` is a non-finite value): reject non-finite input, round half away
from zero, reject a rounded value outside
`[-2147483648.0, 2147483647.0]`, and the final `as i32` cast is exact on
that range. -/
def round_f64_to_i32 (v : Option ℚ) : Option ℤ :=
  match v with
  | none => none
  | some q =>
    let rounded : ℤ := qRound q
    if rounded < -2147483648 ∨ 2147483647 < rounded then none
    else some rounded

/-- Modelled from the spec: the crate-root `parse_i32_str` the excel tree
uses is not under src/; the spec describes it as parsing the display
string as an integer, comma-stripped, with blank and `"-"` giving
nothing, out-of-range and non-finite giving nothing.  The trim /
blank / `"-"` / comma-strip glue follows those words (the std_only tree
carries the same glue in src/main.rs lines 1122-1127); the numeric step
is `round_f64_to_i32`, embedded from src/numeric.rs; the `f64` string
parse itself stays an abstract oracle `parseF64` (`none` = parse error,
`some none` = parsed but non-finite, `some (some q)` = the parsed finite
value). -/
def parse_i32_str (parseF64 : List Char → Option (Option ℚ)) (s : List Char) :
    Option ℤ :=
  let t := trimChars s
  if t = [] ∨ t = ['-'] then none
  else
    match parseF64 (t.filter (fun c => !(c = ','))) with
    | none => none
    | some v => round_f64_to_i32 v

/-! ## Row renumbering (excel/writer.rs) -/

/-- `rewrite_formula_rows_in_inner` from excel/writer.rs lines 661-669:
pull the first `<f>` body, entity-decode it, rewrite references, re-escape
and put it back (no complete `<f>` tag leaves the inner XML untouched). -/
def rewrite_formula_rows_in_inner (inner : List Char) (resolver : Nat → Nat) :
    List Char :=
  match extract_first_tag_text inner ['f'] with
  | none => inner
  | some text =>
    let encoded := Excel.xml_escape_text
      (Excel.rewrite_formula_rows (Excel.decode_xml_entities text) resolver)
    (replace_first_tag_text inner ['f'] encoded).getD inner

/-- `remap_row_numbers` from excel/writer.rs lines 259-271: stamp the row
`r` attribute with the new row number, stamp every cell `r` attribute with
its column name plus the new row number, and rewrite each cell's formula
through `resolver`. -/
def remap_row_numbers (row : Row) (new_row : Nat) (resolver : Nat → Nat) : Row :=
  { attrs := set_attr row.attrs ['r'] (natDigits new_row)
    cells := row.cells.map (fun p =>
      (p.1,
        { attrs := set_attr p.2.attrs ['r'] (col_to_name p.1 ++ natDigits new_row)
          inner_xml := p.2.inner_xml.map
            (fun inner => rewrite_formula_rows_in_inner inner resolver) })) }

/-- A worksheet with a data band that has a gap: rows 5 and 7 carry an
identity value (name in column 3, region in column 2), row 6 has all
three identity columns blank (it only has data in column 8). -/
def gapWs : Worksheet :=
  { pfx := []
    sfx := []
    rows :=
      [(5, { attrs := [(['r'], ['5'])]
             cells := [(3, { attrs := [], inner_xml := some ('<' :: 'v' :: '>' :: 'a' :: '<' :: '/' :: 'v' :: ['>']) })] }),
       (6, { attrs := [(['r'], ['6'])]
             cells := [(8, { attrs := [], inner_xml := some ('<' :: 'v' :: '>' :: 'x' :: '<' :: '/' :: 'v' :: ['>']) })] }),
       (7, { attrs := [(['r'], ['7'])]
             cells := [(2, { attrs := [], inner_xml := some ('<' :: 'v' :: '>' :: 'b' :: '<' :: '/' :: 'v' :: ['>']) })] })] }

/-- A row whose only cell carries the formula `A01` (a reference written
with a leading zero in the row digits). -/
def c8row : Row :=
  { attrs := [(['r'], ['3'])]
    cells :=
      [(1, { attrs := [(['r'], ['A', '3'])]
             inner_xml := some ('<' :: 'f' :: '>' :: 'A' :: '0' :: '1' :: '<' :: '/' :: 'f' :: ['>']) })] }

/-- A canonically numbered row: row attribute `r="3"`, its cell in column
2 has `r="B3"` and the formula `A1+B2` with canonically written
references. -/
def c8wrow : Row :=
  { attrs := [(['r'], ['3'])]
    cells :=
      [(2, { attrs := [(['r'], ['B', '3']), (['s'], ['0'])]
             inner_xml := some
               ('<' :: 'f' :: '>' :: 'A' :: '1' :: '+' :: 'B' :: '2' :: '<' :: '/' :: 'f' :: '>'
                 :: '<' :: 'v' :: '>' :: '<' :: '/' :: 'v' :: ['>']) })] }

/-! ## Source index construction (source_sync.rs)

`build_source_index_with_report` keys records by
`crate::normalize_address_key`; the key function is abstracted as a
parameter `norm` here (the claim under study constrains the collision
rule and the file ordering, not the normalization).  `HashMap` is
embedded as a function from keys to optional entries. -/

/-- `SourceRecord` from src/source_sync.rs lines 8-19 (prices as
`Option ℤ`, text fields as `List Char`). -/
structure SourceRecord where
  region : List Char
  name : List Char
  brand : List Char
  self_yn : List Char
  address : List Char
  phone : List Char
  gasoline : Option ℤ
  premium : Option ℤ
  diesel : Option ℤ
deriving DecidableEq

/-- `source_priority` from src/source_sync.rs lines 208-231: count of
non-null prices, count of non-blank (after trim) text fields, total text
length in bytes (`String::len`; `Char.utf8Size` sums the UTF-8 bytes). -/
def source_priority (rec : SourceRecord) : Nat × Nat × Nat :=
  ([rec.gasoline, rec.premium, rec.diesel].countP (fun v => v.isSome),
   [rec.region, rec.name, rec.brand, rec.self_yn, rec.address, rec.phone].countP
     (fun v => !(trimChars v).isEmpty),
   (rec.region.map Char.utf8Size).sum + (rec.name.map Char.utf8Size).sum
     + (rec.brand.map Char.utf8Size).sum + (rec.self_yn.map Char.utf8Size).sum
     + (rec.address.map Char.utf8Size).sum + (rec.phone.map Char.utf8Size).sum)

/-- Rust tuple `>` on `(usize, usize, usize)`: strict lexicographic
greater-than. -/
def prioGt (a b : Nat × Nat × Nat) : Bool :=
  decide (b.1 < a.1)
    || (decide (a.1 = b.1)
      && (decide (b.2.1 < a.2.1)
        || (decide (a.2.1 = b.2.1) && decide (b.2.2 < a.2.2))))

/-- The `Entry::Vacant` / `Entry::Occupied` step of
`build_source_index_with_report` (src/source_sync.rs lines 83-119,
report bookkeeping aside): a vacant key takes the record; an occupied key
is overwritten exactly when `score > prev_score` or
`score = prev_score ∧ file_order ≥ prev_order`. -/
def updateEntry (rec : SourceRecord) (file_order : Nat) :
    Option (SourceRecord × (Nat × Nat × Nat) × Nat) →
      SourceRecord × (Nat × Nat × Nat) × Nat
  | none => (rec, source_priority rec, file_order)
  | some (prev, prev_score, prev_order) =>
    if prioGt (source_priority rec) prev_score
        || (decide (source_priority rec = prev_score)
          && decide (prev_order ≤ file_order)) then
      (rec, source_priority rec, file_order)
    else (prev, prev_score, prev_order)

/-- The record loop of `build_source_index_with_report`: the input is the
concatenation of the per-file record lists, each record paired with its
file's enumeration index. -/
def buildIndexGo (norm : SourceRecord → List Char) :
    List (SourceRecord × Nat) →
      (List Char → Option (SourceRecord × (Nat × Nat × Nat) × Nat)) →
      List Char → Option (SourceRecord × (Nat × Nat × Nat) × Nat)
  | [], m => m
  | (rec, ord) :: t, m =>
    buildIndexGo norm t
      (fun k => if k = norm rec then some (updateEntry rec ord (m (norm rec))) else m k)

/-- The `index` component of `build_source_index_with_report`
(src/source_sync.rs lines 122-126): entries stripped to their records. -/
def build_source_index (norm : SourceRecord → List Char)
    (recs : List (SourceRecord × Nat)) : List Char → Option SourceRecord :=
  fun k => (buildIndexGo norm recs (fun _ => none) k).map (fun e => e.1)

/-- Spec-side collision rule, for the refinement statement of the index
construction: of two records for one key, keep the one with the
lexicographically greater priority tuple, the later-encountered one on a
tie. -/
def specKeep :
    Option (SourceRecord × Nat) → SourceRecord × Nat → Option (SourceRecord × Nat)
  | none, p => some p
  | some q, p =>
    if prioGt (source_priority p.1) (source_priority q.1)
        || decide (source_priority p.1 = source_priority q.1) then some p
    else some q

/-- Spec-side selected record for a key: fold the spec collision rule over
the key's records in encounter order. -/
def spec_selected_record (norm : SourceRecord → List Char)
    (recs : List (SourceRecord × Nat)) (k : List Char) : Option SourceRecord :=
  ((recs.filter (fun p => decide (norm p.1 = k))).foldl specKeep none).map
    (fun p => p.1)

/-! ## Natural filename sort (source_sync.rs lines 132-207) -/

/-- `NaturalPart` from src/source_sync.rs. -/
inductive NaturalPart where
  | num (normalized : List Char) (raw_len : Nat)
  | text (s : List Char)
deriving DecidableEq

/-- `push_natural_part`: a digit run is stored with its leading zeros
stripped (empty becomes `"0"`) plus the raw byte length; a text run is
stored as is. -/
def push_natural_part (raw : List Char) (digit_mode : Bool) : NaturalPart :=
  if digit_mode then
    let trimmed := raw.dropWhile (fun c => c = '0')
    NaturalPart.num (if trimmed = [] then ['0'] else trimmed) raw.length
  else NaturalPart.text raw

/-- Scanner of `split_natural_parts`: `buf` holds the current run
reversed, `mode` says whether it is a digit run. -/
def splitNatGo (mode : Bool) (buf : List Char) : List Char → List NaturalPart
  | [] => [push_natural_part buf.reverse mode]
  | c :: t =>
    if isAsciiDigit c = mode then splitNatGo mode (c :: buf) t
    else push_natural_part buf.reverse mode :: splitNatGo (isAsciiDigit c) [c] t

/-- `split_natural_parts` from src/source_sync.rs lines 146-170. -/
def split_natural_parts : List Char → List NaturalPart
  | [] => []
  | c :: t => splitNatGo (isAsciiDigit c) [c] t

/-- `usize::cmp`. -/
def natCmp (a b : Nat) : Ordering :=
  if a < b then Ordering.lt else if b < a then Ordering.gt else Ordering.eq

/-- Rust `str::cmp`: lexicographic. UTF-8 byte order agrees with code
point order, so the comparison is char-wise. -/
def listCmp : List Char → List Char → Ordering
  | [], [] => Ordering.eq
  | [], _ :: _ => Ordering.lt
  | _ :: _, [] => Ordering.gt
  | a :: s, b :: t =>
    if a.toNat < b.toNat then Ordering.lt
    else if b.toNat < a.toNat then Ordering.gt
    else listCmp s t

/-- `compare_natural_part` from src/source_sync.rs lines 187-207: numbers
by normalized length, then normalized text, then raw length; texts
lexicographically; a number sorts before a text. -/
def compare_natural_part : NaturalPart → NaturalPart → Ordering
  | NaturalPart.num an ar, NaturalPart.num bn br =>
    ((natCmp an.length bn.length).then (listCmp an bn)).then (natCmp ar br)
  | NaturalPart.text a, NaturalPart.text b => listCmp a b
  | NaturalPart.num _ _, NaturalPart.text _ => Ordering.lt
  | NaturalPart.text _, NaturalPart.num _ _ => Ordering.gt

/-- `compare_natural_parts` from src/source_sync.rs lines 132-140: first
difference along the zipped prefix, then the part-sequence lengths. -/
def compare_natural_parts : List NaturalPart → List NaturalPart → Ordering
  | [], [] => Ordering.eq
  | [], _ :: _ => Ordering.lt
  | _ :: _, [] => Ordering.gt
  | a :: s, b :: t =>
    match compare_natural_part a b with
    | Ordering.eq => compare_natural_parts s t
    | o => o

/-- Numeric value of a digit run (the magnitude a digit run represents). -/
def digitVal (s : List Char) : Nat :=
  s.foldl (fun acc c => acc * 10 + (c.toNat - '0'.toNat)) 0

/-! ## Master sheet repack (master_sheet.rs `rebuild_master_rows`)

The worksheet is threaded explicitly: `rebuild_master_rows` returns the
`Result` paired with the worksheet state after the call, mirroring the
`&mut` parameter (`std::mem::take(&mut ws.rows)` empties the live row
map up front; some error paths restore it, some do not). -/

/-- Modelled from the spec: `usize_to_u32` lives in the crate root (not
under src/); the spec's failure policy says row-count arithmetic that
could overflow aborts the run, so the model converts when the count fits
`u32` and fails with its context label otherwise. -/
def usize_to_u32 (n : Nat) (label : List Char) : Except (List Char) Nat :=
  if n ≤ 4294967295 then Except.ok n else Except.error label

/-- Modelled from the spec: `add_row_offset` lives in the crate root (not
under src/); it adds a `usize` offset to a `u32` row number, failing with
its context label when the result leaves `u32` range. -/
def add_row_offset (base offset : Nat) (label : List Char) :
    Except (List Char) Nat :=
  if base + offset ≤ 4294967295 then Except.ok (base + offset)
  else Except.error label

/-- `RowMapper::shift` from src/master_sheet.rs lines 193-195. -/
def RowMapper.shift (m : RowMapper) (row : Nat) : Nat :=
  shift_row row m.increase m.decrease

/-- `default_row` from src/master_sheet.rs. -/
def default_row (row_num : Nat) : Row :=
  { attrs := [(['r'], natDigits row_num)], cells := [] }

/-- Insertion into a sorted `Nat` list (for `sort_unstable` on row
numbers, where stability is irrelevant). -/
def insertSorted (x : Nat) : List Nat → List Nat
  | [] => [x]
  | y :: t => if x ≤ y then x :: y :: t else y :: insertSorted x t

/-- `Vec::sort_unstable` on row numbers. -/
def sortNat (l : List Nat) : List Nat :=
  l.foldr insertSorted []

/-- `build_deleted_rows` from src/master_sheet.rs lines 385-397. -/
def build_deleted_rows (old_rows : List Nat)
    (kept_source_rows : List (Nat × Option SourceRecord)) : List Nat :=
  sortNat (old_rows.filter (fun r => !((kept_source_rows.map Prod.fst).contains r)))

/-- `build_rebased_non_data_rows` from src/master_sheet.rs lines 398-423:
skip the old data band, keep rows above the band in place, shift rows
below it, remapping formulas through the row mapper either way. -/
def build_rebased_non_data_rows (original_rows : List (Nat × Row))
    (data_start_row old_end_row : Nat) (m : RowMapper) : List (Nat × Row) :=
  original_rows.foldl
    (fun acc p =>
      if m.has_old_rows && decide (data_start_row ≤ p.1)
          && decide (p.1 ≤ old_end_row) then acc
      else if p.1 < data_start_row then
        btInsert p.1 (remap_row_numbers p.2 p.1 m.map) acc
      else
        btInsert (m.shift p.1) (remap_row_numbers p.2 (m.shift p.1) m.map) acc)
    []

/-- Loop of `place_kept_rows` (src/master_sheet.rs lines 424-463): place
the `i`-th kept row at `data_start_row + i`, remapping its own row number
to the new position and every other reference through the mapper. -/
def placeKeptGo (original_rows : List (Nat × Row)) (data_start_row : Nat)
    (m : RowMapper) :
    List (Nat × Option SourceRecord) → Nat → List (Nat × Row) →
      List (Nat × Option SourceRecord) →
      Except (List Char) (List (Nat × Row) × List (Nat × Option SourceRecord))
  | [], _, nm, acc => Except.ok (nm, acc.reverse)
  | (old_row, src) :: rest, i, nm, acc =>
    match add_row_offset data_start_row i
        ('k' :: 'e' :: 'p' :: ['t']) with
    | Except.error e => Except.error e
    | Except.ok new_row =>
      let row_obj := (btGet old_row original_rows).getD (default_row old_row)
      placeKeptGo original_rows data_start_row m rest (i + 1)
        (btInsert new_row
          (remap_row_numbers row_obj new_row
            (fun old_ref => if old_ref = old_row then new_row else m.map old_ref))
          nm)
        ((new_row, src) :: acc)

/-- Loop of `place_new_source_rows` (src/master_sheet.rs lines 464-495):
clone the template row for each new source record at
`data_start_row + kept_count + i`. -/
def placeNewGo (template_row : Row) (template_row_num kept_count : Nat)
    (data_start_row : Nat) (m : RowMapper) :
    List SourceRecord → Nat → List (Nat × Row) → List (Nat × SourceRecord) →
      Except (List Char) (List (Nat × Row) × List (Nat × SourceRecord))
  | [], _, nm, acc => Except.ok (nm, acc.reverse)
  | src :: rest, i, nm, acc =>
    if 18446744073709551615 < kept_count + i then
      Except.error ('o' :: 'f' :: ['f'])
    else
      match add_row_offset data_start_row (kept_count + i)
          ('n' :: 'e' :: ['w']) with
      | Except.error e => Except.error e
      | Except.ok new_row =>
        placeNewGo template_row template_row_num kept_count data_start_row m rest
          (i + 1)
          (btInsert new_row
            (remap_row_numbers template_row new_row
              (fun old_ref =>
                if old_ref = template_row_num then new_row else m.map old_ref))
            nm)
          ((new_row, src) :: acc)

/-- `Worksheet::get_or_create_cell_mut` (excel/writer.rs lines 242-257)
followed by a mutation `f` of the addressed cell. -/
def Worksheet.update_cell_at (ws : Worksheet) (col row : Nat) (f : Cell → Cell) :
    Worksheet :=
  let row0 := (btGet row ws.rows).getD { attrs := [(['r'], natDigits row)], cells := [] }
  let row1 :=
    if get_attr row0.attrs ['r'] = none then
      { row0 with attrs := set_attr row0.attrs ['r'] (natDigits row) }
    else row0
  let cell0 : Cell := (btGet col row1.cells).getD
    { attrs := [(['r'], col_to_name col ++ natDigits row), (['s'], ['0'])]
      inner_xml := none }
  { ws with
    rows := btInsert row
      { row1 with cells := btInsert col (f cell0) row1.cells } ws.rows }

/-- `needs_xml_space_preserve` from excel/writer.rs lines 697-699. -/
def needs_xml_space_preserve (s : List Char) : Bool :=
  s.head? = some ' ' || s.getLast? = some ' ' || (findSub s [' ', ' ']).isSome

/-- `Worksheet::set_string_at` from excel/writer.rs lines 131-142. -/
def Worksheet.set_string_at (ws : Worksheet) (col row : Nat) (value : List Char) :
    Worksheet :=
  ws.update_cell_at col row (fun cell =>
    { attrs := set_attr cell.attrs ['t']
        ('i' :: 'n' :: 'l' :: 'i' :: 'n' :: 'e' :: 'S' :: 't' :: ['r'])
      inner_xml := some
        (('<' :: 'i' :: 's' :: ['>'])
          ++ (if needs_xml_space_preserve value then
              ('<' :: 't' :: ' ' :: 'x' :: 'm' :: 'l' :: ':' :: 's' :: 'p' :: 'a'
                :: 'c' :: 'e' :: '=' :: '"' :: 'p' :: 'r' :: 'e' :: 's' :: 'e'
                :: 'r' :: 'v' :: 'e' :: '"' :: ['>'])
            else ('<' :: 't' :: ['>']))
          ++ Excel.xml_escape_text value
          ++ ('<' :: '/' :: 't' :: ['>']) ++ ('<' :: '/' :: 'i' :: 's' :: ['>'])) })

/-- Decimal print of an `i32` (`format!("{v}")`). -/
def intDigits (z : ℤ) : List Char :=
  if z < 0 then '-' :: natDigits z.natAbs else natDigits z.toNat

/-- `Worksheet::set_i32_at` from excel/writer.rs lines 143-151. -/
def Worksheet.set_i32_at (ws : Worksheet) (col row : Nat) (value : Option ℤ) :
    Worksheet :=
  ws.update_cell_at col row (fun cell =>
    match value with
    | some v =>
      { attrs := remove_attr cell.attrs ['t']
        inner_xml := some (('<' :: 'v' :: ['>']) ++ intDigits v
          ++ ('<' :: '/' :: 'v' :: ['>'])) }
    | none => { attrs := remove_attr cell.attrs ['t'], inner_xml := none })

/-- `write_master_row_from_source` from src/master_sheet.rs lines 547-556. -/
def write_master_row_from_source (ws : Worksheet) (row : Nat)
    (src : SourceRecord) : Worksheet :=
  let w1 := ws.set_string_at 3 row src.name
  let w2 := w1.set_string_at 4 row src.brand
  let w3 := w2.set_string_at 5 row src.self_yn
  let w4 := w3.set_string_at 6 row src.address
  let w5 := w4.set_string_at 7 row src.phone
  let w6 := w5.set_i32_at 8 row src.gasoline
  let w7 := w6.set_i32_at 9 row src.premium
  w7.set_i32_at 11 row src.diesel

/-- `write_source_rows_to_master` from src/master_sheet.rs lines 485-502
(the function at lines 485-502 of the staged file): write matched source
data into every kept row that has a source record, then into every new
row, backfilling a blank region cell from the record. -/
def write_source_rows_to_master (ws : Worksheet)
    (kept_rows : List (Nat × Option SourceRecord))
    (new_rows_from_sources : List (Nat × SourceRecord))
    (shared_strings : List (List Char)) : Worksheet :=
  let ws1 := kept_rows.foldl
    (fun w p =>
      match p.2 with
      | some src => write_master_row_from_source w p.1 src
      | none => w)
    ws
  new_rows_from_sources.foldl
    (fun w p =>
      let w2 := write_master_row_from_source w p.1 p.2
      if List.isEmpty (trimChars (w2.get_display_at 2 p.1 shared_strings))
          && !(List.isEmpty (trimChars p.2.region)) then
        w2.set_string_at 2 p.1 p.2.region
      else w2)
    ws1

/-- `attrs_to_xml` from excel/writer.rs lines 494-504. -/
def attrs_to_xml (attrs : List (List Char × List Char)) : List Char :=
  attrs.foldl
    (fun out p =>
      out ++ ' ' :: p.1 ++ '=' :: '"' :: Excel.xml_escape_attr p.2 ++ ['"'])
    []

/-- Rust `u8::is_ascii_whitespace`. -/
def isAsciiWhitespace (c : Char) : Bool :=
  c = ' ' || c = '\t' || c = '\n' || c = '\r' || c = Char.ofNat 12

/-- Attribute loop of `parse_tag_attrs` (excel/writer.rs lines 523-598),
index-based with fuel (each iteration consumes at least the non-empty
attribute name, so `tag.length + 1` suffices); the Korean error messages
are abbreviated to short labels. -/
def parseAttrsGo (tag : List Char) :
    Nat → Nat → List (List Char × List Char) →
      Except (List Char) (List (List Char × List Char))
  | 0, _, _ => Except.error ('f' :: 'u' :: 'e' :: ['l'])
  | fuel + 1, i, acc =>
    let j := i + ((tag.drop i).takeWhile isAsciiWhitespace).length
    match tag[j]? with
    | none => Except.ok acc
    | some c =>
      if c = '>' ∨ c = '/' then Except.ok acc
      else
        let key := (tag.drop j).takeWhile (fun c2 =>
          !(isAsciiWhitespace c2) && !(c2 = '=') && !(c2 = '>') && !(c2 = '/'))
        if key = [] then Except.error ('k' :: 'e' :: ['y'])
        else
          let k3 := j + key.length
            + ((tag.drop (j + key.length)).takeWhile isAsciiWhitespace).length
          match tag[k3]? with
          | none => Except.error ('e' :: ['q'])
          | some ceq =>
            if ¬ ceq = '=' then Except.error ('e' :: 'q' :: ['2'])
            else
              let k5 := k3 + 1
                + ((tag.drop (k3 + 1)).takeWhile isAsciiWhitespace).length
              match tag[k5]? with
              | none => Except.error ('q' :: ['t'])
              | some q =>
                if ¬ (q = '"' ∨ q = Char.ofNat 39) then
                  Except.error ('q' :: 't' :: ['2'])
                else
                  let v := (tag.drop (k5 + 1)).takeWhile (fun c2 => !(c2 = q))
                  if tag.length ≤ k5 + 1 + v.length then
                    Except.error ('c' :: 'l' :: 'o' :: 's' :: ['e'])
                  else
                    parseAttrsGo tag fuel (k5 + 1 + v.length + 1)
                      (acc ++ [(key, Excel.decode_xml_entities v)])

/-- `parse_tag_attrs` from excel/writer.rs lines 505-600. -/
def parse_tag_attrs (tag : List Char) :
    Except (List Char) (List (List Char × List Char)) :=
  match findSub tag ['<'] with
  | none => Except.error ('l' :: ['t'])
  | some lt =>
    let i1 := lt + 1 + ((tag.drop (lt + 1)).takeWhile (fun c =>
      !(isAsciiWhitespace c) && !(c = '>') && !(c = '/'))).length
    if tag.length ≤ i1 then Except.error ('e' :: 'n' :: ['d'])
    else parseAttrsGo tag (tag.length + 1) i1 []

/-- `Worksheet::max_cell_col` from excel/writer.rs lines 208-214. -/
def Worksheet.max_cell_col (ws : Worksheet) : Nat :=
  (((ws.rows.map (fun p => p.2.cells.map Prod.fst)).flatten).max?).getD 1

/-- `Worksheet::max_row_num` from excel/writer.rs lines 215-217. -/
def Worksheet.max_row_num (ws : Worksheet) : Nat :=
  ((ws.rows.map Prod.fst).max?).getD 1

/-- `update_dimension_ref_xml` from excel/writer.rs lines 700-714: rewrite
the first `<dimension ...>` tag of the prefix (if any) to a self-closing
tag with `ref="start:end"`. -/
def update_dimension_ref_xml (prefix_xml start_ref end_ref : List Char) :
    Except (List Char) (List Char) :=
  match findSub prefix_xml
      ('<' :: 'd' :: 'i' :: 'm' :: 'e' :: 'n' :: 's' :: 'i' :: 'o' :: ['n']) with
  | none => Except.ok prefix_xml
  | some dim_pos =>
    match findSub (prefix_xml.drop dim_pos) ['>'] with
    | none => Except.ok prefix_xml
    | some rel =>
      match parse_tag_attrs ((prefix_xml.drop dim_pos).take (rel + 1)) with
      | Except.error e => Except.error e
      | Except.ok attrs =>
        Except.ok (prefix_xml.take dim_pos
          ++ ('<' :: 'd' :: 'i' :: 'm' :: 'e' :: 'n' :: 's' :: 'i' :: 'o' :: ['n'])
          ++ attrs_to_xml (set_attr attrs ('r' :: 'e' :: ['f'])
              (start_ref ++ ':' :: end_ref))
          ++ ('/' :: ['>'])
          ++ prefix_xml.drop (dim_pos + rel + 1))

/-- `Worksheet::update_dimension` from excel/writer.rs lines 218-224. -/
def Worksheet.update_dimension (ws : Worksheet) :
    Except (List Char) Worksheet :=
  match update_dimension_ref_xml ws.pfx ('A' :: ['1'])
      (col_to_name ws.max_cell_col ++ natDigits ws.max_row_num) with
  | Except.error e => Except.error e
  | Except.ok p => Except.ok { ws with pfx := p }

/-- `rebuild_master_rows` from src/master_sheet.rs lines 303-384, with the
worksheet state threaded explicitly: the row map is taken
(`std::mem::take`) before the `usize_to_u32` conversions, restored when
the placement closure fails or `update_dimension` fails, and **not**
restored when a `usize_to_u32` conversion or the `filter_end_row`
`checked_add` fails. -/
def rebuild_master_rows (ws : Worksheet) (shared_strings : List (List Char))
    (header_row data_start_row : Nat) (old_rows : List Nat)
    (kept_source_rows : List (Nat × Option SourceRecord))
    (new_sources : List SourceRecord) :
    Except (List Char) (Nat × Nat) × Worksheet :=
  let old_count := old_rows.length
  let old_end_row := old_rows.getLast?.getD (data_start_row - 1)
  let original_rows := ws.rows
  let ws0 : Worksheet := { ws with rows := [] }
  let deleted_rows := build_deleted_rows old_rows kept_source_rows
  let final_count := kept_source_rows.length + new_sources.length
  match usize_to_u32 old_count ('o' :: 'l' :: ['d']) with
  | Except.error e => (Except.error e, ws0)
  | Except.ok old_count_u32 =>
    match usize_to_u32 final_count ('f' :: 'i' :: ['n']) with
    | Except.error e => (Except.error e, ws0)
    | Except.ok final_count_u32 =>
      let row_mapper : RowMapper :=
        { has_old_rows := decide (0 < old_count)
          data_start_row := data_start_row
          old_end_row := old_end_row
          deleted_rows := deleted_rows
          old_count_u32 := old_count_u32
          increase := final_count_u32 - old_count_u32
          decrease := old_count_u32 - final_count_u32 }
      let template_row_num := old_rows.getLast?.getD data_start_row
      let template_row :=
        (btGet template_row_num original_rows).getD (default_row template_row_num)
      let base := build_rebased_non_data_rows original_rows data_start_row
        old_end_row row_mapper
      match placeKeptGo original_rows data_start_row row_mapper
          kept_source_rows 0 base [] with
      | Except.error e => (Except.error e, { ws0 with rows := original_rows })
      | Except.ok (nm1, kept_rows) =>
        match placeNewGo template_row template_row_num kept_source_rows.length
            data_start_row row_mapper new_sources 0 nm1 [] with
        | Except.error e => (Except.error e, { ws0 with rows := original_rows })
        | Except.ok (nm2, new_rows_from_sources) =>
          let ws2 := write_source_rows_to_master { ws0 with rows := nm2 }
            kept_rows new_rows_from_sources shared_strings
          if final_count = 0 then
            match ws2.update_dimension with
            | Except.error e => (Except.error e, { ws2 with rows := original_rows })
            | Except.ok ws3 =>
              (Except.ok (data_start_row,
                max (((btGet header_row ws3.rows).bind
                    (fun r => (r.cells.map Prod.fst).max?)).getD 1)
                  ws3.max_cell_col), ws3)
          else if data_start_row + (final_count_u32 - 1) ≤ 4294967295 then
            match ws2.update_dimension with
            | Except.error e => (Except.error e, { ws2 with rows := original_rows })
            | Except.ok ws3 =>
              (Except.ok (data_start_row + (final_count_u32 - 1),
                max (((btGet header_row ws3.rows).bind
                    (fun r => (r.cells.map Prod.fst).max?)).getD 1)
                  ws3.max_cell_col), ws3)
          else (Except.error ('c' :: 'h' :: ['k']), ws2)

/-- A one-row worksheet (row 1 present), for exercising the repack
error paths. -/
def c6ws : Worksheet :=
  { pfx := [], sfx := [], rows := [(1, default_row 1)] }

/-- An all-empty source record. -/
def c6rec : SourceRecord :=
  { region := [], name := [], brand := [], self_yn := [], address := [],
    phone := [], gasoline := none, premium := none, diesel := none }

/-! ## Worksheet parse / serialize (excel/writer.rs, excel/xml.rs) -/

/-- `local_tag_name` from excel/xml.rs lines 148-150: the segment after
the last `:` (the whole name when there is none). -/
def local_tag_name (name : List Char) : List Char :=
  (name.reverse.takeWhile (fun c => !(c = ':'))).reverse

/-- Loop of `find_start_tag` (excel/xml.rs lines 27-47); the cursor
advances by at least one per iteration. -/
def findStartTagGo (xml wanted : List Char) : Nat → Nat → Option Nat
  | _, 0 => none
  | cursor, fuel + 1 =>
    match findSub (xml.drop cursor) ['<'] with
    | none => none
    | some rel =>
      let start := cursor + rel
      let rest := xml.drop (start + 1)
      if rest.head? = some '/' ∨ rest.head? = some '!' ∨ rest.head? = some '?' then
        findStartTagGo xml wanted (start + 1) fuel
      else
        let raw_name := rest.takeWhile (fun c =>
          !(isAsciiWhitespace c) && !(c = '/') && !(c = '>'))
        if raw_name ≠ [] ∧ local_tag_name raw_name = wanted then some start
        else findStartTagGo xml wanted (start + 1) fuel

/-- `find_start_tag` from excel/xml.rs. -/
def find_start_tag (xml tag : List Char) (start : Nat) : Option Nat :=
  findStartTagGo xml (local_tag_name tag) (min start xml.length) (xml.length + 1)

/-- Loop of `find_end_tag` (excel/xml.rs lines 48-64). -/
def findEndTagGo (xml wanted : List Char) : Nat → Nat → Option Nat
  | _, 0 => none
  | cursor, fuel + 1 =>
    match findSub (xml.drop cursor) ('<' :: ['/']) with
    | none => none
    | some rel =>
      let start := cursor + rel
      let rest := xml.drop (start + 2)
      let raw_name := rest.takeWhile (fun c =>
        !(isAsciiWhitespace c) && !(c = '>'))
      if raw_name ≠ [] ∧ local_tag_name raw_name = wanted then some start
      else findEndTagGo xml wanted (start + 2) fuel

/-- `find_end_tag` from excel/xml.rs. -/
def find_end_tag (xml tag : List Char) (start : Nat) : Option Nat :=
  findEndTagGo xml (local_tag_name tag) (min start xml.length) (xml.length + 1)

/-- `find_tag_end` from excel/xml.rs lines 65-69. -/
def find_tag_end (xml : List Char) (tag_start : Nat) : Option Nat :=
  (findSub (xml.drop tag_start) ['>']).map (fun rel => tag_start + rel)

/-- Character loop of `parse_cell_ref` (excel/writer.rs lines 618-635):
`$` skipped, letters build the column name (none may follow a digit),
digits build the row text, anything else rejects. -/
def parseCellRefGo : List Char → List Char → List Char →
    Option (List Char × List Char)
  | [], colS, rowS => some (colS, rowS)
  | c :: t, colS, rowS =>
    if c = '$' then parseCellRefGo t colS rowS
    else if isAsciiAlpha c then
      if ¬ rowS = [] then none else parseCellRefGo t (colS ++ [c]) rowS
    else if isAsciiDigit c then parseCellRefGo t colS (rowS ++ [c])
    else none

/-- `parse_cell_ref` from excel/writer.rs lines 618-639. -/
def parse_cell_ref (cell_ref : List Char) : Option (Nat × Nat) :=
  match parseCellRefGo cell_ref [] [] with
  | none => none
  | some (colS, rowS) =>
    match name_to_col colS with
    | none => none
    | some col =>
      match parseU32 rowS with
      | none => none
      | some row => some (col, row)

/-- `attr_sort_key` rank from excel/writer.rs lines 483-493: `r`, `s`,
`t`, then everything else. -/
def attr_sort_key_rank (name : List Char) : Nat :=
  if name = ['r'] then 0
  else if name = ['s'] then 1
  else if name = ['t'] then 2
  else 3

/-- The comparison `attr_sort_key(a).cmp(attr_sort_key(b))` is non-`gt`:
rank first, then the name lexicographically. -/
def attrKeyLe (a b : List Char × List Char) : Bool :=
  decide (attr_sort_key_rank a.1 < attr_sort_key_rank b.1)
    || (decide (attr_sort_key_rank a.1 = attr_sort_key_rank b.1)
      && !(listCmp a.1 b.1 = Ordering.gt))

/-- One step of a stable insertion sort by `attrKeyLe` (Rust
`sort_by` is stable: an element is inserted before the first strictly
greater one). -/
def insertAttr (x : List Char × List Char) :
    List (List Char × List Char) → List (List Char × List Char)
  | [] => [x]
  | y :: t => if attrKeyLe x y then x :: y :: t else y :: insertAttr x t

/-- `attrs.sort_by(|a, b| attr_sort_key(&a.0).cmp(&attr_sort_key(&b.0)))`
as a stable insertion sort. -/
def sortAttrs (l : List (List Char × List Char)) :
    List (List Char × List Char) :=
  l.foldr insertAttr []

/-- `cell_to_xml` from excel/writer.rs lines 454-468. -/
def cell_to_xml (cell : Cell) : List Char :=
  ('<' :: ['c']) ++ attrs_to_xml (sortAttrs cell.attrs)
    ++ (match cell.inner_xml with
      | some inner => ['>'] ++ inner ++ ('<' :: '/' :: 'c' :: ['>'])
      | none => ('/' :: ['>']))

/-- `row_to_xml` from excel/writer.rs lines 437-453. -/
def row_to_xml (row : Row) : List Char :=
  ('<' :: 'r' :: 'o' :: ['w']) ++ attrs_to_xml (sortAttrs row.attrs)
    ++ (if row.cells = [] then ('/' :: ['>'])
      else ['>'] ++ (row.cells.map (fun p => cell_to_xml p.2)).flatten
        ++ ('<' :: '/' :: 'r' :: 'o' :: 'w' :: ['>']))

/-- `Worksheet::to_xml` from excel/writer.rs lines 109-117. -/
def Worksheet.to_xml (ws : Worksheet) : List Char :=
  ws.pfx ++ (ws.rows.map (fun p => row_to_xml p.2)).flatten ++ ws.sfx

/-- Cell loop of `parse_row_cells` (excel/writer.rs lines 388-436):
scan for `<c`, read the tag attributes, resolve the column from the `r`
attribute (falling back to `next_col`), restamp `r`, and take the inner
XML up to `</c>` for a non-self-closing cell. -/
def parseCellsGo (row_body : List Char) (row_num : Nat) :
    Nat → Nat → Nat → List (Nat × Cell) →
      Except (List Char) (List (Nat × Cell))
  | 0, _, _, _ => Except.error ('c' :: 'f' :: ['l'])
  | fuel + 1, cursor, next_col, cells =>
    match findSub (row_body.drop cursor) ('<' :: ['c']) with
    | none => Except.ok cells
    | some rel =>
      let cell_open := cursor + rel
      match findSub (row_body.drop cell_open) ['>'] with
      | none => Except.error ('c' :: 't' :: ['g'])
      | some tagRel =>
        let cell_tag := (row_body.drop cell_open).take (tagRel + 1)
        match parse_tag_attrs cell_tag with
        | Except.error e => Except.error e
        | Except.ok attrs =>
          let col := match (get_attr attrs ['r']).bind
              (fun v => (parse_cell_ref v).map Prod.fst) with
            | some c => c
            | none => next_col
          let attrs2 := set_attr attrs ['r'] (col_to_name col ++ natDigits row_num)
          if ('/' :: ['>']).isSuffixOf cell_tag then
            parseCellsGo row_body row_num fuel (cell_open + tagRel + 1)
              (min (col + 1) 4294967295)
              (btInsert col { attrs := attrs2, inner_xml := none } cells)
          else
            match findSub (row_body.drop (cell_open + tagRel + 1))
                ('<' :: '/' :: 'c' :: ['>']) with
            | none => Except.error ('c' :: 'c' :: ['l'])
            | some crel =>
              parseCellsGo row_body row_num fuel
                (cell_open + tagRel + 1 + crel + 4) (min (col + 1) 4294967295)
                (btInsert col
                  { attrs := attrs2
                    inner_xml := some ((row_body.drop (cell_open + tagRel + 1)).take crel) }
                  cells)

/-- `parse_row_cells` from excel/writer.rs lines 388-436 (the `row` is
returned as its finished cell map). -/
def parse_row_cells (row_body : List Char) (row_num : Nat) :
    Except (List Char) (List (Nat × Cell)) :=
  parseCellsGo row_body row_num (row_body.length + 1) 0 1 []

/-- Row loop of `parse_rows_from_sheet_data` (excel/writer.rs lines
342-387): scan for `<row`, read the tag attributes, the row number from
the `r` attribute (falling back to last row + 1), restamp `r`, and parse
the row body up to `</row>` for a non-self-closing row. -/
def parseRowsGo (body : List Char) :
    Nat → Nat → List (Nat × Row) → Except (List Char) (List (Nat × Row))
  | 0, _, _ => Except.error ('r' :: 'f' :: ['l'])
  | fuel + 1, cursor, rows =>
    match findSub (body.drop cursor) ('<' :: 'r' :: 'o' :: ['w']) with
    | none => Except.ok rows
    | some rel =>
      let row_open := cursor + rel
      match findSub (body.drop row_open) ['>'] with
      | none => Except.error ('r' :: 't' :: ['g'])
      | some tagRel =>
        let row_tag := (body.drop row_open).take (tagRel + 1)
        match parse_tag_attrs row_tag with
        | Except.error e => Except.error e
        | Except.ok row_attrs =>
          let row_num := match (get_attr row_attrs ['r']).bind parseU32 with
            | some v => v
            | none => ((rows.map Prod.fst).getLast?).getD 0 + 1
          let row_attrs2 := set_attr row_attrs ['r'] (natDigits row_num)
          if ('/' :: ['>']).isSuffixOf row_tag then
            parseRowsGo body fuel (row_open + tagRel + 1)
              (btInsert row_num { attrs := row_attrs2, cells := [] } rows)
          else
            match findSub (body.drop (row_open + tagRel + 1))
                ('<' :: '/' :: 'r' :: 'o' :: 'w' :: ['>']) with
            | none => Except.error ('r' :: 'c' :: ['l'])
            | some closeRel =>
              match parse_row_cells
                  ((body.drop (row_open + tagRel + 1)).take closeRel) row_num with
              | Except.error e => Except.error e
              | Except.ok cells =>
                parseRowsGo body fuel (row_open + tagRel + 1 + closeRel + 6)
                  (btInsert row_num { attrs := row_attrs2, cells := cells } rows)

/-- `parse_rows_from_sheet_data` from excel/writer.rs lines 342-387. -/
def parse_rows_from_sheet_data (body : List Char) :
    Except (List Char) (List (Nat × Row)) :=
  parseRowsGo body (body.length + 1) 0 []

/-- The tag name `sheetData`. -/
def sheetDataChars : List Char :=
  's' :: 'h' :: 'e' :: 'e' :: 't' :: 'D' :: 'a' :: 't' :: ['a']

/-- `Worksheet::parse` from excel/writer.rs lines 86-108: everything up
to and including the `<sheetData ...>` open tag is the prefix, everything
from `</sheetData>` on is the suffix, the rows are parsed from the body
in between. -/
def Worksheet.parse (xml : List Char) : Except (List Char) Worksheet :=
  match find_start_tag xml sheetDataChars 0 with
  | none => Except.error ('s' :: 'd' :: ['1'])
  | some sdo =>
    match find_tag_end xml sdo with
    | none => Except.error ('s' :: 'd' :: ['2'])
    | some sdoe =>
      match find_end_tag xml sheetDataChars (sdoe + 1) with
      | none => Except.error ('s' :: 'd' :: ['3'])
      | some sdc =>
        match parse_rows_from_sheet_data
            ((xml.drop (sdoe + 1)).take (sdc - (sdoe + 1))) with
        | Except.error e => Except.error e
        | Except.ok rows =>
          Except.ok { pfx := xml.take (sdoe + 1), sfx := xml.drop sdc, rows := rows }

/-! ## Canonical-form predicates for the parse / serialize round trip

`cell_to_xml` / `row_to_xml` emit the attribute list through
`attrs_to_xml`; the predicates below describe the worksheets whose
serialized form the parser retraces exactly: sorted well-formed
attributes, `r` attributes spelling the canonical column-name/row-number
print, strictly increasing map keys, and inner XML free of the closing
tags the scanners search for. -/

/-- One serialized attribute: a space, the key, `="`, the escaped value
and the closing quote (the append step of `attrs_to_xml`). -/
def attrChunk (p : List Char × List Char) : List Char :=
  ' ' :: p.1 ++ '=' :: '"' :: Excel.xml_escape_attr p.2 ++ ['"']

/-- Characters the tag-attribute scanner accepts inside an attribute
key: no whitespace and none of `=`, `>`, `/`. -/
def attrKeyChar (c : Char) : Bool :=
  !(isAsciiWhitespace c) && !(c = '=') && !(c = '>') && !(c = '/')

/-- Characters legal in a tag name for the name scan of
`parse_tag_attrs`. -/
def tagNameChar (c : Char) : Bool :=
  !(isAsciiWhitespace c) && !(c = '>') && !(c = '/')

/-- Well-formed attribute binding: a non-empty key of scanner-legal
characters. -/
def attrWf (p : List Char × List Char) : Bool :=
  !(p.1 = []) && p.1.all attrKeyChar

/-- Adjacent attributes already in the order that sorting by
`attr_sort_key` keeps. -/
def attrsLeChain : List (List Char × List Char) → Bool
  | [] => true
  | [_] => true
  | a :: b :: t => attrKeyLe a b && attrsLeChain (b :: t)

/-- Strictly increasing key chain (the shape `BTreeMap` iteration
produces). -/
def natKeysInc : List Nat → Bool
  | [] => true
  | [_] => true
  | a :: b :: t => decide (a < b) && natKeysInc (b :: t)

/-- No occurrence of `pat` starts strictly inside `l` when `l` is
followed by `pat`: every interior position fails the prefix test. -/
def noSub (pat l : List Char) : Bool :=
  (List.range l.length).all (fun k => !(pat.isPrefixOf (l.drop k ++ pat)))

/-- Canonical cell at column `col` of row `n`: sorted well-formed
attributes, an `r` attribute spelling exactly the column name followed
by the decimal row number, a column in spreadsheet range, and inner XML
free of `</c>`. -/
def cellWf (n col : Nat) (cell : Cell) : Bool :=
  cell.attrs.all attrWf
    && attrsLeChain cell.attrs
    && (get_attr cell.attrs ['r'] == some (col_to_name col ++ natDigits n))
    && decide (1 ≤ col) && decide (col ≤ 16384)
    && (match cell.inner_xml with
        | none => true
        | some inner => noSub ('<' :: '/' :: 'c' :: ['>']) inner)

/-- Canonical row numbered `n`: sorted well-formed attributes, an `r`
attribute spelling the decimal row number, a row number in `u32` range,
strictly increasing cell columns, canonical cells and a serialized cell
band free of `</row>`. -/
def rowWf (n : Nat) (row : Row) : Bool :=
  row.attrs.all attrWf
    && attrsLeChain row.attrs
    && (get_attr row.attrs ['r'] == some (natDigits n))
    && decide (n ≤ 4294967295)
    && natKeysInc (row.cells.map Prod.fst)
    && row.cells.all (fun p => cellWf n p.1 p.2)
    && noSub ('<' :: '/' :: 'r' :: 'o' :: 'w' :: ['>'])
        ((row.cells.map (fun p => cell_to_xml p.2)).flatten)

/-- Serialized row band of a worksheet (what `to_xml` places between
prefix and suffix). -/
def wsBody (ws : Worksheet) : List Char :=
  (ws.rows.map (fun p => row_to_xml p.2)).flatten

/-- Canonical worksheet: strictly increasing row numbers, canonical rows
and a non-empty prefix. -/
def wsCanonical (ws : Worksheet) : Bool :=
  natKeysInc (ws.rows.map Prod.fst)
    && ws.rows.all (fun p => rowWf p.1 p.2)
    && !(ws.pfx = [])

/-- The markup `<sheetData><row r="007"/></sheetData>`: its attributes
are already in canonical order, yet the parser renumbers the row from
its `r` attribute and the serializer prints the number without leading
zeros. -/
def c3x : List Char :=
  '<' :: 's' :: 'h' :: 'e' :: 'e' :: 't' :: 'D' :: 'a' :: 't' :: 'a' :: '>' ::
    '<' :: 'r' :: 'o' :: 'w' :: ' ' :: 'r' :: '=' :: '"' :: '0' :: '0' :: '7' ::
    '"' :: '/' :: '>' ::
    '<' :: '/' :: 's' :: 'h' :: 'e' :: 'e' :: 't' :: 'D' :: 'a' :: 't' :: 'a' :: ['>']

/-- The worksheet `Worksheet::parse` builds from `c3x` (row renumbered
to `7`). -/
def c3pw : Worksheet :=
  { pfx := '<' :: 's' :: 'h' :: 'e' :: 'e' :: 't' :: 'D' :: 'a' :: 't' :: 'a' :: ['>']
    sfx := '<' :: '/' :: 's' :: 'h' :: 'e' :: 'e' :: 't' :: 'D' :: 'a' :: 't' :: 'a' :: ['>']
    rows := [(7, { attrs := [(['r'], ['7'])], cells := [] })] }

/-- A small canonical worksheet: one row with one cell carrying inner
XML, for exercising the round trip concretely. -/
def c3w : Worksheet :=
  { pfx := '<' :: 's' :: 'h' :: 'e' :: 'e' :: 't' :: 'D' :: 'a' :: 't' :: 'a' :: ['>']
    sfx := '<' :: '/' :: 's' :: 'h' :: 'e' :: 'e' :: 't' :: 'D' :: 'a' :: 't' :: 'a' :: ['>']
    rows := [(1,
      { attrs := [(['r'], ['1'])]
        cells := [(1,
          { attrs := [(['r'], 'A' :: ['1']), (['s'], ['0'])]
            inner_xml := some ('<' :: 'v' :: '>' :: '5' :: '<' :: '/' :: 'v' :: ['>']) })] })] }

/-! ## Theorems -/

/-! ### Generic list helpers -/

theorem getElem?_eq_head?_drop (chars : List Char) (i : Nat) :
    chars[i]? = (chars.drop i).head? := by
  rw [List.head?_eq_getElem?, List.getElem?_drop]
  simp

theorem takeWhile_append_stop {p : Char → Bool} {xs ys : List Char} {y : Char}
    (hy : p y = false) :
    List.takeWhile p (xs ++ y :: ys) = List.takeWhile p xs := by
  rw [List.takeWhile_append]
  split
  · next hlen =>
    have hx : List.takeWhile p xs = xs :=
      (List.takeWhile_prefix p).eq_of_length hlen
    simp [List.takeWhile_cons, hy, hx]
  · rfl

/-! ### `tryParseCore` facts -/

theorem lockSplit_spec (s : List Char) :
    (lockSplit s).1 + (lockSplit s).2.length = s.length ∧ (lockSplit s).1 ≤ 1 := by
  unfold lockSplit
  split
  · next hh =>
    cases s with
    | nil => simp at hh
    | cons a t => simp [Nat.add_comm]
  · simp

theorem tryParseCore_consumed {s : List Char} {prev : Option Char}
    {res : Nat → Nat} {n : Nat} {rep : List Char}
    (h : tryParseCore s prev res = some (n, rep)) :
    2 ≤ n ∧ n ≤ s.length := by
  rcases hp1 : lockSplit s with ⟨k1, s1⟩
  rcases hp2 : lockSplit (s1.drop (s1.takeWhile isAsciiAlpha).length) with ⟨k2, s3⟩
  have hk1 := lockSplit_spec s
  have hk2 := lockSplit_spec (s1.drop (s1.takeWhile isAsciiAlpha).length)
  rw [hp1] at hk1
  rw [hp2] at hk2
  simp only [Prod.fst, Prod.snd] at hk1 hk2
  unfold tryParseCore at h
  simp only [hp1, hp2] at h
  split at h
  · simp at h
  · next hcol =>
    split at h
    · simp at h
    · split at h
      · simp at h
      · next hrow =>
        split at h
        · simp at h
        · split at h
          · simp at h
          · split at h
            · simp at h
            · simp only [Option.some.injEq, Prod.mk.injEq] at h
              obtain ⟨hn, -⟩ := h
              subst hn
              have h1 : 0 < (s1.takeWhile isAsciiAlpha).length :=
                List.length_pos.2 hcol
              have h2 : 0 < (s3.takeWhile isAsciiDigit).length :=
                List.length_pos.2 hrow
              have h3 : (s1.takeWhile isAsciiAlpha).length ≤ s1.length :=
                (List.takeWhile_prefix _).length_le
              have h4 : (s3.takeWhile isAsciiDigit).length ≤ s3.length :=
                (List.takeWhile_prefix _).length_le
              have h5 : (s1.drop (s1.takeWhile isAsciiAlpha).length).length
                  = s1.length - (s1.takeWhile isAsciiAlpha).length := by
                simp
              constructor
              · omega
              · omega

theorem isAsciiAlpha_quote : isAsciiAlpha '"' = false := by decide

theorem isAsciiDigit_quote : isAsciiDigit '"' = false := by decide

theorem refGuard_quote : refGuard (some '"') = false := by decide

theorem refGuard_none : refGuard none = false := rfl

theorem lockSplit_append_of_ne_nil {s : List Char} (hs : s ≠ []) (X : List Char) :
    lockSplit (s ++ X) = ((lockSplit s).1, (lockSplit s).2 ++ X) := by
  cases s with
  | nil => exact absurd rfl hs
  | cons a t =>
    unfold lockSplit
    by_cases ha : a = '$' <;> simp [ha]

/-- Appending text that begins with a double quote after the scanned suffix
does not change the outcome of `tryParseCore`: the quote stops every
letter/digit run and fails both reference guards, exactly as running past
the end of the suffix does. -/
theorem tryParseCore_append_quote (s ys : List Char) (prev : Option Char)
    (res : Nat → Nat) :
    tryParseCore (s ++ '"' :: ys) prev res = tryParseCore s prev res := by
  rcases hs : s with _ | ⟨a, t⟩
  · unfold tryParseCore lockSplit
    simp [List.takeWhile, isAsciiAlpha_quote]
  · rw [← hs]
    have hs' : s ≠ [] := by rw [hs]; simp
    rcases hp1 : lockSplit s with ⟨k1, s1⟩
    have hctx1 : lockSplit (s ++ '"' :: ys) = (k1, s1 ++ '"' :: ys) := by
      rw [lockSplit_append_of_ne_nil hs', hp1]
    have hk1 := lockSplit_spec s
    rw [hp1] at hk1
    simp only [Prod.fst, Prod.snd] at hk1
    unfold tryParseCore
    simp only [hp1, hctx1]
    have hcol : List.takeWhile isAsciiAlpha (s1 ++ '"' :: ys)
        = List.takeWhile isAsciiAlpha s1 :=
      takeWhile_append_stop isAsciiAlpha_quote
    rw [hcol]
    set colText := List.takeWhile isAsciiAlpha s1 with hct
    by_cases hc0 : colText = []
    · simp [hc0]
    · simp only [hc0, if_false]
      cases hname : name_to_col colText with
      | none => rfl
      | some cval =>
        have hmle : colText.length ≤ s1.length := by
          rw [hct]; exact (List.takeWhile_prefix _).length_le
        have hdrop : (s1 ++ '"' :: ys).drop colText.length
            = s1.drop colText.length ++ '"' :: ys := by
          rw [List.drop_append_eq_append_drop]
          have h0 : colText.length - s1.length = 0 := by omega
          rw [h0]
          simp
        rw [hdrop]
        rcases hp2 : lockSplit (s1.drop colText.length) with ⟨k2, s3⟩
        have hk2 := lockSplit_spec (s1.drop colText.length)
        rw [hp2] at hk2
        simp only [Prod.fst, Prod.snd] at hk2
        by_cases hd0 : s1.drop colText.length = []
        · -- the whole suffix is consumed before the row digits
          have hp2' : k2 = 0 ∧ s3 = [] := by
            rw [hd0] at hp2
            unfold lockSplit at hp2
            simp at hp2
            exact ⟨hp2.1.symm, hp2.2⟩
          obtain ⟨hk20, hs30⟩ := hp2'
          have hctx2 : lockSplit ((s1.drop colText.length) ++ '"' :: ys)
              = (0, '"' :: ys) := by
            rw [hd0]
            unfold lockSplit
            simp
          rw [hctx2]
          simp only [hk20, hs30]
          simp [List.takeWhile_cons, isAsciiDigit_quote, List.takeWhile]
        · have hctx2 : lockSplit ((s1.drop colText.length) ++ '"' :: ys)
              = (k2, s3 ++ '"' :: ys) := by
            rw [lockSplit_append_of_ne_nil hd0, hp2]
          rw [hctx2]
          have hrow : List.takeWhile isAsciiDigit (s3 ++ '"' :: ys)
              = List.takeWhile isAsciiDigit s3 :=
            takeWhile_append_stop isAsciiDigit_quote
          rw [hrow]
          set rowText := List.takeWhile isAsciiDigit s3 with hrt
          by_cases hr0 : rowText = []
          · simp [hr0]
          · simp only [hr0, if_false]
            by_cases hg1 : refGuard prev
            · simp [hg1]
            · simp only [hg1, if_false, Bool.false_eq_true]
              have hrle : rowText.length ≤ s3.length := by
                rw [hrt]; exact (List.takeWhile_prefix _).length_le
              have hcons : k1 + colText.length + k2 + rowText.length ≤ s.length := by
                have : (s1.drop colText.length).length
                    = s1.length - colText.length := by simp
                omega
              have hguard : refGuard (s ++ '"' :: ys)[k1 + colText.length + k2 + rowText.length]?
                  = refGuard s[k1 + colText.length + k2 + rowText.length]? := by
                rcases Nat.lt_or_ge (k1 + colText.length + k2 + rowText.length) s.length with hlt | hge
                · rw [List.getElem?_append]
                  simp [hlt]
                · have h1 : s[k1 + colText.length + k2 + rowText.length]? = none :=
                    List.getElem?_eq_none hge
                  have h2 : k1 + colText.length + k2 + rowText.length = s.length := by omega
                  rw [h1, List.getElem?_append_right hge, h2]
                  simp [refGuard_quote, refGuard_none]
              rw [hguard]

theorem tryParseCore_congr_prev {s : List Char} {p1 p2 : Option Char}
    {res : Nat → Nat} (h : refGuard p1 = refGuard p2) :
    tryParseCore s p1 res = tryParseCore s p2 res := by
  unfold tryParseCore
  rw [h]

theorem is_cell_ref_start_ne_quote {ch : Char}
    (h : is_cell_ref_start ch = true) : ch ≠ '"' := by
  intro hq
  subst hq
  revert h
  decide

theorem tryParseCore_some_head {s : List Char} {prev : Option Char}
    {res : Nat → Nat} {n : Nat} {rep : List Char}
    (h : tryParseCore s prev res = some (n, rep)) :
    ∃ ch, s.head? = some ch ∧ is_cell_ref_start ch = true := by
  rcases hp1 : lockSplit s with ⟨k1, s1⟩
  unfold tryParseCore at h
  simp only [hp1] at h
  by_cases hc0 : List.takeWhile isAsciiAlpha s1 = []
  · simp [hc0] at h
  · unfold lockSplit at hp1
    split at hp1
    · next hh =>
      exact ⟨'$', hh, by decide⟩
    · have hs1 : s1 = s := by
        have h' := hp1
        simp at h'
        exact h'.2.symm
      cases hs : s1 with
      | nil => rw [hs] at hc0; simp [List.takeWhile] at hc0
      | cons a t =>
        by_cases ha : isAsciiAlpha a
        · refine ⟨a, ?_, by simp [is_cell_ref_start, ha]⟩
          rw [← hs1, hs]
          rfl
        · rw [hs] at hc0
          simp [List.takeWhile_cons, ha] at hc0

theorem tryParse_some_bounds {chars : List Char} {i : Nat} {res : Nat → Nat}
    {stop : Nat} {rep : List Char}
    (h : try_parse_and_rewrite_cell_ref chars i res = some (stop, rep)) :
    i + 2 ≤ stop ∧ stop ≤ chars.length := by
  unfold try_parse_and_rewrite_cell_ref at h
  cases hc : tryParseCore (chars.drop i)
      (if i = 0 then none else chars[i - 1]?) res with
  | none => rw [hc] at h; cases h
  | some p =>
    rcases p with ⟨n, rep'⟩
    rw [hc] at h
    simp at h
    obtain ⟨hstop, -⟩ := h
    have hb := tryParseCore_consumed hc
    have hlen : (chars.drop i).length = chars.length - i := by simp
    omega

theorem tryParse_some_head {chars : List Char} {i : Nat} {res : Nat → Nat}
    {stop : Nat} {rep : List Char}
    (h : try_parse_and_rewrite_cell_ref chars i res = some (stop, rep)) :
    ∃ ch, chars[i]? = some ch ∧ is_cell_ref_start ch = true := by
  unfold try_parse_and_rewrite_cell_ref at h
  cases hc : tryParseCore (chars.drop i)
      (if i = 0 then none else chars[i - 1]?) res with
  | none => rw [hc] at h; cases h
  | some p =>
    obtain ⟨ch, hch, hstart⟩ := tryParseCore_some_head hc
    exact ⟨ch, by rw [getElem?_eq_head?_drop]; exact hch, hstart⟩

/-! ### Reduction lemmas for the excel scanner loop -/

theorem goE_none {res : Nat → Nat} {chars : List Char} {f i : Nat} {s : Bool}
    (hi : chars[i]? = none) : rewriteGoE res chars f i s = [] := by
  cases f <;> simp [rewriteGoE, hi]

theorem goE_quote_enter {res : Nat → Nat} {chars : List Char} {f i : Nat}
    (hch : chars[i]? = some '"') :
    rewriteGoE res chars (f + 1) i false
      = '"' :: rewriteGoE res chars f (i + 1) true := by
  simp [rewriteGoE, hch]

theorem goE_quote_esc {res : Nat → Nat} {chars : List Char} {f i : Nat}
    (hch : chars[i]? = some '"') (hnext : chars[i + 1]? = some '"') :
    rewriteGoE res chars (f + 1) i true
      = '"' :: '"' :: rewriteGoE res chars f (i + 2) true := by
  simp [rewriteGoE, hch, hnext]

theorem goE_quote_close {res : Nat → Nat} {chars : List Char} {f i : Nat}
    (hch : chars[i]? = some '"') (hnext : chars[i + 1]? ≠ some '"') :
    rewriteGoE res chars (f + 1) i true
      = '"' :: rewriteGoE res chars f (i + 1) false := by
  simp [rewriteGoE, hch, hnext]

theorem goE_inString {res : Nat → Nat} {chars : List Char} {f i : Nat}
    {ch : Char} (hch : chars[i]? = some ch) (hq : ch ≠ '"') :
    rewriteGoE res chars (f + 1) i true
      = ch :: rewriteGoE res chars f (i + 1) true := by
  simp [rewriteGoE, hch, hq]

theorem goE_ref {res : Nat → Nat} {chars : List Char} {f i stop : Nat}
    {rep : List Char}
    (hp : try_parse_and_rewrite_cell_ref chars i res = some (stop, rep)) :
    rewriteGoE res chars (f + 1) i false
      = rep ++ rewriteGoE res chars f stop false := by
  obtain ⟨ch, hch, hstart⟩ := tryParse_some_head hp
  have hq : ch ≠ '"' := is_cell_ref_start_ne_quote hstart
  simp [rewriteGoE, hch, hq, hstart, hp]

theorem goE_plain {res : Nat → Nat} {chars : List Char} {f i : Nat} {ch : Char}
    (hch : chars[i]? = some ch) (hq : ch ≠ '"')
    (hp : try_parse_and_rewrite_cell_ref chars i res = none) :
    rewriteGoE res chars (f + 1) i false
      = ch :: rewriteGoE res chars f (i + 1) false := by
  by_cases hs : is_cell_ref_start ch <;> simp [rewriteGoE, hch, hq, hs, hp]

theorem getElem?_some_lt {chars : List Char} {i : Nat} {ch : Char}
    (hch : chars[i]? = some ch) : i < chars.length := by
  by_contra hcon
  push_neg at hcon
  rw [List.getElem?_eq_none hcon] at hch
  cases hch

/-- The scanner's result does not depend on the fuel, as long as the fuel
bounds the number of remaining loop iterations (each iteration advances the
index by at least one). -/
theorem rewriteGoE_fuel {res : Nat → Nat} {chars : List Char} :
    ∀ {f g i : Nat} {s : Bool}, chars.length ≤ i + f → chars.length ≤ i + g →
      rewriteGoE res chars f i s = rewriteGoE res chars g i s := by
  intro f
  induction f with
  | zero =>
    intro g i s hf hg
    have hi : chars[i]? = none := List.getElem?_eq_none (by omega)
    rw [goE_none hi, goE_none hi]
  | succ f ih =>
    intro g i s hf hg
    cases g with
    | zero =>
      have hi : chars[i]? = none := List.getElem?_eq_none (by omega)
      rw [goE_none hi, goE_none hi]
    | succ g =>
      cases hch : chars[i]? with
      | none => rw [goE_none hch, goE_none hch]
      | some ch =>
        have hlt : i < chars.length := getElem?_some_lt hch
        by_cases hq : ch = '"'
        · subst hq
          cases s with
          | false =>
            rw [goE_quote_enter hch, goE_quote_enter hch]
            exact congrArg _ (ih (by omega) (by omega))
          | true =>
            by_cases hnext : chars[i + 1]? = some '"'
            · rw [goE_quote_esc hch hnext, goE_quote_esc hch hnext]
              exact congrArg _ (congrArg _ (ih (by omega) (by omega)))
            · rw [goE_quote_close hch hnext, goE_quote_close hch hnext]
              exact congrArg _ (ih (by omega) (by omega))
        · cases s with
          | true =>
            rw [goE_inString hch hq, goE_inString hch hq]
            exact congrArg _ (ih (by omega) (by omega))
          | false =>
            cases hp : try_parse_and_rewrite_cell_ref chars i res with
            | some p =>
              rcases p with ⟨stop, rep⟩
              have hb := tryParse_some_bounds hp
              rw [goE_ref hp, goE_ref hp]
              exact congrArg _ (ih (by omega) (by omega))
            | none =>
              rw [goE_plain hch hq hp, goE_plain hch hq hp]
              exact congrArg _ (ih (by omega) (by omega))

/-! ### The excel scanner copies string literals verbatim -/

theorem rewriteGoE_litBody {res : Nat → Nat} {chars : List Char} :
    ∀ {b : List Char}, LitBody b →
      ∀ {i : Nat} {rest : List Char} {f : Nat} (g : Nat),
        chars.drop i = b ++ '"' :: rest → rest.head? ≠ some '"' →
        chars.length ≤ i + f → chars.length ≤ (i + b.length + 1) + g →
        rewriteGoE res chars f i true
          = b ++ '"' :: rewriteGoE res chars g (i + b.length + 1) false := by
  intro b hb
  induction hb with
  | nil =>
    intro i rest f g hdrop hrest hf hg
    have hch : chars[i]? = some '"' := by
      rw [getElem?_eq_head?_drop, hdrop]; rfl
    have hlt : i < chars.length := getElem?_some_lt hch
    have hnext : chars[i + 1]? ≠ some '"' := by
      rw [getElem?_eq_head?_drop, ← List.tail_drop, hdrop]
      simpa using hrest
    obtain ⟨f', rfl⟩ : ∃ f', f = f' + 1 := ⟨f - 1, by omega⟩
    rw [goE_quote_close hch hnext]
    simp only [List.nil_append, List.length_nil]
    have hg' : chars.length ≤ i + 0 + 1 + g := by simpa using hg
    exact congrArg _ (rewriteGoE_fuel (by omega) (by omega))
  | cons c hc t ht ih =>
    intro i rest f g hdrop hrest hf hg
    have hch : chars[i]? = some c := by
      rw [getElem?_eq_head?_drop, hdrop]; rfl
    have hlt : i < chars.length := getElem?_some_lt hch
    obtain ⟨f', rfl⟩ : ∃ f', f = f' + 1 := ⟨f - 1, by omega⟩
    rw [goE_inString hch hc]
    have hdrop' : chars.drop (i + 1) = t ++ '"' :: rest := by
      rw [← List.tail_drop, hdrop]; rfl
    have hlen : (c :: t).length = t.length + 1 := by simp
    rw [ih g hdrop' hrest (by omega) (by omega)]
    have harith : i + 1 + t.length + 1 = i + (c :: t).length + 1 := by omega
    rw [harith]
    simp
  | esc t ht ih =>
    intro i rest f g hdrop hrest hf hg
    have hch : chars[i]? = some '"' := by
      rw [getElem?_eq_head?_drop, hdrop]; rfl
    have hlt : i < chars.length := getElem?_some_lt hch
    have hnext : chars[i + 1]? = some '"' := by
      rw [getElem?_eq_head?_drop, ← List.tail_drop, hdrop]; rfl
    obtain ⟨f', rfl⟩ : ∃ f', f = f' + 1 := ⟨f - 1, by omega⟩
    rw [goE_quote_esc hch hnext]
    have hdrop' : chars.drop (i + 2) = t ++ '"' :: rest := by
      have h1 : chars.drop (i + 2) = (chars.drop (i + 1)).tail := by
        rw [List.tail_drop]
      have h2 : chars.drop (i + 1) = (chars.drop i).tail := by
        rw [List.tail_drop]
      rw [h1, h2, hdrop]; rfl
    have hlen : ('"' :: '"' :: t).length = t.length + 2 := by simp
    rw [ih g hdrop' hrest (by omega) (by omega)]
    have harith : i + 2 + t.length + 1 = i + ('"' :: '"' :: t).length + 1 := by omega
    rw [harith]
    simp

theorem rewriteGoE_enter_literal {res : Nat → Nat} {chars : List Char}
    {b rest : List Char} {i f : Nat} (g : Nat)
    (hb : LitBody b) (hdrop : chars.drop i = '"' :: (b ++ '"' :: rest))
    (hrest : rest.head? ≠ some '"')
    (hf : chars.length ≤ i + f)
    (hg : chars.length ≤ (i + b.length + 2) + g) :
    rewriteGoE res chars f i false
      = '"' :: (b ++ '"' :: rewriteGoE res chars g (i + b.length + 2) false) := by
  have hch : chars[i]? = some '"' := by
    rw [getElem?_eq_head?_drop, hdrop]; rfl
  have hlt : i < chars.length := getElem?_some_lt hch
  obtain ⟨f', rfl⟩ : ∃ f', f = f' + 1 := ⟨f - 1, by omega⟩
  rw [goE_quote_enter hch]
  have hdrop' : chars.drop (i + 1) = b ++ '"' :: rest := by
    rw [← List.tail_drop, hdrop]; rfl
  rw [rewriteGoE_litBody hb g hdrop' hrest (by omega) (by omega)]
  have harith : i + 1 + b.length + 1 = i + b.length + 2 := by omega
  rw [harith]

theorem tryParse_boundary {pre : List Char} (ys : List Char) {i : Nat}
    (hi : i < pre.length) (res : Nat → Nat) :
    try_parse_and_rewrite_cell_ref (pre ++ '"' :: ys) i res
      = try_parse_and_rewrite_cell_ref pre i res := by
  unfold try_parse_and_rewrite_cell_ref
  have hdrop : (pre ++ '"' :: ys).drop i = pre.drop i ++ '"' :: ys := by
    rw [List.drop_append_eq_append_drop]
    have h0 : i - pre.length = 0 := by omega
    rw [h0]
    simp
  rw [hdrop, tryParseCore_append_quote]
  by_cases hi0 : i = 0
  · simp [hi0]
  · have hprev : (pre ++ '"' :: ys)[i - 1]? = pre[i - 1]? := by
      rw [List.getElem?_append]
      simp [show i - 1 < pre.length by omega]
    rw [hprev]

theorem tryParse_shift {front : List Char} (tl : List Char)
    (hgl : refGuard front.getLast? = false) (j : Nat) (res : Nat → Nat) :
    try_parse_and_rewrite_cell_ref (front ++ tl) (front.length + j) res
      = (try_parse_and_rewrite_cell_ref tl j res).map
          (fun p => (front.length + p.1, p.2)) := by
  unfold try_parse_and_rewrite_cell_ref
  rw [List.drop_append]
  have hprev : refGuard
      (if front.length + j = 0 then none else (front ++ tl)[front.length + j - 1]?)
      = refGuard (if j = 0 then none else tl[j - 1]?) := by
    by_cases hj : j = 0
    · subst hj
      simp only [Nat.add_zero, if_pos rfl]
      by_cases hfr : front.length = 0
      · simp [hfr]
      · rw [if_neg hfr]
        rw [List.getElem?_append]
        simp only [show front.length - 1 < front.length by omega, if_pos]
        rw [← List.getLast?_eq_getElem?, hgl, refGuard_none]
    · rw [if_neg (by omega), if_neg hj]
      congr 1
      rw [List.getElem?_append_right (by omega)]
      congr 1
      omega
  rw [tryParseCore_congr_prev hprev]
  cases hc : tryParseCore (tl.drop j) (if j = 0 then none else tl[j - 1]?) res with
  | none => simp
  | some p =>
    rcases p with ⟨n, rep⟩
    simp [Nat.add_assoc]

theorem rewriteGoE_shift {res : Nat → Nat} {front tl : List Char}
    (hgl : refGuard front.getLast? = false) :
    ∀ (f j : Nat) (s : Bool),
      rewriteGoE res (front ++ tl) f (front.length + j) s
        = rewriteGoE res tl f j s := by
  intro f
  induction f with
  | zero => intro j s; rfl
  | succ f ih =>
    intro j s
    have hch : (front ++ tl)[front.length + j]? = tl[j]? := by
      rw [List.getElem?_append_right (by omega)]
      congr 1
      omega
    have hnext : (front ++ tl)[front.length + j + 1]? = tl[j + 1]? := by
      rw [List.getElem?_append_right (by omega)]
      congr 1
      omega
    cases hcv : tl[j]? with
    | none =>
      rw [goE_none (by rw [hch, hcv]), goE_none hcv]
    | some ch =>
      have hch' : (front ++ tl)[front.length + j]? = some ch := by rw [hch, hcv]
      by_cases hq : ch = '"'
      · subst hq
        cases s with
        | false =>
          rw [goE_quote_enter hch', goE_quote_enter hcv]
          have h1 : front.length + j + 1 = front.length + (j + 1) := by omega
          rw [h1, ih]
        | true =>
          by_cases hn : tl[j + 1]? = some '"'
          · rw [goE_quote_esc hch' (by rw [hnext, hn]), goE_quote_esc hcv hn]
            have h1 : front.length + j + 2 = front.length + (j + 2) := by omega
            rw [h1, ih]
          · rw [goE_quote_close hch' (by rw [hnext]; exact hn),
              goE_quote_close hcv hn]
            have h1 : front.length + j + 1 = front.length + (j + 1) := by omega
            rw [h1, ih]
      · cases s with
        | true =>
          rw [goE_inString hch' hq, goE_inString hcv hq]
          have h1 : front.length + j + 1 = front.length + (j + 1) := by omega
          rw [h1, ih]
        | false =>
          have hps := tryParse_shift tl hgl j res
          cases hp : try_parse_and_rewrite_cell_ref tl j res with
          | none =>
            have hpc : try_parse_and_rewrite_cell_ref (front ++ tl)
                (front.length + j) res = none := by
              rw [hps, hp]; rfl
            rw [goE_plain hch' hq hpc, goE_plain hcv hq hp]
            have h1 : front.length + j + 1 = front.length + (j + 1) := by omega
            rw [h1, ih]
          | some p =>
            rcases p with ⟨stop, rep⟩
            have hpc : try_parse_and_rewrite_cell_ref (front ++ tl)
                (front.length + j) res = some (front.length + stop, rep) := by
              rw [hps, hp]; rfl
            rw [goE_ref hpc, goE_ref hp, ih]

theorem rewriteGoE_left {res : Nat → Nat} {pre ys : List Char}
    (hpre : ∀ c ∈ pre, c ≠ '"') :
    ∀ (f g h i : Nat), i ≤ pre.length →
      (pre ++ '"' :: ys).length ≤ i + f → pre.length ≤ i + g →
      (pre ++ '"' :: ys).length ≤ pre.length + h →
      rewriteGoE res (pre ++ '"' :: ys) f i false
        = rewriteGoE res pre g i false
          ++ rewriteGoE res (pre ++ '"' :: ys) h pre.length false := by
  have hlen : (pre ++ '"' :: ys).length = pre.length + ys.length + 1 := by
    simp; omega
  intro f
  induction f with
  | zero =>
    intro g h i hi hf hg hh
    omega
  | succ f ih =>
    intro g h i hi hf hg hh
    rcases Nat.lt_or_eq_of_le hi with hlt | heq
    · have hcg : pre[i]? = some pre[i] := List.getElem?_eq_getElem hlt
      have hch : (pre ++ '"' :: ys)[i]? = some pre[i] := by
        rw [List.getElem?_append]
        simp only [hlt, if_pos]
        exact hcg
      have hq : pre[i] ≠ '"' := hpre _ (List.getElem_mem hlt)
      obtain ⟨g', rfl⟩ : ∃ g', g = g' + 1 := ⟨g - 1, by omega⟩
      cases hp : try_parse_and_rewrite_cell_ref pre i res with
      | none =>
        have hpc : try_parse_and_rewrite_cell_ref (pre ++ '"' :: ys) i res
            = none := by
          rw [tryParse_boundary ys hlt]; exact hp
        rw [goE_plain hch hq hpc, goE_plain hcg hq hp]
        rw [ih g' h (i + 1) (by omega) (by omega) (by omega) hh]
        simp
      | some p =>
        rcases p with ⟨stop, rep⟩
        have hb := tryParse_some_bounds hp
        have hpc : try_parse_and_rewrite_cell_ref (pre ++ '"' :: ys) i res
            = some (stop, rep) := by
          rw [tryParse_boundary ys hlt]; exact hp
        rw [goE_ref hpc, goE_ref hp]
        rw [ih g' h stop hb.2 (by omega) (by omega) hh]
        simp
    · rw [heq]
      have hstd : rewriteGoE res pre g pre.length false = [] :=
        goE_none (List.getElem?_eq_none (le_refl _))
      rw [hstd]
      simp only [List.nil_append]
      exact rewriteGoE_fuel (by omega) (by omega)

/-! ### Claim C1 -/

/-- C1 (amended): the claim as stated fails for the std_only
implementation (see `c1_counterexample`); for the excel implementation of
`rewrite_formula_rows` it holds.  Universal part: whenever the formula
contains a double-quoted string literal (entered from outside any literal,
i.e. the text before it has no quote; `LitBody` is the literal's body with
`""` escapes), the literal passes through the rewriter verbatim, and the
rewrite acts independently on the text before and after it.  Concrete
part: the spec's example `=SUM(A1:A10)+"A1"` with resolver `r ↦ r + 5`
rewrites to `=SUM(A6:A15)+"A1"`, the quoted `A1` untouched. -/
theorem c1_theorem :
    (∀ (res : Nat → Nat) (pre lit post : List Char),
      (∀ c ∈ pre, c ≠ '"') → LitBody lit → post.head? ≠ some '"' →
      Excel.rewrite_formula_rows (pre ++ '"' :: (lit ++ '"' :: post)) res
        = Excel.rewrite_formula_rows pre res
          ++ '"' :: (lit ++ '"' :: Excel.rewrite_formula_rows post res))
    ∧ Excel.rewrite_formula_rows ("=SUM(A1:A10)+\"A1\"".toList) (· + 5)
        = ("=SUM(A6:A15)+\"A1\"".toList) := by
  constructor
  · intro res pre lit post hpre hlit hpost
    unfold Excel.rewrite_formula_rows
    have hsplit : pre ++ '"' :: (lit ++ '"' :: post)
        = (pre ++ '"' :: (lit ++ ['"'])) ++ post := by
      simp
    have hlen : (pre ++ '"' :: (lit ++ '"' :: post)).length
        = pre.length + lit.length + post.length + 2 := by
      simp
      omega
    rw [rewriteGoE_left hpre _ pre.length
      ((pre ++ '"' :: (lit ++ '"' :: post)).length) 0 (by omega)
      (by omega) (by omega) (by omega)]
    congr 1
    have hdrop : (pre ++ '"' :: (lit ++ '"' :: post)).drop pre.length
        = '"' :: (lit ++ '"' :: post) := List.drop_left _ _
    rw [rewriteGoE_enter_literal ((pre ++ '"' :: (lit ++ '"' :: post)).length)
      hlit hdrop hpost (by omega) (by omega)]
    congr 2
    congr 1
    have hfront : refGuard (pre ++ '"' :: (lit ++ ['"'])).getLast? = false := by
      have h1 : pre ++ '"' :: (lit ++ ['"']) = (pre ++ '"' :: lit) ++ ['"'] := by
        simp
      rw [h1, List.getLast?_concat, refGuard_quote]
    have hfl : (pre ++ '"' :: (lit ++ ['"'])).length
        = pre.length + lit.length + 2 := by
      simp
      omega
    have harr : rewriteGoE res (pre ++ '"' :: (lit ++ '"' :: post))
          ((pre ++ '"' :: (lit ++ '"' :: post)).length)
          (pre.length + lit.length + 2) false
        = rewriteGoE res ((pre ++ '"' :: (lit ++ ['"'])) ++ post)
          ((pre ++ '"' :: (lit ++ '"' :: post)).length)
          ((pre ++ '"' :: (lit ++ ['"'])).length + 0) false := by
      rw [← hsplit, hfl]
    rw [harr, rewriteGoE_shift hfront]
    exact rewriteGoE_fuel (by omega) (by omega)
  · decide

/-- C1 counterexample: the std_only implementation of
`rewrite_formula_rows` has no string-literal tracking and rewrites the
quoted `"A1"` in the spec's example to `"A6"`, so the claim as stated
(which requires both implementations to leave quoted text untouched)
is false on the code. -/
theorem c1_counterexample :
    ¬ (StdOnly.rewrite_formula_rows ("=SUM(A1:A10)+\"A1\"".toList) (· + 5)
        = ("=SUM(A6:A15)+\"A1\"".toList)) := by
  decide

/-- Witness for `c1_theorem`: instantiates the universal part on the
concrete formula `=1+"A1"+B2` with resolver `r ↦ r + 5`. -/
theorem c1_witness :
    Excel.rewrite_formula_rows (("=1+".toList) ++ '"' :: (("A1".toList)
        ++ '"' :: ("+B2".toList))) (· + 5)
      = Excel.rewrite_formula_rows ("=1+".toList) (· + 5)
        ++ '"' :: (("A1".toList)
          ++ '"' :: Excel.rewrite_formula_rows ("+B2".toList) (· + 5)) :=
  c1_theorem.1 (· + 5) ("=1+".toList) ("A1".toList) ("+B2".toList)
    (by decide)
    (LitBody.cons 'A' (by decide) _ (LitBody.cons '1' (by decide) _ LitBody.nil))
    (by decide)

/-! ### `str::replace` pass lemmas -/

theorem replaceAllGo_skip (pat rep : List Char) :
    ∀ (xs t : List Char),
      replaceAllGo pat rep (xs ++ t) xs.length = replaceAllGo pat rep t 0 := by
  intro xs
  induction xs with
  | nil => intro t; rfl
  | cons x xs ih =>
    intro t
    simpa [replaceAllGo] using ih t

theorem replaceAllGo_match (pat rep : List Char)
    (hne : pat ≠ []) (t : List Char) :
    replaceAllGo pat rep (pat ++ t) 0
      = rep ++ replaceAllGo pat rep t 0 := by
  cases pat with
  | nil => exact absurd rfl hne
  | cons p pr =>
    have hpre : (p :: pr).isPrefixOf ((p :: pr) ++ t) = true :=
      List.isPrefixOf_iff_prefix.2 (List.prefix_append _ _)
    have hc : (p :: pr) ++ t = p :: (pr ++ t) := rfl
    rw [hc] at hpre ⊢
    rw [replaceAllGo]
    simp only [hpre, and_true, ne_eq, reduceCtorEq, not_false_eq_true, if_pos]
    rw [show (p :: pr).length - 1 = pr.length by simp]
    rw [replaceAllGo_skip]

theorem replaceAllGo_mismatch (pat rep : List Char) (c : Char) (t : List Char)
    (h : pat.isPrefixOf (c :: t) = false) :
    replaceAllGo pat rep (c :: t) 0 = c :: replaceAllGo pat rep t 0 := by
  rw [replaceAllGo]
  simp [h]

theorem replaceAllGo_skip_prefix (pat rep : List Char) (h : Char)
    (hh : pat.head? = some h) :
    ∀ (xs : List Char), h ∉ xs → ∀ (t : List Char),
      replaceAllGo pat rep (xs ++ t) 0 = xs ++ replaceAllGo pat rep t 0 := by
  intro xs
  induction xs with
  | nil => intro _ t; rfl
  | cons x xs ih =>
    intro hx t
    have hxh : x ≠ h := by
      intro hcon
      exact hx (by rw [hcon]; exact List.mem_cons_self _ _)
    have hmis : pat.isPrefixOf (x :: (xs ++ t)) = false := by
      cases pat with
      | nil => cases hh
      | cons p pr =>
        have hp : p = h := by
          simpa using hh
        subst hp
        simp [List.isPrefixOf]
        intro hcon
        exact absurd hcon.symm hxh
    rw [List.cons_append, replaceAllGo_mismatch _ _ _ _ hmis,
      ih (by intro hcon; exact hx (List.mem_cons_of_mem _ hcon)) t]
    rfl

/-! ### The escape chains as per-character images -/

theorem escape_text_concat (s : List Char) :
    StdOnly.xml_escape_text s = concatMapF escFun3 s := by
  induction s with
  | nil => rfl
  | cons c t ih =>
    unfold StdOnly.xml_escape_text replaceAll at ih ⊢
    by_cases hamp : c = '&'
    · subst hamp
      rw [show ('&' :: t) = ['&'] ++ t from rfl,
        replaceAllGo_match ['&'] (['&', 'a', 'm', 'p', ';']) (by decide) t,
        replaceAllGo_skip_prefix ['<'] (['&', 'l', 't', ';']) '<' rfl
          (['&', 'a', 'm', 'p', ';']) (by decide),
        replaceAllGo_skip_prefix ['>'] (['&', 'g', 't', ';']) '>' rfl
          (['&', 'a', 'm', 'p', ';']) (by decide),
        ih]
      rfl
    · by_cases hlt : c = '<'
      · subst hlt
        rw [replaceAllGo_mismatch ['&'] (['&', 'a', 'm', 'p', ';']) '<' t
            (by simp [List.isPrefixOf]),
          show ('<' :: replaceAllGo ['&'] (['&', 'a', 'm', 'p', ';']) t 0)
            = ['<'] ++ replaceAllGo ['&'] (['&', 'a', 'm', 'p', ';']) t 0 from rfl,
          replaceAllGo_match ['<'] (['&', 'l', 't', ';']) (by decide) _,
          replaceAllGo_skip_prefix ['>'] (['&', 'g', 't', ';']) '>' rfl
            (['&', 'l', 't', ';']) (by decide),
          ih]
        rfl
      · by_cases hgt : c = '>'
        · subst hgt
          rw [replaceAllGo_mismatch ['&'] (['&', 'a', 'm', 'p', ';']) '>' t
            (by simp [List.isPrefixOf]),
            replaceAllGo_mismatch ['<'] (['&', 'l', 't', ';']) '>' _
            (by simp [List.isPrefixOf]),
            show ('>' :: replaceAllGo ['<'] (['&', 'l', 't', ';'])
                (replaceAllGo ['&'] (['&', 'a', 'm', 'p', ';']) t 0) 0)
              = ['>'] ++ replaceAllGo ['<'] (['&', 'l', 't', ';'])
                (replaceAllGo ['&'] (['&', 'a', 'm', 'p', ';']) t 0) 0 from rfl,
            replaceAllGo_match ['>'] (['&', 'g', 't', ';']) (by decide) _,
            ih]
          rfl
        · have m1 : (['&'] : List Char).isPrefixOf (c :: t) = false := by
            simp [List.isPrefixOf]
            intro hcon
            exact absurd hcon.symm hamp
          rw [replaceAllGo_mismatch ['&'] (['&', 'a', 'm', 'p', ';']) c t m1]
          have m2 : (['<'] : List Char).isPrefixOf
              (c :: replaceAllGo ['&'] (['&', 'a', 'm', 'p', ';']) t 0) = false := by
            simp [List.isPrefixOf]
            intro hcon
            exact absurd hcon.symm hlt
          rw [replaceAllGo_mismatch ['<'] (['&', 'l', 't', ';']) c _ m2]
          have m3 : (['>'] : List Char).isPrefixOf
              (c :: replaceAllGo ['<'] (['&', 'l', 't', ';'])
                (replaceAllGo ['&'] (['&', 'a', 'm', 'p', ';']) t 0) 0) = false := by
            simp [List.isPrefixOf]
            intro hcon
            exact absurd hcon.symm hgt
          rw [replaceAllGo_mismatch ['>'] (['&', 'g', 't', ';']) c _ m3, ih]
          have himg : escFun3 c = [c] := by
            simp [escFun3, hamp, hlt, hgt]
          rw [show concatMapF escFun3 (c :: t)
            = escFun3 c ++ concatMapF escFun3 t from rfl, himg]
          rfl

theorem pass_copy (pat rep : List Char) (hd : Char) (hph : pat.head? = some hd)
    (c : Char) (rest : List Char) (hrest : hd ∉ rest)
    (hmis : ∀ X, pat.isPrefixOf (c :: (rest ++ X)) = false) (X : List Char) :
    replaceAllGo pat rep ((c :: rest) ++ X) 0
      = (c :: rest) ++ replaceAllGo pat rep X 0 := by
  rw [List.cons_append, replaceAllGo_mismatch _ _ _ _ (hmis X),
    replaceAllGo_skip_prefix pat rep hd hph rest hrest X]
  rfl

theorem pass_copy_single (pat rep : List Char) (hd : Char)
    (hph : pat.head? = some hd) (c : Char) (hc : c ≠ hd) (X : List Char) :
    replaceAllGo pat rep ([c] ++ X) 0 = c :: replaceAllGo pat rep X 0 := by
  have hmis : pat.isPrefixOf (c :: X) = false := by
    cases pat with
    | nil => cases hph
    | cons p pr =>
      have hp : p = hd := by simpa using hph
      subst hp
      simp [List.isPrefixOf]
      intro hcon
      exact absurd hcon.symm hc
  rw [List.singleton_append, replaceAllGo_mismatch _ _ _ _ hmis]

/-- The std_only entity decode is a left inverse of the per-character
escape image. -/
theorem decode_std_concat3 (s : List Char) :
    StdOnly.decode_xml_entities (concatMapF escFun3 s) = s := by
  induction s with
  | nil => rfl
  | cons c t ih =>
    unfold StdOnly.decode_xml_entities replaceAll at ih ⊢
    by_cases hamp : c = '&'
    · subst hamp
      rw [show concatMapF escFun3 ('&' :: t)
        = ('&' :: ['a', 'm', 'p', ';']) ++ concatMapF escFun3 t from rfl]
      rw [pass_copy ['&', 'l', 't', ';'] ['<'] '&' rfl '&' ['a', 'm', 'p', ';']
        (by decide) (fun X => by simp [List.isPrefixOf]) _]
      rw [pass_copy ['&', 'g', 't', ';'] ['>'] '&' rfl '&' ['a', 'm', 'p', ';']
        (by decide) (fun X => by simp [List.isPrefixOf]) _]
      rw [pass_copy ['&', 'q', 'u', 'o', 't', ';'] ['"'] '&' rfl '&'
        ['a', 'm', 'p', ';'] (by decide) (fun X => by simp [List.isPrefixOf]) _]
      rw [pass_copy ['&', 'a', 'p', 'o', 's', ';'] ['\''] '&' rfl '&'
        ['a', 'm', 'p', ';'] (by decide) (fun X => by simp [List.isPrefixOf]) _]
      rw [show (('&' :: ['a', 'm', 'p', ';']) ++ replaceAllGo ['&', 'a', 'p', 'o', 's', ';'] ['\'']
            (replaceAllGo ['&', 'q', 'u', 'o', 't', ';'] ['"']
              (replaceAllGo ['&', 'g', 't', ';'] ['>']
                (replaceAllGo ['&', 'l', 't', ';'] ['<']
                  (concatMapF escFun3 t) 0) 0) 0) 0)
          = ['&', 'a', 'm', 'p', ';'] ++ replaceAllGo ['&', 'a', 'p', 'o', 's', ';'] ['\'']
            (replaceAllGo ['&', 'q', 'u', 'o', 't', ';'] ['"']
              (replaceAllGo ['&', 'g', 't', ';'] ['>']
                (replaceAllGo ['&', 'l', 't', ';'] ['<']
                  (concatMapF escFun3 t) 0) 0) 0) 0 from rfl]
      rw [replaceAllGo_match ['&', 'a', 'm', 'p', ';'] ['&'] (by decide) _, ih]
      rfl
    · by_cases hlt : c = '<'
      · subst hlt
        rw [show concatMapF escFun3 ('<' :: t)
          = ['&', 'l', 't', ';'] ++ concatMapF escFun3 t from rfl]
        rw [replaceAllGo_match ['&', 'l', 't', ';'] ['<'] (by decide) _]
        rw [show (['<'] ++ replaceAllGo ['&', 'l', 't', ';'] ['<']
              (concatMapF escFun3 t) 0)
            = ['<'] ++ replaceAllGo ['&', 'l', 't', ';'] ['<']
              (concatMapF escFun3 t) 0 from rfl]
        rw [pass_copy_single ['&', 'g', 't', ';'] ['>'] '&' rfl '<' (by decide) _]
        rw [show ('<' :: replaceAllGo ['&', 'g', 't', ';'] ['>']
              (replaceAllGo ['&', 'l', 't', ';'] ['<'] (concatMapF escFun3 t) 0) 0)
            = ['<'] ++ replaceAllGo ['&', 'g', 't', ';'] ['>']
              (replaceAllGo ['&', 'l', 't', ';'] ['<'] (concatMapF escFun3 t) 0) 0
            from rfl]
        rw [pass_copy_single ['&', 'q', 'u', 'o', 't', ';'] ['"'] '&' rfl '<'
          (by decide) _]
        rw [show ('<' :: replaceAllGo ['&', 'q', 'u', 'o', 't', ';'] ['"']
              (replaceAllGo ['&', 'g', 't', ';'] ['>']
                (replaceAllGo ['&', 'l', 't', ';'] ['<']
                  (concatMapF escFun3 t) 0) 0) 0)
            = ['<'] ++ replaceAllGo ['&', 'q', 'u', 'o', 't', ';'] ['"']
              (replaceAllGo ['&', 'g', 't', ';'] ['>']
                (replaceAllGo ['&', 'l', 't', ';'] ['<']
                  (concatMapF escFun3 t) 0) 0) 0 from rfl]
        rw [pass_copy_single ['&', 'a', 'p', 'o', 's', ';'] ['\''] '&' rfl '<'
          (by decide) _]
        rw [show ('<' :: replaceAllGo ['&', 'a', 'p', 'o', 's', ';'] ['\'']
              (replaceAllGo ['&', 'q', 'u', 'o', 't', ';'] ['"']
                (replaceAllGo ['&', 'g', 't', ';'] ['>']
                  (replaceAllGo ['&', 'l', 't', ';'] ['<']
                    (concatMapF escFun3 t) 0) 0) 0) 0)
            = ['<'] ++ replaceAllGo ['&', 'a', 'p', 'o', 's', ';'] ['\'']
              (replaceAllGo ['&', 'q', 'u', 'o', 't', ';'] ['"']
                (replaceAllGo ['&', 'g', 't', ';'] ['>']
                  (replaceAllGo ['&', 'l', 't', ';'] ['<']
                    (concatMapF escFun3 t) 0) 0) 0) 0 from rfl]
        rw [pass_copy_single ['&', 'a', 'm', 'p', ';'] ['&'] '&' rfl '<'
          (by decide) _, ih]
      · by_cases hgt : c = '>'
        · subst hgt
          rw [show concatMapF escFun3 ('>' :: t)
            = ('&' :: ['g', 't', ';']) ++ concatMapF escFun3 t from rfl]
          rw [pass_copy ['&', 'l', 't', ';'] ['<'] '&' rfl '&' ['g', 't', ';']
            (by decide) (fun X => by simp [List.isPrefixOf]) _]
          rw [show (('&' :: ['g', 't', ';']) ++ replaceAllGo ['&', 'l', 't', ';'] ['<']
                (concatMapF escFun3 t) 0)
              = ['&', 'g', 't', ';'] ++ replaceAllGo ['&', 'l', 't', ';'] ['<']
                (concatMapF escFun3 t) 0 from rfl]
          rw [replaceAllGo_match ['&', 'g', 't', ';'] ['>'] (by decide) _]
          rw [show (['>'] ++ replaceAllGo ['&', 'g', 't', ';'] ['>']
                (replaceAllGo ['&', 'l', 't', ';'] ['<']
                  (concatMapF escFun3 t) 0) 0)
              = ['>'] ++ replaceAllGo ['&', 'g', 't', ';'] ['>']
                (replaceAllGo ['&', 'l', 't', ';'] ['<']
                  (concatMapF escFun3 t) 0) 0 from rfl]
          rw [pass_copy_single ['&', 'q', 'u', 'o', 't', ';'] ['"'] '&' rfl '>'
            (by decide) _]
          rw [show ('>' :: replaceAllGo ['&', 'q', 'u', 'o', 't', ';'] ['"']
                (replaceAllGo ['&', 'g', 't', ';'] ['>']
                  (replaceAllGo ['&', 'l', 't', ';'] ['<']
                    (concatMapF escFun3 t) 0) 0) 0)
              = ['>'] ++ replaceAllGo ['&', 'q', 'u', 'o', 't', ';'] ['"']
                (replaceAllGo ['&', 'g', 't', ';'] ['>']
                  (replaceAllGo ['&', 'l', 't', ';'] ['<']
                    (concatMapF escFun3 t) 0) 0) 0 from rfl]
          rw [pass_copy_single ['&', 'a', 'p', 'o', 's', ';'] ['\''] '&' rfl '>'
            (by decide) _]
          rw [show ('>' :: replaceAllGo ['&', 'a', 'p', 'o', 's', ';'] ['\'']
                (replaceAllGo ['&', 'q', 'u', 'o', 't', ';'] ['"']
                  (replaceAllGo ['&', 'g', 't', ';'] ['>']
                    (replaceAllGo ['&', 'l', 't', ';'] ['<']
                      (concatMapF escFun3 t) 0) 0) 0) 0)
              = ['>'] ++ replaceAllGo ['&', 'a', 'p', 'o', 's', ';'] ['\'']
                (replaceAllGo ['&', 'q', 'u', 'o', 't', ';'] ['"']
                  (replaceAllGo ['&', 'g', 't', ';'] ['>']
                    (replaceAllGo ['&', 'l', 't', ';'] ['<']
                      (concatMapF escFun3 t) 0) 0) 0) 0 from rfl]
          rw [pass_copy_single ['&', 'a', 'm', 'p', ';'] ['&'] '&' rfl '>'
            (by decide) _, ih]
        · have himg : concatMapF escFun3 (c :: t)
              = [c] ++ concatMapF escFun3 t := by
            rw [show concatMapF escFun3 (c :: t)
              = escFun3 c ++ concatMapF escFun3 t from rfl]
            simp [escFun3, hamp, hlt, hgt]
          rw [himg]
          rw [pass_copy_single ['&', 'l', 't', ';'] ['<'] '&' rfl c hamp _]
          rw [show (c :: replaceAllGo ['&', 'l', 't', ';'] ['<']
                (concatMapF escFun3 t) 0)
              = [c] ++ replaceAllGo ['&', 'l', 't', ';'] ['<']
                (concatMapF escFun3 t) 0 from rfl]
          rw [pass_copy_single ['&', 'g', 't', ';'] ['>'] '&' rfl c hamp _]
          rw [show (c :: replaceAllGo ['&', 'g', 't', ';'] ['>']
                (replaceAllGo ['&', 'l', 't', ';'] ['<']
                  (concatMapF escFun3 t) 0) 0)
              = [c] ++ replaceAllGo ['&', 'g', 't', ';'] ['>']
                (replaceAllGo ['&', 'l', 't', ';'] ['<']
                  (concatMapF escFun3 t) 0) 0 from rfl]
          rw [pass_copy_single ['&', 'q', 'u', 'o', 't', ';'] ['"'] '&' rfl c
            hamp _]
          rw [show (c :: replaceAllGo ['&', 'q', 'u', 'o', 't', ';'] ['"']
                (replaceAllGo ['&', 'g', 't', ';'] ['>']
                  (replaceAllGo ['&', 'l', 't', ';'] ['<']
                    (concatMapF escFun3 t) 0) 0) 0)
              = [c] ++ replaceAllGo ['&', 'q', 'u', 'o', 't', ';'] ['"']
                (replaceAllGo ['&', 'g', 't', ';'] ['>']
                  (replaceAllGo ['&', 'l', 't', ';'] ['<']
                    (concatMapF escFun3 t) 0) 0) 0 from rfl]
          rw [pass_copy_single ['&', 'a', 'p', 'o', 's', ';'] ['\''] '&' rfl c
            hamp _]
          rw [show (c :: replaceAllGo ['&', 'a', 'p', 'o', 's', ';'] ['\'']
                (replaceAllGo ['&', 'q', 'u', 'o', 't', ';'] ['"']
                  (replaceAllGo ['&', 'g', 't', ';'] ['>']
                    (replaceAllGo ['&', 'l', 't', ';'] ['<']
                      (concatMapF escFun3 t) 0) 0) 0) 0)
              = [c] ++ replaceAllGo ['&', 'a', 'p', 'o', 's', ';'] ['\'']
                (replaceAllGo ['&', 'q', 'u', 'o', 't', ';'] ['"']
                  (replaceAllGo ['&', 'g', 't', ';'] ['>']
                    (replaceAllGo ['&', 'l', 't', ';'] ['<']
                      (concatMapF escFun3 t) 0) 0) 0) 0 from rfl]
          rw [pass_copy_single ['&', 'a', 'm', 'p', ';'] ['&'] '&' rfl c hamp _,
            ih]

theorem excel_escape_text_eq (s : List Char) :
    Excel.xml_escape_text s = StdOnly.xml_escape_text s := rfl

theorem excel_escape_attr_eq (s : List Char) :
    Excel.xml_escape_attr s = StdOnly.xml_escape_attr s := rfl

theorem escape_attr_concat (s : List Char) :
    StdOnly.xml_escape_attr s = concatMapF escFun5 s := by
  unfold StdOnly.xml_escape_attr replaceAll
  rw [escape_text_concat]
  induction s with
  | nil => rfl
  | cons c t ih =>
    by_cases hamp : c = '&'
    · subst hamp
      rw [show concatMapF escFun3 ('&' :: t)
        = ('&' :: ['a', 'm', 'p', ';']) ++ concatMapF escFun3 t from rfl]
      rw [pass_copy ['"'] ['&', 'q', 'u', 'o', 't', ';'] '"' rfl '&'
        ['a', 'm', 'p', ';'] (by decide) (fun X => by simp [List.isPrefixOf]) _]
      rw [pass_copy ['\''] ['&', 'a', 'p', 'o', 's', ';'] '\'' rfl '&'
        ['a', 'm', 'p', ';'] (by decide) (fun X => by simp [List.isPrefixOf]) _]
      rw [ih]
      rfl
    · by_cases hlt : c = '<'
      · subst hlt
        rw [show concatMapF escFun3 ('<' :: t)
          = ('&' :: ['l', 't', ';']) ++ concatMapF escFun3 t from rfl]
        rw [pass_copy ['"'] ['&', 'q', 'u', 'o', 't', ';'] '"' rfl '&'
          ['l', 't', ';'] (by decide) (fun X => by simp [List.isPrefixOf]) _]
        rw [pass_copy ['\''] ['&', 'a', 'p', 'o', 's', ';'] '\'' rfl '&'
          ['l', 't', ';'] (by decide) (fun X => by simp [List.isPrefixOf]) _]
        rw [ih]
        rfl
      · by_cases hgt : c = '>'
        · subst hgt
          rw [show concatMapF escFun3 ('>' :: t)
            = ('&' :: ['g', 't', ';']) ++ concatMapF escFun3 t from rfl]
          rw [pass_copy ['"'] ['&', 'q', 'u', 'o', 't', ';'] '"' rfl '&'
            ['g', 't', ';'] (by decide) (fun X => by simp [List.isPrefixOf]) _]
          rw [pass_copy ['\''] ['&', 'a', 'p', 'o', 's', ';'] '\'' rfl '&'
            ['g', 't', ';'] (by decide) (fun X => by simp [List.isPrefixOf]) _]
          rw [ih]
          rfl
        · have himg : concatMapF escFun3 (c :: t)
              = [c] ++ concatMapF escFun3 t := by
            rw [show concatMapF escFun3 (c :: t)
              = escFun3 c ++ concatMapF escFun3 t from rfl]
            simp [escFun3, hamp, hlt, hgt]
          rw [himg]
          by_cases hq : c = '"'
          · subst hq
            rw [show (['"'] ++ concatMapF escFun3 t)
              = ['"'] ++ concatMapF escFun3 t from rfl]
            rw [replaceAllGo_match ['"'] ['&', 'q', 'u', 'o', 't', ';']
              (by decide) _]
            rw [show (['&', 'q', 'u', 'o', 't', ';']
                  ++ replaceAllGo ['"'] ['&', 'q', 'u', 'o', 't', ';']
                    (concatMapF escFun3 t) 0)
                = ('&' :: ['q', 'u', 'o', 't', ';'])
                  ++ replaceAllGo ['"'] ['&', 'q', 'u', 'o', 't', ';']
                    (concatMapF escFun3 t) 0 from rfl]
            rw [pass_copy ['\''] ['&', 'a', 'p', 'o', 's', ';'] '\'' rfl '&'
              ['q', 'u', 'o', 't', ';'] (by decide)
              (fun X => by simp [List.isPrefixOf]) _]
            rw [ih]
            rfl
          · by_cases hap : c = '\''
            · subst hap
              rw [pass_copy_single ['"'] ['&', 'q', 'u', 'o', 't', ';'] '"' rfl
                '\'' (by decide) _]
              rw [show ('\'' :: replaceAllGo ['"'] ['&', 'q', 'u', 'o', 't', ';']
                    (concatMapF escFun3 t) 0)
                  = ['\''] ++ replaceAllGo ['"'] ['&', 'q', 'u', 'o', 't', ';']
                    (concatMapF escFun3 t) 0 from rfl]
              rw [replaceAllGo_match ['\''] ['&', 'a', 'p', 'o', 's', ';']
                (by decide) _]
              rw [ih]
              rfl
            · rw [pass_copy_single ['"'] ['&', 'q', 'u', 'o', 't', ';'] '"' rfl
                c hq _]
              rw [show (c :: replaceAllGo ['"'] ['&', 'q', 'u', 'o', 't', ';']
                    (concatMapF escFun3 t) 0)
                  = [c] ++ replaceAllGo ['"'] ['&', 'q', 'u', 'o', 't', ';']
                    (concatMapF escFun3 t) 0 from rfl]
              rw [pass_copy_single ['\''] ['&', 'a', 'p', 'o', 's', ';'] '\''
                rfl c hap _]
              rw [ih]
              have himg5 : escFun5 c = [c] := by
                simp [escFun5, hamp, hlt, hgt, hq, hap]
              rw [show concatMapF escFun5 (c :: t)
                = escFun5 c ++ concatMapF escFun5 t from rfl, himg5]
              rfl

/-! ### The excel scanner decode -/

theorem decodeExcelGo_skip :
    ∀ (xs t : List Char), decodeExcelGo (xs ++ t) xs.length = decodeExcelGo t 0 := by
  intro xs
  induction xs with
  | nil => intro t; rfl
  | cons x xs ih =>
    intro t
    simpa [decodeExcelGo] using ih t

theorem takeWhile_eq_self_of_all {p : Char → Bool} :
    ∀ {l : List Char}, (∀ x ∈ l, p x) → l.takeWhile p = l := by
  intro l
  induction l with
  | nil => intro _; rfl
  | cons x xs ih =>
    intro hall
    rw [List.takeWhile_cons, if_pos (hall x (List.mem_cons_self _ _)),
      ih (fun y hy => hall y (List.mem_cons_of_mem _ hy))]

theorem dEx_plain {c : Char} {t : List Char} (hc : c ≠ '&') :
    decodeExcelGo (c :: t) 0 = c :: decodeExcelGo t 0 := by
  rw [decodeExcelGo]
  simp [hc]

theorem dEx_amp {t : List Char} {d : Char}
    (hlen : (t.takeWhile notSemi).length < t.length)
    (hne : t.takeWhile notSemi ≠ [])
    (hdec : decode_single_entity (t.takeWhile notSemi) = some d) :
    decodeExcelGo ('&' :: t) 0
      = d :: decodeExcelGo t ((t.takeWhile notSemi).length + 1) := by
  rw [decodeExcelGo]
  rw [if_pos rfl, if_pos ⟨hlen, hne⟩, hdec]

/-- The excel entity scanner is a left inverse of any per-character escape
whose images are either a plain non-`&` character or a named entity that
the scanner decodes back to that character. -/
theorem decodeExcel_concat (f : Char → List Char)
    (hf : ∀ c, (f c = [c] ∧ c ≠ '&')
      ∨ ∃ name, f c = '&' :: (name ++ [';']) ∧ name ≠ []
          ∧ (∀ x ∈ name, x ≠ ';') ∧ decode_single_entity name = some c) :
    ∀ s, decodeExcelGo (concatMapF f s) 0 = s := by
  intro s
  induction s with
  | nil => rfl
  | cons c t ih =>
    rcases hf c with ⟨hfc, hc⟩ | ⟨name, hfc, hne, hsemi, hdec⟩
    · rw [show concatMapF f (c :: t) = f c ++ concatMapF f t from rfl, hfc,
        List.singleton_append, dEx_plain hc, ih]
    · rw [show concatMapF f (c :: t) = f c ++ concatMapF f t from rfl, hfc]
      have hassoc : ('&' :: (name ++ [';'])) ++ concatMapF f t
          = '&' :: (name ++ ';' :: concatMapF f t) := by simp
      rw [hassoc]
      have hent : (name ++ ';' :: concatMapF f t).takeWhile notSemi = name := by
        rw [takeWhile_append_stop (by simp [notSemi])]
        exact takeWhile_eq_self_of_all (by
          intro x hx
          simp [notSemi]
          exact hsemi x hx)
      have hlen : ((name ++ ';' :: concatMapF f t).takeWhile notSemi).length
          < (name ++ ';' :: concatMapF f t).length := by
        rw [hent]
        simp
      have hne' : (name ++ ';' :: concatMapF f t).takeWhile notSemi ≠ [] := by
        rw [hent]; exact hne
      have hdec' : decode_single_entity
          ((name ++ ';' :: concatMapF f t).takeWhile notSemi) = some c := by
        rw [hent]; exact hdec
      rw [dEx_amp hlen hne' hdec', hent]
      have hsplit : name ++ ';' :: concatMapF f t
          = (name ++ [';']) ++ concatMapF f t := by simp
      have hlen2 : name.length + 1 = (name ++ [';']).length := by simp
      rw [hsplit, hlen2, decodeExcelGo_skip, ih]

theorem decodeExcel_escfun3 (s : List Char) :
    decodeExcelGo (concatMapF escFun3 s) 0 = s := by
  refine decodeExcel_concat escFun3 ?_ s
  intro c
  by_cases hamp : c = '&'
  · subst hamp
    exact Or.inr ⟨['a', 'm', 'p'], by decide, by decide, by decide, by decide⟩
  · by_cases hlt : c = '<'
    · subst hlt
      exact Or.inr ⟨['l', 't'], by decide, by decide, by decide, by decide⟩
    · by_cases hgt : c = '>'
      · subst hgt
        exact Or.inr ⟨['g', 't'], by decide, by decide, by decide, by decide⟩
      · exact Or.inl ⟨by simp [escFun3, hamp, hlt, hgt], hamp⟩

theorem decodeExcel_escfun5 (s : List Char) :
    decodeExcelGo (concatMapF escFun5 s) 0 = s := by
  refine decodeExcel_concat escFun5 ?_ s
  intro c
  by_cases hamp : c = '&'
  · subst hamp
    exact Or.inr ⟨['a', 'm', 'p'], by decide, by decide, by decide, by decide⟩
  · by_cases hlt : c = '<'
    · subst hlt
      exact Or.inr ⟨['l', 't'], by decide, by decide, by decide, by decide⟩
    · by_cases hgt : c = '>'
      · subst hgt
        exact Or.inr ⟨['g', 't'], by decide, by decide, by decide, by decide⟩
      · by_cases hq : c = '"'
        · subst hq
          exact Or.inr ⟨['q', 'u', 'o', 't'], by decide, by decide, by decide,
            by decide⟩
        · by_cases hap : c = '\''
          · subst hap
            exact Or.inr ⟨['a', 'p', 'o', 's'], by decide, by decide, by decide,
              by decide⟩
          · exact Or.inl ⟨by simp [escFun5, hamp, hlt, hgt, hq, hap], hamp⟩

theorem decode_escape_std (s : List Char) :
    StdOnly.decode_xml_entities (StdOnly.xml_escape_text s) = s := by
  rw [escape_text_concat]
  exact decode_std_concat3 s

theorem decode_escape_excel (s : List Char) :
    Excel.decode_xml_entities (Excel.xml_escape_text s) = s := by
  show decodeExcelGo (Excel.xml_escape_text s) 0 = s
  rw [excel_escape_text_eq, escape_text_concat]
  exact decodeExcel_escfun3 s

theorem decode_escape_attr_excel (s : List Char) :
    Excel.decode_xml_entities (Excel.xml_escape_attr s) = s := by
  show decodeExcelGo (Excel.xml_escape_attr s) 0 = s
  rw [excel_escape_attr_eq, escape_attr_concat]
  exact decodeExcel_escfun5 s

/-! ### Claim C10 -/

/-- C10 (confirmed): in both module trees, `decode_xml_entities` is a left
inverse of `xml_escape_text`: `decode(escape(s)) = s` for every string,
including entity-shaped text such as `"&lt;"`, whose escaped form
`"&amp;lt;"` decodes back to `"&lt;"`, not to `"<"`. -/
theorem c10_theorem :
    (∀ s, StdOnly.decode_xml_entities (StdOnly.xml_escape_text s) = s)
    ∧ (∀ s, Excel.decode_xml_entities (Excel.xml_escape_text s) = s)
    ∧ StdOnly.xml_escape_text ("&lt;".toList) = ("&amp;lt;".toList)
    ∧ StdOnly.decode_xml_entities ("&amp;lt;".toList) = "&lt;".toList
    ∧ Excel.decode_xml_entities ("&amp;lt;".toList) = "&lt;".toList :=
  ⟨decode_escape_std, decode_escape_excel, by decide, by decide, by decide⟩

/-! ### Claim C9 -/

/-- C9 counterexample: the RK value `0x66` (int flag set, ÷100 clear,
payload 25) decodes to `25`, and `0x67` (same remaining bits, ÷100 set)
decodes to `0.25` — which is one hundredth, not half, of `25`.  Both
computations stay on the exact integer path (and `25.0 / 100.0 = 0.25` is
exact in `f64`), so the idealization is faithful here. -/
theorem c9_counterexample :
    decode_rk_number 0x66 = some 25
    ∧ decode_rk_number 0x67 = some (1 / 4)
    ∧ ¬ (decode_rk_number 0x67 = (decode_rk_number 0x66).map (· / 2)) := by
  have h66 : decode_rk_number 0x66 = some 25 := by
    simp [decode_rk_number]
  have h67 : decode_rk_number 0x67 = some (1 / 4) := by
    simp [decode_rk_number]
    norm_num
  refine ⟨h66, h67, ?_⟩
  intro h
  rw [h66, h67] at h
  simp at h
  norm_num at h

/-- C9 (amended): `decode_rk_number 0x00000002` (int flag set, ÷100 flag
clear, raw bits 0) returns `0`, and for every 32-bit RK value the result
decoded with the ÷100 flag (bit 0) set is **one hundredth** (not half) of
the result decoded from the same remaining bits with the flag clear (in
exact arithmetic; `none` maps to `none`). -/
theorem c9_theorem :
    decode_rk_number 0x00000002 = some 0
    ∧ ∀ rk : Nat, decode_rk_number (2 * (rk / 2) + 1)
        = (decode_rk_number (2 * (rk / 2))).map (· / 100) := by
  constructor
  · simp [decode_rk_number]
  · intro rk
    set a := 2 * (rk / 2) with hadef
    have ha : a % 2 = 0 := by omega
    have hplus : (a + 1) % 2 ^ 32 = a % 2 ^ 32 + 1 := by omega
    unfold decode_rk_number
    rw [hplus]
    set r := a % 2 ^ 32 with hrdef
    have hre : r % 2 = 0 := by omega
    have hrlt : r < 2 ^ 32 := by omega
    have c1 : (r + 1) % 2 = 1 := by omega
    have c2 : ¬ (r % 2 = 1) := by omega
    have c3 : (r + 1) / 2 = r / 2 := by omega
    have c4 : (r + 1) / 4 = r / 4 := by omega
    have c5 : (r + 1 < 2 ^ 31) ↔ (r < 2 ^ 31) := by omega
    simp only [c1, c3, c4, if_pos rfl, if_neg c2]
    by_cases hint : r / 2 % 2 = 1
    · simp only [hint, if_pos rfl]
      by_cases hlt : r < 2 ^ 31
      · rw [if_pos (c5.2 hlt), if_pos hlt]
        have c6 : Int.fdiv ((r : ℤ) + 1) 4 = Int.fdiv (↑r) 4 := by
          rw [Int.fdiv_eq_ediv _ (by norm_num), Int.fdiv_eq_ediv _ (by norm_num)]
          have : (r : ℤ) % 2 = 0 := by omega
          omega
        simp [c6]
      · rw [if_neg (fun hcon => hlt (c5.1 hcon)), if_neg hlt]
        have c7 : Int.fdiv ((r : ℤ) + 1 - 4294967296) 4
            = Int.fdiv ((r : ℤ) - 4294967296) 4 := by
          rw [Int.fdiv_eq_ediv _ (by norm_num), Int.fdiv_eq_ediv _ (by norm_num)]
          have : (r : ℤ) % 2 = 0 := by omega
          omega
        simp [c7]
    · simp [hint]

/-! ### Claim C2: the reconciliation row mappers -/

/-- On a strictly sorted list, splitting at `k` with the predicate true
before `k` and false from `k` on pins `countP` to `k`. -/
theorem countP_split {l : List Nat} {p : Nat → Bool} {k : Nat} (hk : k ≤ l.length)
    (h1 : ∀ (i : Nat) (h : i < l.length), i < k → p l[i] = true)
    (h2 : ∀ (i : Nat) (h : i < l.length), k ≤ i → p l[i] = false) :
    l.countP p = k := by
  conv_lhs => rw [← List.take_append_drop k l]
  rw [List.countP_append]
  have hlen : (l.take k).length = k := by
    rw [List.length_take]; omega
  have ht : (l.take k).countP p = (l.take k).length := by
    rw [List.countP_eq_length]
    intro a ha
    obtain ⟨i, hi, hget⟩ := List.mem_iff_getElem.1 ha
    have hik : i < k := by omega
    have hi2 : i < l.length := by omega
    have hEq : (l.take k)[i] = l[i] := List.getElem_take ..
    rw [hEq] at hget
    rw [← hget]
    exact h1 i hi2 hik
  have hd : (l.drop k).countP p = 0 := by
    rw [List.countP_eq_zero]
    intro a ha
    obtain ⟨i, hi, hget⟩ := List.mem_iff_getElem.1 ha
    have hlen2 : (l.drop k).length = l.length - k := by simp
    have hi2 : k + i < l.length := by omega
    have hEq : (l.drop k)[i] = l[k + i] := List.getElem_drop ..
    rw [hEq] at hget
    rw [← hget]
    simp [h2 (k + i) hi2 (by omega)]
  rw [ht, hd, hlen]
  omega

/-- Correctness of the embedded `binary_search` loop on a strictly sorted
list: what `count_deleted_le` derives from the result is always the count
of elements `≤ target`. -/
theorem binarySearchGo_count (l : List Nat) (t : Nat)
    (hp : List.Pairwise (· < ·) l) :
    ∀ (fuel left right : Nat), right ≤ l.length → left ≤ right →
    right - left < fuel →
    (∀ (i : Nat) (h : i < l.length), i < left → l[i] ≤ t) →
    (∀ (i : Nat) (h : i < l.length), right ≤ i → t < l[i]) →
    (match binarySearchGo l t left right fuel with
     | Except.ok idx => l.countP (fun d => decide (d ≤ t)) = idx + 1
     | Except.error idx => l.countP (fun d => decide (d ≤ t)) = idx) := by
  have hstrict := List.pairwise_iff_getElem.1 hp
  have hmono : ∀ (i j : Nat) (hi : i < l.length) (hj : j < l.length),
      i ≤ j → l[i] ≤ l[j] := by
    intro i j hi hj hij
    rcases Nat.lt_or_eq_of_le hij with h | h
    · exact le_of_lt (hstrict i j hi hj h)
    · subst h; exact le_refl _
  intro fuel
  induction fuel with
  | zero =>
    intro left right hr hlr hfuel hlo hhi
    omega
  | succ fuel ih =>
    intro left right hr hlr hfuel hlo hhi
    simp only [binarySearchGo]
    by_cases hlt : left < right
    · rw [if_pos hlt]
      have hmid : left + (right - left) / 2 < l.length := by omega
      rw [List.getElem?_eq_getElem hmid]
      by_cases hv : l[left + (right - left) / 2] < t
      · simp only [if_pos hv]
        have := ih (left + (right - left) / 2 + 1) right hr (by omega) (by omega)
          (by
            intro i h hi
            rcases Nat.lt_or_ge i left with hc | hc
            · exact hlo i h hc
            · exact le_trans (hmono i (left + (right - left) / 2) h hmid (by omega))
                (le_of_lt hv))
          hhi
        exact this
      · by_cases hv2 : t < l[left + (right - left) / 2]
        · simp only [if_neg hv, if_pos hv2]
          have := ih left (left + (right - left) / 2) (by omega) (by omega) (by omega)
            hlo
            (by
              intro i h hi
              exact lt_of_lt_of_le hv2 (hmono (left + (right - left) / 2) i hmid h hi))
          exact this
        · simp only [if_neg hv, if_neg hv2]
          have hveq : l[left + (right - left) / 2] = t := by omega
          refine countP_split (by omega) ?_ ?_
          · intro i h hi
            simp only [decide_eq_true_eq]
            calc l[i] ≤ l[left + (right - left) / 2] := hmono i _ h hmid (by omega)
              _ = t := hveq
          · intro i h hi
            simp only [decide_eq_false_iff_not, not_le]
            calc t = l[left + (right - left) / 2] := hveq.symm
              _ < l[i] := hstrict _ i hmid h (by omega)
    · rw [if_neg hlt]
      have hlr2 : left = right := by omega
      refine countP_split (by omega) ?_ ?_
      · intro i h hi
        simp only [decide_eq_true_eq]
        exact hlo i h hi
      · intro i h hi
        simp only [decide_eq_false_iff_not, not_le]
        exact hhi i h (by omega)

/-- `count_deleted_le` on a sorted duplicate-free list counts the deleted
rows `≤ row`. -/
theorem count_deleted_le_eq (l : List Nat) (t : Nat)
    (hp : List.Pairwise (· < ·) l) :
    count_deleted_le l t = l.countP (fun d => decide (d ≤ t)) := by
  have h := binarySearchGo_count l t hp (l.length + 1) 0 l.length (le_refl _)
    (Nat.zero_le _) (by omega)
    (by intro i hh hi; omega)
    (by intro i hh hi; omega)
  unfold count_deleted_le
  cases hbs : binarySearchGo l t 0 l.length (l.length + 1) with
  | ok idx => rw [hbs] at h; simpa using h.symm
  | error idx => rw [hbs] at h; simpa using h.symm

/-- C2 (confirmed): the reconciliation row mappers —
`RowMapper::map` built as `rebuild_master_rows` builds it, and the
std_only `generic_map` — send a row `r` inside the old data band to
`r` minus the number of deleted old-band rows `≤ r`, a row strictly
past (numerically greater than) the old band to
`max 1 (r + final_band_length - old_band_length)` (for `generic_map`
provided the shifted value fits in `u32`), and a row strictly above the
band to itself; and for the old band `[10, 11, 12, 13]` with row `11`
deleted (so 3 final rows), `map 13 = 12` and the formula `=C13` is
rewritten by the excel rewriter to `=C12` under that mapper. -/
theorem c2_theorem :
    (∀ (deleted : List Nat) (old_count final_count data_start old_end r : Nat),
      List.Pairwise (· < ·) deleted →
      deleted.length ≤ 4294967295 →
      0 < old_count →
      ((data_start ≤ r ∧ r ≤ old_end →
          (mkRowMapper old_count final_count data_start old_end deleted).map r
            = r - deleted.countP (fun d => decide (d ≤ r))
          ∧ generic_map old_count final_count data_start old_end deleted r
            = r - deleted.countP (fun d => decide (d ≤ r)))
        ∧ (old_end < r →
          (mkRowMapper old_count final_count data_start old_end deleted).map r
            = max 1 (r + final_count - old_count)
          ∧ (r + final_count ≤ old_count + 4294967295 →
            generic_map old_count final_count data_start old_end deleted r
              = max 1 (r + final_count - old_count)))
        ∧ (r < data_start → data_start ≤ old_end →
          (mkRowMapper old_count final_count data_start old_end deleted).map r = r
          ∧ generic_map old_count final_count data_start old_end deleted r = r)))
    ∧ (mkRowMapper 4 3 10 13 [11]).map 13 = 12
    ∧ Excel.rewrite_formula_rows ("=C13".toList)
        ((mkRowMapper 4 3 10 13 [11]).map) = "=C12".toList := by
  refine ⟨?_, by decide, by decide⟩
  intro deleted old_count final_count data_start old_end r hsort hlen hold
  have hcount : count_deleted_le deleted r ≤ deleted.length := by
    rw [count_deleted_le_eq deleted r hsort]
    exact List.countP_le_length _
  refine ⟨?_, ?_, ?_⟩
  · intro hband
    constructor
    · simp only [RowMapper.map, mkRowMapper]
      rw [if_pos ⟨by simpa using hold, hband.1, hband.2⟩]
      rw [if_pos (by omega)]
      rw [count_deleted_le_eq deleted r hsort]
    · simp only [generic_map]
      rw [if_pos ⟨hold, hband.1, hband.2⟩]
      rw [Nat.mod_eq_of_lt (by omega)]
      rw [count_deleted_le_eq deleted r hsort]
  · intro hbelow
    constructor
    · simp only [RowMapper.map, mkRowMapper]
      rw [if_neg (by omega), if_pos hbelow]
      simp only [shift_row]
      omega
    · intro hrange
      simp only [generic_map]
      rw [if_neg (by omega), if_pos hbelow]
      split
      · next hs => omega
      · next hs =>
        rw [Nat.mod_eq_of_lt (by omega)]
        omega
  · intro habove hband
    constructor
    · simp only [RowMapper.map, mkRowMapper]
      rw [if_neg (by omega), if_neg (by omega)]
    · simp only [generic_map]
      rw [if_neg (by omega), if_neg (by omega)]

/-- Witness for C2 at the spec's concrete band: old rows `[10, 11, 12, 13]`
with row `11` deleted, three final rows; one instance of each of the
three cases. -/
theorem c2_witness :
    (mkRowMapper 4 3 10 13 [11]).map 13
        = 13 - List.countP (fun d => decide (d ≤ 13)) [11]
    ∧ (mkRowMapper 4 3 10 13 [11]).map 20 = max 1 (20 + 3 - 4)
    ∧ (mkRowMapper 4 3 10 13 [11]).map 5 = 5 := by
  have h := c2_theorem.1 [11] 4 3 10 13
  exact ⟨((h 13 (by decide) (by decide) (by decide)).1 ⟨by decide, by decide⟩).1,
    ((h 20 (by decide) (by decide) (by decide)).2.1 (by decide)).1,
    ((h 5 (by decide) (by decide) (by decide)).2.2 (by decide) (by decide)).1⟩

/-! ### Claim C7: integer cell parsing -/

/-- C7 (confirmed, modulo the spec-modelled glue): `parse_i32_str` returns
nothing on a blank or `"-"` display string; the `f64` parse is consulted
on the comma-stripped trimmed string, and `round_f64_to_i32`
(src/numeric.rs) turns a non-finite parse into nothing, an in-range parse
into its half-away-from-zero rounding, and an out-of-range rounding into
nothing. -/
theorem c7_theorem :
    (∀ (pf : List Char → Option (Option ℚ)) (s : List Char),
        trimChars s = [] → parse_i32_str pf s = none)
    ∧ (∀ (pf : List Char → Option (Option ℚ)) (s : List Char),
        trimChars s = ['-'] → parse_i32_str pf s = none)
    ∧ (∀ (pf : List Char → Option (Option ℚ)) (s : List Char),
        pf ((trimChars s).filter (fun c => !(c = ','))) = some none →
        parse_i32_str pf s = none)
    ∧ (∀ (pf : List Char → Option (Option ℚ)) (s : List Char) (q : ℚ),
        pf ((trimChars s).filter (fun c => !(c = ','))) = some (some q) →
        (qRound q < -2147483648 ∨ 2147483647 < qRound q) →
        parse_i32_str pf s = none)
    ∧ (∀ (pf : List Char → Option (Option ℚ)) (s : List Char) (q : ℚ),
        ¬ trimChars s = [] → ¬ trimChars s = ['-'] →
        pf ((trimChars s).filter (fun c => !(c = ','))) = some (some q) →
        -2147483648 ≤ qRound q → qRound q ≤ 2147483647 →
        parse_i32_str pf s = some (qRound q)) := by
  refine ⟨?_, ?_, ?_, ?_, ?_⟩
  · intro pf s h
    simp [parse_i32_str, h]
  · intro pf s h
    simp [parse_i32_str, h]
  · intro pf s h
    by_cases hb : trimChars s = [] ∨ trimChars s = ['-']
    · simp [parse_i32_str, hb]
    · simp only [parse_i32_str]
      rw [if_neg hb, h]
      rfl
  · intro pf s q h hrange
    by_cases hb : trimChars s = [] ∨ trimChars s = ['-']
    · simp [parse_i32_str, hb]
    · simp only [parse_i32_str]
      rw [if_neg hb, h]
      simp only [round_f64_to_i32]
      rw [if_pos hrange]
  · intro pf s q h1 h2 h3 h4 h5
    simp only [parse_i32_str]
    rw [if_neg (by exact fun hc => hc.elim h1 h2), h3]
    simp only [round_f64_to_i32]
    rw [if_neg (by omega)]

/-- Witness for C7: a blank display string, and the display string
`" 1,2 "` under an oracle that parses `"12"` to `12.5`, which rounds half
away from zero to `13`. -/
theorem c7_witness :
    parse_i32_str (fun _ => none) [' '] = none
    ∧ parse_i32_str
        (fun t => if t = ['1', '2'] then some (some ((25 : ℚ) / 2)) else none)
        [' ', '1', ',', '2', ' '] = some (qRound ((25 : ℚ) / 2)) := by
  constructor
  · exact c7_theorem.1 (fun _ => none) [' '] (by decide)
  · refine c7_theorem.2.2.2.2
      (fun t => if t = ['1', '2'] then some (some ((25 : ℚ) / 2)) else none)
      [' ', '1', ',', '2', ' '] ((25 : ℚ) / 2)
      (by decide) (by decide) rfl ?_ ?_
    · rw [show qRound ((25 : ℚ) / 2) = 13 by simp only [qRound]; rw [if_pos (by norm_num)]; norm_num]
      norm_num
    · rw [show qRound ((25 : ℚ) / 2) = 13 by simp only [qRound]; rw [if_pos (by norm_num)]; norm_num]
      norm_num

/-! ### Claim C5: the data band scan -/

/-- C5 (confirmed): the collected data band holds exactly the rows from
`data_start_row` on whose identity columns (region 2, name 3, address 6)
are not all blank — the scan never stops at a blank row, so the band may
be non-contiguous: on `gapWs` (rows 5, 6, 7 with row 6 identity-blank)
the band from row 5 is `[5, 7]`. -/
theorem c5_theorem :
    (∀ (ws : Worksheet) (ss : List (List Char)) (ds r : Nat),
        r ∈ collect_master_data_rows ws ss ds ↔
          r ∈ ws.rows.map Prod.fst ∧ ds ≤ r ∧
          ¬(trimChars (ws.get_display_at 2 r ss) = []
            ∧ trimChars (ws.get_display_at 3 r ss) = []
            ∧ trimChars (ws.get_display_at 6 r ss) = []))
    ∧ collect_master_data_rows gapWs [] 5 = [5, 7] := by
  constructor
  · intro ws ss ds r
    simp only [collect_master_data_rows, List.mem_filter, List.isEmpty_iff,
      List.isEmpty_eq_false, Bool.and_eq_true, Bool.not_eq_true',
      Bool.and_eq_false_iff, decide_eq_true_eq]
    tauto
  · decide

/-- Witness for C5: row 7 of `gapWs` is in the band collected from row 5
even though row 6 before it is identity-blank. -/
theorem c5_witness :
    7 ∈ collect_master_data_rows gapWs [] 5 := by
  exact (c5_theorem.1 gapWs [] 5 7).2 ⟨by decide, by decide, by decide⟩

/-! ### Claim C8: row renumber closure -/

theorem set_attr_overwrite (attrs : List (List Char × List Char))
    (name v1 v2 : List Char) :
    set_attr (set_attr attrs name v2) name v1 = set_attr attrs name v1 := by
  induction attrs with
  | nil => simp [set_attr]
  | cons p t ih =>
    by_cases h : p.1 = name
    · simp [set_attr, h]
    · simp [set_attr, h, ih]

theorem set_attr_unchanged (attrs : List (List Char × List Char))
    (name v : List Char) (h : get_attr attrs name = some v) :
    set_attr attrs name v = attrs := by
  induction attrs with
  | nil => simp [get_attr] at h
  | cons p t ih =>
    by_cases hp : p.1 = name
    · rw [get_attr, if_pos hp] at h
      obtain ⟨k, v2⟩ := p
      simp only at hp
      simp only [Option.some.injEq] at h
      simp [set_attr, hp, h]
    · rw [get_attr, if_neg hp] at h
      simp [set_attr, hp, ih h]

theorem list_map_self {α : Type} (f : α → α) :
    ∀ (l : List α), (∀ x ∈ l, f x = x) → l.map f = l := by
  intro l
  induction l with
  | nil => intro _; rfl
  | cons x t ih =>
    intro h
    rw [List.map_cons, h x (by simp), ih (fun y hy => h y (by simp [hy]))]

theorem list_map_congr {α β : Type} (f g : α → β) :
    ∀ (l : List α), (∀ x ∈ l, f x = g x) → l.map f = l.map g := by
  intro l
  induction l with
  | nil => intro _; rfl
  | cons x t ih =>
    intro h
    rw [List.map_cons, List.map_cons, h x (by simp),
      ih (fun y hy => h y (by simp [hy]))]

/-- C8 (amended): on a canonically numbered row — its `r` attribute is the
decimal print of `r1`, each cell `r` attribute is its column name
followed by `r1`, and identity-rewriting each cell's inner XML is a no-op
(true whenever the formula's references are written canonically) —
remapping to `r2` and back to `r1` with identity resolvers restores the
row exactly, and a single identity remap keeps every cell's inner XML
(hence its formula text) unchanged.  Without the canonical-formula
condition the formula-preservation clause of the claim is false: see the
counterexample (`A01` is rewritten to `A1` by the identity resolver). -/
theorem c8_theorem :
    ∀ (row : Row) (r1 r2 : Nat),
      get_attr row.attrs ['r'] = some (natDigits r1) →
      (∀ p ∈ row.cells,
        get_attr p.2.attrs ['r'] = some (col_to_name p.1 ++ natDigits r1)) →
      (∀ p ∈ row.cells,
        p.2.inner_xml.map
            (fun inner => rewrite_formula_rows_in_inner inner (fun x => x))
          = p.2.inner_xml) →
      remap_row_numbers (remap_row_numbers row r2 (fun x => x)) r1 (fun x => x) = row
      ∧ (remap_row_numbers row r2 (fun x => x)).cells.map
          (fun p => (p.1, p.2.inner_xml))
        = row.cells.map (fun p => (p.1, p.2.inner_xml)) := by
  intro row r1 r2 hattr hcell hfix
  obtain ⟨attrs, cells⟩ := row
  constructor
  · simp only [remap_row_numbers, List.map_map, Row.mk.injEq]
    constructor
    · rw [set_attr_overwrite]
      exact set_attr_unchanged attrs ['r'] (natDigits r1) hattr
    · refine list_map_self _ cells ?_
      intro p hp
      obtain ⟨c, cattrs, cinner⟩ := p
      simp only [Function.comp_apply, Prod.mk.injEq, Cell.mk.injEq, true_and]
      refine ⟨?_, ?_⟩
      · rw [set_attr_overwrite]
        exact set_attr_unchanged cattrs ['r'] _ (hcell (c, ⟨cattrs, cinner⟩) hp)
      · have h := hfix (c, ⟨cattrs, cinner⟩) hp
        simp only at h
        rw [h, h]
  · simp only [remap_row_numbers, List.map_map]
    refine list_map_congr _ _ cells ?_
    intro p hp
    obtain ⟨c, cell⟩ := p
    simp only [Function.comp_apply]
    have h := hfix (c, cell) hp
    simp only at h
    rw [h]

/-- Counterexample for C8: the formula `A01` in `c8row` is changed (to
`A1`) by `remap_row_numbers` with the identity resolver, so formula text
is not always unchanged under an identity resolver. -/
theorem c8_counterexample :
    ¬ ((remap_row_numbers c8row 3 (fun x => x)).cells.map
          (fun p => (p.1, p.2.inner_xml))
        = c8row.cells.map (fun p => (p.1, p.2.inner_xml))) := by
  decide

/-- Witness for C8 on the canonically numbered row `c8wrow` with
`r1 = 3`, `r2 = 7`. -/
theorem c8_witness :
    remap_row_numbers (remap_row_numbers c8wrow 7 (fun x => x)) 3 (fun x => x)
        = c8wrow
    ∧ (remap_row_numbers c8wrow 7 (fun x => x)).cells.map
        (fun p => (p.1, p.2.inner_xml))
      = c8wrow.cells.map (fun p => (p.1, p.2.inner_xml)) :=
  c8_theorem c8wrow 3 7 (by decide) (by decide) (by decide)

/-! ### Claim C4: source index collision rule and natural filename sort -/

theorem digit_char_bounds {c : Char} (h : isAsciiDigit c = true) :
    48 ≤ c.toNat ∧ c.toNat ≤ 57 := by
  simp [isAsciiDigit] at h
  exact h

theorem digitVal_foldl (s : List Char) : ∀ acc : Nat,
    List.foldl (fun acc c => acc * 10 + (c.toNat - Char.toNat '0')) acc s
      = acc * 10 ^ s.length + digitVal s := by
  induction s with
  | nil => intro acc; simp [digitVal]
  | cons c t ih =>
    intro acc
    rw [List.foldl_cons, ih]
    have h2 : digitVal (c :: t)
        = (c.toNat - Char.toNat '0') * 10 ^ t.length + digitVal t := by
      show List.foldl _ (0 * 10 + (c.toNat - Char.toNat '0')) t = _
      rw [ih]
      ring_nf
    rw [h2, List.length_cons, pow_succ]
    ring

theorem digitVal_cons (c : Char) (t : List Char) :
    digitVal (c :: t) = (c.toNat - Char.toNat '0') * 10 ^ t.length + digitVal t := by
  show List.foldl _ (0 * 10 + (c.toNat - Char.toNat '0')) t = _
  rw [digitVal_foldl]
  ring_nf

theorem digitVal_lt (s : List Char) (h : s.all isAsciiDigit = true) :
    digitVal s < 10 ^ s.length := by
  induction s with
  | nil => simp [digitVal]
  | cons c t ih =>
    simp only [List.all_cons, Bool.and_eq_true] at h
    have hc := digit_char_bounds h.1
    have ht := ih h.2
    rw [digitVal_cons, List.length_cons, pow_succ]
    have hd : c.toNat - Char.toNat '0' ≤ 9 := by
      have : Char.toNat '0' = 48 := by decide
      omega
    calc (c.toNat - Char.toNat '0') * 10 ^ t.length + digitVal t
        < (c.toNat - Char.toNat '0') * 10 ^ t.length + 10 ^ t.length := by omega
      _ = (c.toNat - Char.toNat '0' + 1) * 10 ^ t.length := by ring
      _ ≤ 10 * 10 ^ t.length := Nat.mul_le_mul_right _ (by omega)
      _ = 10 ^ t.length * 10 := by ring

theorem digitVal_ge (s : List Char) (hne : s ≠ [])
    (hhead : ¬ s.head? = some '0') (h : s.all isAsciiDigit = true) :
    10 ^ (s.length - 1) ≤ digitVal s := by
  cases s with
  | nil => exact absurd rfl hne
  | cons c t =>
    simp only [List.all_cons, Bool.and_eq_true] at h
    have hc := digit_char_bounds h.1
    have hc0 : ¬ c = '0' := by
      intro hcon
      exact hhead (by rw [hcon]; rfl)
    have hcv : 49 ≤ c.toNat := by
      rcases Nat.lt_or_ge c.toNat 49 with hlt | hge
      · exfalso
        have hn : c.toNat = 48 := by omega
        have h1 : Char.ofNat c.toNat = Char.ofNat 48 := by rw [hn]
        rw [Char.ofNat_toNat] at h1
        exact hc0 h1
      · exact hge
    rw [digitVal_cons]
    have h48 : Char.toNat '0' = 48 := by decide
    have hmul : 1 * 10 ^ t.length ≤ (c.toNat - Char.toNat '0') * 10 ^ t.length :=
      Nat.mul_le_mul_right _ (by omega)
    simp only [List.length_cons, Nat.add_sub_cancel]
    omega

theorem listCmp_digit : ∀ (s t : List Char), s.length = t.length →
    s.all isAsciiDigit = true → t.all isAsciiDigit = true →
    listCmp s t = natCmp (digitVal s) (digitVal t)
  | [], [], _, _, _ => by simp [listCmp, natCmp, digitVal]
  | [], _ :: _, hlen, _, _ => by simp at hlen
  | _ :: _, [], hlen, _, _ => by simp at hlen
  | a :: s, b :: t, hlen, hs, ht => by
    simp only [List.all_cons, Bool.and_eq_true] at hs ht
    have ha := digit_char_bounds hs.1
    have hb := digit_char_bounds ht.1
    have hlen2 : s.length = t.length := by simpa using hlen
    have hsv := digitVal_lt s hs.2
    have htv := digitVal_lt t ht.2
    rw [hlen2] at hsv
    rw [digitVal_cons, digitVal_cons, hlen2]
    rw [listCmp]
    by_cases hab : a.toNat < b.toNat
    · rw [if_pos hab]
      have : (a.toNat - Char.toNat '0') * 10 ^ t.length + digitVal s
          < (b.toNat - Char.toNat '0') * 10 ^ t.length + digitVal t := by
        have h48 : Char.toNat '0' = 48 := by decide
        have hstep : (a.toNat - Char.toNat '0' + 1) * 10 ^ t.length
            ≤ (b.toNat - Char.toNat '0') * 10 ^ t.length :=
          Nat.mul_le_mul_right _ (by omega)
        have hexp : (a.toNat - Char.toNat '0') * 10 ^ t.length + digitVal s
            < (a.toNat - Char.toNat '0' + 1) * 10 ^ t.length := by
          have : (a.toNat - Char.toNat '0' + 1) * 10 ^ t.length
              = (a.toNat - Char.toNat '0') * 10 ^ t.length + 10 ^ t.length := by ring
          rw [this]
          omega
        omega
      rw [natCmp, if_pos this]
    · by_cases hba : b.toNat < a.toNat
      · rw [if_neg hab, if_pos hba]
        have : (b.toNat - Char.toNat '0') * 10 ^ t.length + digitVal t
            < (a.toNat - Char.toNat '0') * 10 ^ t.length + digitVal s := by
          have h48 : Char.toNat '0' = 48 := by decide
          have hstep : (b.toNat - Char.toNat '0' + 1) * 10 ^ t.length
              ≤ (a.toNat - Char.toNat '0') * 10 ^ t.length :=
            Nat.mul_le_mul_right _ (by omega)
          have hexp : (b.toNat - Char.toNat '0') * 10 ^ t.length + digitVal t
              < (b.toNat - Char.toNat '0' + 1) * 10 ^ t.length := by
            have : (b.toNat - Char.toNat '0' + 1) * 10 ^ t.length
                = (b.toNat - Char.toNat '0') * 10 ^ t.length + 10 ^ t.length := by ring
            rw [this]
            omega
          omega
        rw [natCmp, if_neg (by omega), if_pos this]
      · rw [if_neg hab, if_neg hba]
        have heq : a.toNat = b.toNat := by omega
        rw [listCmp_digit s t hlen2 hs.2 ht.2, heq]
        simp only [natCmp, Nat.add_lt_add_iff_left]

theorem cmp_canonical (s t : List Char)
    (hs : s.all isAsciiDigit = true) (ht : t.all isAsciiDigit = true)
    (hsc : s = ['0'] ∨ (s ≠ [] ∧ ¬ s.head? = some '0'))
    (htc : t = ['0'] ∨ (t ≠ [] ∧ ¬ t.head? = some '0')) :
    (natCmp s.length t.length).then (listCmp s t)
      = natCmp (digitVal s) (digitVal t) := by
  have hsne : s ≠ [] := by
    rcases hsc with h | h
    · rw [h]
      simp
    · exact h.1
  have htne : t ≠ [] := by
    rcases htc with h | h
    · rw [h]
      simp
    · exact h.1
  have hslo : 10 ^ (s.length - 1) ≤ digitVal s ∨ s = ['0'] := by
    rcases hsc with h | h
    · exact Or.inr h
    · exact Or.inl (digitVal_ge s h.1 h.2 hs)
  have htlo : 10 ^ (t.length - 1) ≤ digitVal t ∨ t = ['0'] := by
    rcases htc with h | h
    · exact Or.inr h
    · exact Or.inl (digitVal_ge t h.1 h.2 ht)
  have hshi := digitVal_lt s hs
  have hthi := digitVal_lt t ht
  have hs1 : 1 ≤ s.length := List.length_pos.2 hsne
  have ht1 : 1 ≤ t.length := List.length_pos.2 htne
  rcases Nat.lt_trichotomy s.length t.length with hlt | heq | hgt
  · have hvt : digitVal s < digitVal t := by
      rcases htlo with hge | h0
      · have hpow : 10 ^ s.length ≤ 10 ^ (t.length - 1) :=
          Nat.pow_le_pow_right (by omega) (by omega)
        omega
      · rw [h0] at hlt
        simp only [List.length_cons, List.length_nil] at hlt
        omega
    rw [natCmp, if_pos hlt]
    rw [natCmp, if_pos hvt]
    rfl
  · rw [heq]
    rw [natCmp, if_neg (by omega), if_neg (by omega)]
    rw [Ordering.then]
    exact listCmp_digit s t heq hs ht
  · have hvt : digitVal t < digitVal s := by
      rcases hslo with hge | h0
      · have hpow : 10 ^ t.length ≤ 10 ^ (s.length - 1) :=
          Nat.pow_le_pow_right (by omega) (by omega)
        omega
      · rw [h0] at hgt
        simp only [List.length_cons, List.length_nil] at hgt
        omega
    rw [natCmp, if_neg (by omega), if_pos hgt]
    rw [natCmp, if_neg (by omega), if_pos hvt]
    rfl

theorem buildGo_spec (norm : SourceRecord → List Char) (k : List Char) :
    ∀ (recs : List (SourceRecord × Nat))
      (m : List Char → Option (SourceRecord × (Nat × Nat × Nat) × Nat)),
      (∀ e, m k = some e → e.2.1 = source_priority e.1) →
      (∀ e, m k = some e → ∀ p ∈ recs, e.2.2 ≤ p.2) →
      List.Pairwise (fun p q => p.2 ≤ q.2) recs →
      (buildIndexGo norm recs m k).map (fun e => (e.1, e.2.2))
        = (recs.filter (fun p => decide (norm p.1 = k))).foldl specKeep
            ((m k).map (fun e => (e.1, e.2.2))) := by
  intro recs
  induction recs with
  | nil =>
    intro m hscore horder hpair
    simp [buildIndexGo]
  | cons hd t ih =>
    intro m hscore horder hpair
    obtain ⟨rec, ord⟩ := hd
    rw [buildIndexGo]
    by_cases hk : k = norm rec
    · rw [List.filter_cons_of_pos (by simp [hk])]
      rw [List.foldl_cons]
      have hmk : (if k = norm rec
            then some (updateEntry rec ord (m (norm rec))) else m k)
          = some (updateEntry rec ord (m k)) := by
        rw [if_pos hk, ← hk]
      have hseed : (some (updateEntry rec ord (m k))).map
            (fun e => (e.1, e.2.2))
          = specKeep ((m k).map (fun e => (e.1, e.2.2))) (rec, ord) := by
        cases hm : m k with
        | none => simp [updateEntry, specKeep]
        | some e =>
          obtain ⟨prev, pscore, pord⟩ := e
          have hsc := hscore _ hm
          simp only at hsc
          have hor : pord ≤ ord := horder _ hm (rec, ord) (by simp)
          simp only [updateEntry, specKeep, Option.map_some]
          rw [hsc]
          simp only [decide_eq_true hor, Bool.and_true]
          by_cases hcond : (prioGt (source_priority rec) (source_priority prev)
              || decide (source_priority rec = source_priority prev)) = true
          · simp [hcond]
          · simp [hcond]
      have hscore2 : ∀ e,
          (fun k2 => if k2 = norm rec
            then some (updateEntry rec ord (m (norm rec))) else m k2) k = some e →
          e.2.1 = source_priority e.1 := by
        intro e he
        simp only at he
        rw [hmk] at he
        simp only [Option.some.injEq] at he
        subst he
        cases hm : m k with
        | none => simp [updateEntry]
        | some e2 =>
          obtain ⟨prev, pscore, pord⟩ := e2
          have hsc := hscore _ hm
          simp only at hsc
          simp only [updateEntry]
          split
          · simp
          · simpa using hsc
      have horder2 : ∀ e,
          (fun k2 => if k2 = norm rec
            then some (updateEntry rec ord (m (norm rec))) else m k2) k = some e →
          ∀ p ∈ t, e.2.2 ≤ p.2 := by
        intro e he p hp
        simp only at he
        rw [hmk] at he
        simp only [Option.some.injEq] at he
        subst he
        have hord1 : ord ≤ p.2 :=
          (List.rel_of_pairwise_cons hpair hp : (rec, ord).2 ≤ p.2)
        cases hm : m k with
        | none => simpa [updateEntry] using hord1
        | some e2 =>
          obtain ⟨prev, pscore, pord⟩ := e2
          have hor2 : pord ≤ p.2 := horder _ hm p (by simp [hp])
          simp only [updateEntry]
          split
          · simpa using hord1
          · simpa using hor2
      rw [ih _ hscore2 horder2 (List.pairwise_cons.1 hpair).2]
      rw [hmk, hseed]
    · rw [List.filter_cons_of_neg
        (by simp only [decide_eq_true_eq]; exact fun h => hk h.symm)]
      have hmk : (if k = norm rec
            then some (updateEntry rec ord (m (norm rec))) else m k) = m k :=
        if_neg hk
      have hscore2 : ∀ e,
          (fun k2 => if k2 = norm rec
            then some (updateEntry rec ord (m (norm rec))) else m k2) k = some e →
          e.2.1 = source_priority e.1 := by
        intro e he
        simp only at he
        rw [hmk] at he
        exact hscore e he
      have horder2 : ∀ e,
          (fun k2 => if k2 = norm rec
            then some (updateEntry rec ord (m (norm rec))) else m k2) k = some e →
          ∀ p ∈ t, e.2.2 ≤ p.2 := by
        intro e he p hp
        simp only at he
        rw [hmk] at he
        exact horder e he p (by simp [hp])
      rw [ih _ hscore2 horder2 (List.pairwise_cons.1 hpair).2]
      rw [hmk]

theorem all_dropWhile (p q : Char → Bool) : ∀ s : List Char,
    s.all q = true → (s.dropWhile p).all q = true := by
  intro s
  induction s with
  | nil => intro h; exact h
  | cons c t ih =>
    intro h
    simp only [List.all_cons, Bool.and_eq_true] at h
    by_cases hp : p c = true
    · rw [List.dropWhile_cons_of_pos hp]
      exact ih h.2
    · rw [List.dropWhile_cons_of_neg (by simpa using hp)]
      simp [h.1, h.2]

theorem dropZeros_head (s : List Char) :
    s.dropWhile (fun c => c = '0') = []
      ∨ ¬ (s.dropWhile (fun c => c = '0')).head? = some '0' := by
  induction s with
  | nil => exact Or.inl rfl
  | cons c t ih =>
    by_cases hc : c = '0'
    · rw [List.dropWhile_cons_of_pos (by simp [hc])]
      exact ih
    · rw [List.dropWhile_cons_of_neg (by simp [hc])]
      refine Or.inr ?_
      simp [hc]

theorem digitVal_dropZeros (s : List Char) :
    digitVal (s.dropWhile (fun c => c = '0')) = digitVal s := by
  induction s with
  | nil => rfl
  | cons c t ih =>
    by_cases h : c = '0'
    · rw [List.dropWhile_cons_of_pos (by simp [h])]
      rw [ih, h]
      rfl
    · rw [List.dropWhile_cons_of_neg (by simp [h])]

theorem digitVal_strip (s : List Char) :
    digitVal (if s.dropWhile (fun c => c = '0') = [] then ['0']
      else s.dropWhile (fun c => c = '0')) = digitVal s := by
  split
  · next h =>
    have h2 := digitVal_dropZeros s
    rw [h] at h2
    show digitVal ['0'] = digitVal s
    rw [← h2]
    rfl
  · exact digitVal_dropZeros s

theorem length_strip_pos (s : List Char) :
    (if s.dropWhile (fun c => c = '0') = [] then ['0']
      else s.dropWhile (fun c => c = '0')) ≠ []
    ∧ ((if s.dropWhile (fun c => c = '0') = [] then ['0']
      else s.dropWhile (fun c => c = '0')) = ['0']
      ∨ ((if s.dropWhile (fun c => c = '0') = [] then ['0']
        else s.dropWhile (fun c => c = '0')) ≠ []
        ∧ ¬ (if s.dropWhile (fun c => c = '0') = [] then ['0']
          else s.dropWhile (fun c => c = '0')).head? = some '0')) := by
  split
  · exact ⟨by simp, Or.inl rfl⟩
  · next h =>
    refine ⟨h, ?_⟩
    rcases dropZeros_head s with h2 | h2
    · exact absurd h2 h
    · exact Or.inr ⟨h, h2⟩

theorem strip_all_digits (s : List Char) (h : s.all isAsciiDigit = true) :
    (if s.dropWhile (fun c => c = '0') = [] then ['0']
      else s.dropWhile (fun c => c = '0')).all isAsciiDigit = true := by
  split
  · decide
  · exact all_dropWhile _ _ s h

theorem compare_digit_runs (a b : List Char) (ha : a ≠ []) (hb : b ≠ [])
    (hda : a.all isAsciiDigit = true) (hdb : b.all isAsciiDigit = true) :
    compare_natural_part (push_natural_part a true) (push_natural_part b true)
      = (natCmp (digitVal a) (digitVal b)).then (natCmp a.length b.length) := by
  have hpa : push_natural_part a true
      = NaturalPart.num (if a.dropWhile (fun c => c = '0') = [] then ['0']
          else a.dropWhile (fun c => c = '0')) a.length := by
    simp [push_natural_part]
  have hpb : push_natural_part b true
      = NaturalPart.num (if b.dropWhile (fun c => c = '0') = [] then ['0']
          else b.dropWhile (fun c => c = '0')) b.length := by
    simp [push_natural_part]
  rw [hpa, hpb, compare_natural_part]
  have hcan := cmp_canonical _ _ (strip_all_digits a hda) (strip_all_digits b hdb)
    (length_strip_pos a).2 (length_strip_pos b).2
  rw [digitVal_strip, digitVal_strip] at hcan
  rw [hcan]

theorem natCmp_refl (a : Nat) : natCmp a a = Ordering.eq := by
  rw [natCmp, if_neg (by omega), if_neg (by omega)]

theorem listCmp_refl : ∀ s : List Char, listCmp s s = Ordering.eq
  | [] => rfl
  | a :: s => by
    rw [listCmp, if_neg (by omega), if_neg (by omega)]
    exact listCmp_refl s

theorem compare_natural_part_refl (x : NaturalPart) :
    compare_natural_part x x = Ordering.eq := by
  cases x with
  | num n r =>
    rw [compare_natural_part, natCmp_refl, listCmp_refl, natCmp_refl]
    rfl
  | text a => exact listCmp_refl a

theorem cmp_parts_shorter : ∀ (l extra : List NaturalPart), extra ≠ [] →
    compare_natural_parts l (l ++ extra) = Ordering.lt
  | [], [], h => absurd rfl h
  | [], _ :: _, _ => rfl
  | a :: s, extra, h => by
    rw [List.cons_append, compare_natural_parts, compare_natural_part_refl]
    exact cmp_parts_shorter s extra h

theorem cmp_parts_longer : ∀ (l extra : List NaturalPart), extra ≠ [] →
    compare_natural_parts (l ++ extra) l = Ordering.gt
  | [], [], h => absurd rfl h
  | [], _ :: _, _ => rfl
  | a :: s, extra, h => by
    rw [List.cons_append, compare_natural_parts, compare_natural_part_refl]
    exact cmp_parts_longer s extra h

/-- C4 (confirmed): (1) the index the record loop builds refines the
spec's collision rule — when the per-file record lists are concatenated
with non-decreasing file order indices, the entry kept for every key is
the fold of "keep the record with the lexicographically greater priority
tuple, the later-encountered one on a tie" over that key's records;
(2) digit runs compare as magnitudes with the raw length as tie-break;
(3) non-digit runs compare as text; (4) on an equal prefix of parts the
shorter part sequence sorts first. -/
theorem c4_theorem :
    (∀ (norm : SourceRecord → List Char) (recs : List (SourceRecord × Nat))
        (k : List Char),
        List.Pairwise (fun p q => p.2 ≤ q.2) recs →
        build_source_index norm recs k = spec_selected_record norm recs k)
    ∧ (∀ a b : List Char, a ≠ [] → b ≠ [] →
        a.all isAsciiDigit = true → b.all isAsciiDigit = true →
        compare_natural_part (push_natural_part a true) (push_natural_part b true)
          = (natCmp (digitVal a) (digitVal b)).then (natCmp a.length b.length))
    ∧ (∀ a b : List Char,
        compare_natural_part (NaturalPart.text a) (NaturalPart.text b) = listCmp a b)
    ∧ (∀ (l extra : List NaturalPart), extra ≠ [] →
        compare_natural_parts l (l ++ extra) = Ordering.lt
          ∧ compare_natural_parts (l ++ extra) l = Ordering.gt) := by
  refine ⟨?_, compare_digit_runs, fun a b => rfl,
    fun l extra h => ⟨cmp_parts_shorter l extra h, cmp_parts_longer l extra h⟩⟩
  intro norm recs k hpair
  have h := buildGo_spec norm k recs (fun _ => none)
    (fun e he => by simp at he) (fun e he => by simp at he) hpair
  have hmap : (buildIndexGo norm recs (fun _ => none) k).map (fun e => e.1)
      = ((buildIndexGo norm recs (fun _ => none) k).map
          (fun e => (e.1, e.2.2))).map (fun p => p.1) := by
    cases buildIndexGo norm recs (fun _ => none) k <;> rfl
  show (buildIndexGo norm recs (fun _ => none) k).map (fun e => e.1)
      = spec_selected_record norm recs k
  rw [hmap, h]
  rfl

/-- Witness for C4: two same-key records (the second from a later file,
with more prices) and the spec fold pick the same survivor; the digit
runs `09` and `10` compare by magnitude; a one-part sequence sorts before
its two-part extension. -/
theorem c4_witness :
    build_source_index (fun r => r.address)
        [({ region := ['x'], name := ['a'], brand := [], self_yn := [],
            address := ['k'], phone := [], gasoline := none, premium := none,
            diesel := none }, 0),
         ({ region := ['x'], name := ['b'], brand := [], self_yn := [],
            address := ['k'], phone := [], gasoline := some 100, premium := none,
            diesel := none }, 1)] ['k']
      = spec_selected_record (fun r => r.address)
        [({ region := ['x'], name := ['a'], brand := [], self_yn := [],
            address := ['k'], phone := [], gasoline := none, premium := none,
            diesel := none }, 0),
         ({ region := ['x'], name := ['b'], brand := [], self_yn := [],
            address := ['k'], phone := [], gasoline := some 100, premium := none,
            diesel := none }, 1)] ['k']
    ∧ compare_natural_part (push_natural_part ['0', '9'] true)
        (push_natural_part ['1', '0'] true)
      = (natCmp (digitVal ['0', '9']) (digitVal ['1', '0'])).then (natCmp 2 2)
    ∧ compare_natural_parts [NaturalPart.text ['a']]
        [NaturalPart.text ['a'], NaturalPart.num ['1'] 1] = Ordering.lt := by
  refine ⟨?_, ?_, ?_⟩
  · exact c4_theorem.1 (fun r => r.address) _ ['k'] (by decide)
  · exact c4_theorem.2.1 ['0', '9'] ['1', '0'] (by decide) (by decide)
      (by decide) (by decide)
  · exact (c4_theorem.2.2.2 [NaturalPart.text ['a']] [NaturalPart.num ['1'] 1]
      (by decide)).1

/-! ### Claim C6: repack failure policy -/

/-- C6 (code bug): `rebuild_master_rows` takes the live row map
(`std::mem::take`) *before* the `usize_to_u32` row-count conversions, and
the conversion error paths return without restoring it: with an empty old
band and `2 ^ 32` new source records the final-count conversion
overflows, an error is returned, and the worksheet's row map is left
empty — not equal to its original contents, contradicting the claim's
"the worksheet is left unmutated whenever an error is returned". -/
theorem c6_theorem :
    ∀ (ws : Worksheet) (ss : List (List Char)) (hr ds : Nat)
      (rec : SourceRecord),
      ws.rows ≠ [] →
      (rebuild_master_rows ws ss hr ds [] [] (List.replicate (2 ^ 32) rec)).1
          = Except.error ('f' :: 'i' :: ['n'])
        ∧ (rebuild_master_rows ws ss hr ds [] []
            (List.replicate (2 ^ 32) rec)).2.rows = []
        ∧ ¬ (rebuild_master_rows ws ss hr ds [] []
            (List.replicate (2 ^ 32) rec)).2.rows = ws.rows := by
  intro ws ss hr ds rec hne
  have h1x : usize_to_u32 0 ('o' :: 'l' :: ['d']) = Except.ok 0 := by
    rw [usize_to_u32, if_pos (by norm_num)]
  have h2x : usize_to_u32 (2 ^ 32) ('f' :: 'i' :: ['n'])
      = Except.error ('f' :: 'i' :: ['n']) := by
    rw [usize_to_u32, if_neg (by norm_num)]
  have hmain : rebuild_master_rows ws ss hr ds [] []
      (List.replicate (2 ^ 32) rec)
      = (Except.error ('f' :: 'i' :: ['n']), { ws with rows := [] }) := by
    rw [rebuild_master_rows.eq_def]
    simp only [List.length_nil, List.length_replicate, Nat.zero_add]
    rw [h1x, h2x]
  rw [hmain]
  exact ⟨rfl, rfl, fun hcon => hne hcon.symm⟩

/-- Witness for C6 at the one-row worksheet `c6ws`: the error is returned
and the row map is emptied rather than restored. -/
theorem c6_witness :
    (rebuild_master_rows c6ws [] 1 2 [] [] (List.replicate (2 ^ 32) c6rec)).1
        = Except.error ('f' :: 'i' :: ['n'])
      ∧ (rebuild_master_rows c6ws [] 1 2 [] []
          (List.replicate (2 ^ 32) c6rec)).2.rows = []
      ∧ ¬ (rebuild_master_rows c6ws [] 1 2 [] []
          (List.replicate (2 ^ 32) c6rec)).2.rows = c6ws.rows :=
  c6_theorem c6ws [] 1 2 c6rec (by decide)

/-! ### Round-trip support: positions, substring search, escapes -/

theorem drop_add_of_drop {tag s : List Char} {i : Nat} (h : tag.drop i = s)
    (a : Nat) : tag.drop (i + a) = s.drop a := by
  rw [← h, ← List.drop_drop]

theorem head_at_of_drop {tag s : List Char} {i : Nat} (h : tag.drop i = s)
    (a : Nat) : tag[i + a]? = (s.drop a).head? := by
  rw [getElem?_eq_head?_drop, drop_add_of_drop h a]

theorem lt_length_of_drop_cons {l s : List Char} {i : Nat} {c : Char}
    (h : l.drop i = c :: s) : i < l.length := by
  by_contra hle
  rw [List.drop_eq_nil_of_le (by omega)] at h
  simp at h

theorem isPrefixOf_append_self (pat rest : List Char) :
    pat.isPrefixOf (pat ++ rest) = true := by
  induction pat with
  | nil => simp [List.isPrefixOf]
  | cons a t ih => simp [List.isPrefixOf, ih]

theorem isPrefixOf_append_long (pat l rest : List Char)
    (h : pat.length ≤ l.length) :
    pat.isPrefixOf (l ++ rest) = pat.isPrefixOf l := by
  induction pat generalizing l with
  | nil => simp [List.isPrefixOf]
  | cons a t ih =>
    cases l with
    | nil => simp at h
    | cons b bs =>
      simp only [List.length_cons] at h
      simp only [List.cons_append]
      show (a == b && t.isPrefixOf (bs ++ rest)) = (a == b && t.isPrefixOf bs)
      rw [ih bs (by omega)]

theorem findSub_eqn (s pat : List Char) :
    findSub s pat = if pat.isPrefixOf s then some 0
      else match s with
        | [] => none
        | _ :: t => (findSub t pat).map (· + 1) := by
  rw [findSub.eq_def]

theorem findSub_self {s pat : List Char} (h : pat.isPrefixOf s = true) :
    findSub s pat = some 0 := by
  rw [findSub_eqn, if_pos h]

theorem findSub_nil {pat : List Char} (h : pat ≠ []) : findSub [] pat = none := by
  cases pat with
  | nil => exact absurd rfl h
  | cons a t => rfl

theorem noSub_spec {pat l : List Char} (h : noSub pat l = true) (k : Nat)
    (hk : k < l.length) : pat.isPrefixOf (l.drop k ++ pat) = false := by
  rw [noSub] at h
  have h2 := List.all_eq_true.1 h k (List.mem_range.2 hk)
  simpa using h2

theorem noSub_tail {pat : List Char} {c : Char} {l : List Char}
    (h : noSub pat (c :: l) = true) : noSub pat l = true := by
  rw [noSub, List.all_eq_true]
  intro k hk
  rw [List.mem_range] at hk
  have h2 := noSub_spec h (k + 1) (by simp; omega)
  rw [List.drop_succ_cons] at h2
  simp [h2]

theorem findSub_at {pat : List Char} (a rest : List Char) (hne : pat ≠ [])
    (hno : noSub pat a = true) :
    findSub (a ++ (pat ++ rest)) pat = some a.length := by
  induction a with
  | nil =>
    rw [List.nil_append]
    exact findSub_self (isPrefixOf_append_self pat rest)
  | cons c t ih =>
    have h0 : pat.isPrefixOf ((c :: t) ++ (pat ++ rest)) = false := by
      have hx := noSub_spec hno 0 (by simp)
      rw [List.drop_zero] at hx
      rw [← List.append_assoc]
      rw [isPrefixOf_append_long pat ((c :: t) ++ pat) rest (by simp; omega)]
      exact hx
    rw [findSub_eqn, if_neg (by simp only [h0]; decide)]
    show (findSub (t ++ (pat ++ rest)) pat).map (· + 1) = some (c :: t).length
    rw [ih (noSub_tail hno)]
    simp

theorem noSub_single {ch : Char} {l : List Char}
    (h : l.all (fun c => !(c = ch)) = true) : noSub [ch] l = true := by
  rw [noSub, List.all_eq_true]
  intro k hk
  rw [List.mem_range] at hk
  cases hd : l.drop k with
  | nil =>
    have h2 := congrArg List.length hd
    simp at h2
    omega
  | cons x xs =>
    have hx : x ∈ l := by
      have h2 : x ∈ l.drop k := by rw [hd]; exact List.mem_cons_self x xs
      exact List.mem_of_mem_drop h2
    have h3 := List.all_eq_true.1 h x hx
    simp only [Bool.not_eq_true', decide_eq_false_iff_not] at h3
    simp [List.isPrefixOf]
    exact fun hcc => h3 hcc.symm

theorem escFun5_chars (c : Char) :
    (escFun5 c).all (fun x => !(x = '>') && !(x = '"')) = true := by
  rw [escFun5]
  split
  · decide
  · split
    · decide
    · split
      · decide
      · split
        · decide
        · split
          · decide
          · simp_all

theorem esc_attr_chars (v : List Char) :
    (Excel.xml_escape_attr v).all (fun x => !(x = '>') && !(x = '"')) = true := by
  rw [excel_escape_attr_eq, escape_attr_concat]
  induction v with
  | nil => rfl
  | cons c t ih =>
    rw [show concatMapF escFun5 (c :: t) = escFun5 c ++ concatMapF escFun5 t from rfl]
    rw [List.all_append, escFun5_chars c, ih]
    rfl

theorem esc_attr_safe {v : List Char} {x : Char}
    (hx : x ∈ Excel.xml_escape_attr v) :
    (!(x = '>')) = true ∧ (!(x = '"')) = true := by
  have h2 := List.all_eq_true.1 (esc_attr_chars v) x hx
  rw [Bool.and_eq_true] at h2
  exact h2

theorem attrs_to_xml_foldl (l : List (List Char × List Char)) :
    ∀ init, l.foldl
      (fun out p =>
        out ++ ' ' :: p.1 ++ '=' :: '"' :: Excel.xml_escape_attr p.2 ++ ['"'])
      init = init ++ (l.map attrChunk).flatten := by
  induction l with
  | nil => intro init; simp
  | cons p t ih =>
    intro init
    rw [List.foldl_cons, ih]
    simp [attrChunk]

theorem attrs_to_xml_eqn (l : List (List Char × List Char)) :
    attrs_to_xml l = (l.map attrChunk).flatten := by
  rw [attrs_to_xml, attrs_to_xml_foldl]
  simp

theorem attrs_to_xml_cons (p : List Char × List Char)
    (l : List (List Char × List Char)) :
    attrs_to_xml (p :: l) = attrChunk p ++ attrs_to_xml l := by
  rw [attrs_to_xml_eqn, attrs_to_xml_eqn, List.map_cons, List.flatten_cons]

theorem attrKeyChar_spec {c : Char} (h : attrKeyChar c = true) :
    isAsciiWhitespace c = false ∧ ¬ c = '=' ∧ ¬ c = '>' ∧ ¬ c = '/' := by
  rw [attrKeyChar] at h
  simp only [Bool.and_eq_true, Bool.not_eq_true', decide_eq_false_iff_not] at h
  exact ⟨h.1.1.1, h.1.1.2, h.1.2, h.2⟩

theorem attrs_to_xml_no_gt (l : List (List Char × List Char))
    (h : ∀ p ∈ l, attrWf p = true) :
    (attrs_to_xml l).all (fun c => !(c = '>')) = true := by
  induction l with
  | nil => rfl
  | cons p t ih =>
    rw [attrs_to_xml_cons, List.all_append]
    have hwfp := h p (by simp)
    rw [attrWf, Bool.and_eq_true] at hwfp
    have hchunk : (attrChunk p).all (fun c => !(c = '>')) = true := by
      rw [List.all_eq_true]
      intro x hx2
      have hsplit : attrChunk p
          = (' ' :: p.1) ++ ('=' :: '"' :: (Excel.xml_escape_attr p.2 ++ ['"'])) := by
        simp [attrChunk]
      rw [hsplit] at hx2
      rcases List.mem_append.1 hx2 with h1 | h1
      · rcases List.mem_cons.1 h1 with h2 | h2
        · subst h2; decide
        · have h3 := List.all_eq_true.1 hwfp.2 x h2
          have h4 := (attrKeyChar_spec h3).2.2.1
          simp [h4]
      · rcases List.mem_cons.1 h1 with h2 | h2
        · subst h2; decide
        rcases List.mem_cons.1 h2 with h3 | h3
        · subst h3; decide
        rcases List.mem_append.1 h3 with h4 | h4
        · exact (esc_attr_safe h4).1
        · have h5 : x = '"' := by simpa using h4
          subst h5; decide
    rw [hchunk, ih (fun q hq => h q (by simp [hq]))]
    rfl

theorem attrs_to_xml_last_quote (l : List (List Char × List Char)) (h : l ≠ []) :
    ∃ a, attrs_to_xml l = a ++ ['"'] := by
  induction l with
  | nil => exact absurd rfl h
  | cons p t ih =>
    cases t with
    | nil =>
      refine ⟨' ' :: p.1 ++ '=' :: '"' :: Excel.xml_escape_attr p.2, ?_⟩
      rw [attrs_to_xml_cons,
        show attrs_to_xml ([] : List (List Char × List Char)) = [] from rfl]
      simp [attrChunk]
    | cons q t2 =>
      obtain ⟨a, ha⟩ := ih (by simp)
      exact ⟨attrChunk p ++ a, by rw [attrs_to_xml_cons, ha, List.append_assoc]⟩

theorem length_le_flatten {α : Type} (L : List (List α))
    (h : ∀ x ∈ L, x ≠ []) : L.length ≤ L.flatten.length := by
  induction L with
  | nil => simp
  | cons x t ih =>
    rw [List.flatten_cons, List.length_cons, List.length_append]
    have hx := h x (by simp)
    have h1 : 1 ≤ x.length := by
      cases x with
      | nil => exact absurd rfl hx
      | cons a b => simp
    have ht := ih (fun y hy => h y (by simp [hy]))
    omega

theorem isSuffixOf_close_true (l : List Char) :
    ('/' :: ['>']).isSuffixOf (l ++ '/' :: ['>']) = true := by
  show (('/' :: ['>'] : List Char).reverse.isPrefixOf (l ++ '/' :: ['>']).reverse) = true
  rw [List.reverse_append, show (('/' :: ['>'] : List Char)).reverse = '>' :: ['/'] from rfl]
  exact isPrefixOf_append_self ('>' :: ['/']) l.reverse

theorem isSuffixOf_close_false (a : List Char) (x : Char) (hx : ¬ x = '/') :
    ('/' :: ['>']).isSuffixOf ((a ++ [x]) ++ ['>']) = false := by
  show (('/' :: ['>'] : List Char).reverse.isPrefixOf ((a ++ [x]) ++ ['>']).reverse) = false
  rw [List.reverse_append, List.reverse_append,
    show (('/' :: ['>'] : List Char)).reverse = '>' :: ['/'] from rfl]
  simp only [List.reverse_cons, List.reverse_nil, List.nil_append, List.cons_append]
  simp [List.isPrefixOf]
  exact fun hcc => hx hcc.symm

/-! ### Round-trip support: the tag-attribute scanner inverts `attrs_to_xml` -/

theorem parseAttrsGo_step (tag : List Char) (f i : Nat)
    (acc : List (List Char × List Char)) (k v R : List Char)
    (hk : k ≠ []) (hka : k.all attrKeyChar = true)
    (hdrop : tag.drop i = attrChunk (k, v) ++ R) :
    parseAttrsGo tag (f + 1) i acc
      = parseAttrsGo tag f (i + (attrChunk (k, v)).length) (acc ++ [(k, v)]) := by
  cases k with
  | nil => exact absurd rfl hk
  | cons kc kt =>
  have hkc : attrKeyChar kc = true := List.all_eq_true.1 hka kc (by simp)
  obtain ⟨hkw, hke, hkg, hks⟩ := attrKeyChar_spec hkc
  have hs : tag.drop i
      = ' ' :: kc :: (kt ++ '=' :: '"' :: (Excel.xml_escape_attr v ++ '"' :: R)) := by
    rw [hdrop, attrChunk]
    simp
  have hs1 : tag.drop (i + 1)
      = kc :: (kt ++ '=' :: '"' :: (Excel.xml_escape_attr v ++ '"' :: R)) := by
    rw [drop_add_of_drop hs 1]
    simp
  have hs2 : tag.drop (i + 1 + (kt.length + 1))
      = '=' :: '"' :: (Excel.xml_escape_attr v ++ '"' :: R) := by
    have h2 := drop_add_of_drop hs1 (kt.length + 1)
    rw [h2, List.drop_succ_cons]
    exact List.drop_left _ _
  have hs3 : tag.drop (i + 1 + (kt.length + 1) + 1)
      = '"' :: (Excel.xml_escape_attr v ++ '"' :: R) := by
    rw [drop_add_of_drop hs2 1]
    simp
  have hs4 : tag.drop (i + 1 + (kt.length + 1) + 1 + 1)
      = Excel.xml_escape_attr v ++ '"' :: R := by
    rw [drop_add_of_drop hs3 1]
    simp
  have e1 : (tag.drop i).takeWhile isAsciiWhitespace = [' '] := by
    rw [hs, List.takeWhile_cons_of_pos (by decide),
      List.takeWhile_cons_of_neg (by simp [hkw])]
  have e2 : tag[i + 1]? = some kc := by
    rw [getElem?_eq_head?_drop, hs1]
    rfl
  have e3 : (tag.drop (i + 1)).takeWhile (fun c2 =>
      !(isAsciiWhitespace c2) && !(c2 = '=') && !(c2 = '>') && !(c2 = '/'))
      = kc :: kt := by
    rw [hs1, List.takeWhile_cons_of_pos (by exact hkc),
      takeWhile_append_stop (by decide),
      List.takeWhile_eq_self_iff.2
        (fun c hc => by exact List.all_eq_true.1 hka c (by simp [hc]))]
  have e5 : (tag.drop (i + 1 + (kt.length + 1))).takeWhile isAsciiWhitespace
      = [] := by
    rw [hs2, List.takeWhile_cons_of_neg (by decide)]
  have e6 : tag[i + 1 + (kt.length + 1)]? = some '=' := by
    rw [getElem?_eq_head?_drop, hs2]
    rfl
  have e8 : (tag.drop (i + 1 + (kt.length + 1) + 1)).takeWhile isAsciiWhitespace
      = [] := by
    rw [hs3, List.takeWhile_cons_of_neg (by decide)]
  have e9 : tag[i + 1 + (kt.length + 1) + 1]? = some '"' := by
    rw [getElem?_eq_head?_drop, hs3]
    rfl
  have e11 : (tag.drop (i + 1 + (kt.length + 1) + 1 + 1)).takeWhile
      (fun c2 => !(c2 = '"')) = Excel.xml_escape_attr v := by
    rw [hs4, takeWhile_append_stop (by decide)]
    exact List.takeWhile_eq_self_iff.2 (fun c hc => (esc_attr_safe hc).2)
  have e12 : ¬ (tag.length ≤ i + 1 + (kt.length + 1) + 1 + 1
      + (Excel.xml_escape_attr v).length) := by
    have h2 := drop_add_of_drop hs4 (Excel.xml_escape_attr v).length
    rw [List.drop_left] at h2
    have h3 := lt_length_of_drop_cons h2
    omega
  rw [parseAttrsGo]
  simp only [e1, e2, e3, e5, e6, e8, e9, e11, List.length_cons, List.length_nil,
    Nat.add_zero, Nat.zero_add]
  rw [if_neg (by rintro (hcc | hcc) <;> [exact hkg hcc; exact hks hcc])]
  rw [if_neg (by simp)]
  rw [if_neg (by simp)]
  rw [if_neg (by simp)]
  rw [if_neg e12]
  rw [show Excel.decode_xml_entities (Excel.xml_escape_attr v) = v from
    decode_escape_attr_excel v]
  rw [show i + 1 + (kt.length + 1) + 1 + 1 + (Excel.xml_escape_attr v).length + 1
      = i + (attrChunk (kc :: kt, v)).length from by
    simp [attrChunk]
    omega]

theorem parseAttrsGo_spec (tag : List Char) (tail0 : List Char)
    (htail : tail0.head? = some '>' ∨ tail0.head? = some '/') :
    ∀ (attrs : List (List Char × List Char)) (fuel i : Nat)
      (acc : List (List Char × List Char)),
      tag.drop i = attrs_to_xml attrs ++ tail0 →
      (∀ p ∈ attrs, attrWf p = true) →
      attrs.length < fuel →
      parseAttrsGo tag fuel i acc = Except.ok (acc ++ attrs) := by
  intro attrs
  induction attrs with
  | nil =>
    intro fuel i acc hdrop hwf hfuel
    cases fuel with
    | zero => omega
    | succ f =>
      rw [show attrs_to_xml [] = [] from rfl, List.nil_append] at hdrop
      obtain ⟨c0, t0, hc0, hor⟩ : ∃ c0 t0, tail0 = c0 :: t0 ∧ (c0 = '>' ∨ c0 = '/') := by
        cases tail0 with
        | nil => simp at htail
        | cons c0 t0 =>
          refine ⟨c0, t0, rfl, ?_⟩
          rcases htail with h | h
          · exact Or.inl (by simpa using h)
          · exact Or.inr (by simpa using h)
      rw [hc0] at hdrop
      have hcw : isAsciiWhitespace c0 = false := by
        rcases hor with h | h
        · rw [h]; decide
        · rw [h]; decide
      have e1 : (tag.drop i).takeWhile isAsciiWhitespace = [] := by
        rw [hdrop, List.takeWhile_cons_of_neg (by simp [hcw])]
      have e2 : tag[i]? = some c0 := by
        rw [getElem?_eq_head?_drop, hdrop]
        rfl
      rw [parseAttrsGo]
      simp only [e1, List.length_nil, Nat.add_zero, e2]
      rw [if_pos hor]
      simp
  | cons p rest ih =>
    intro fuel i acc hdrop hwf hfuel
    cases fuel with
    | zero => omega
    | succ f =>
      obtain ⟨k, v⟩ := p
      have hwfp := hwf (k, v) (by simp)
      rw [attrWf, Bool.and_eq_true] at hwfp
      have hk : k ≠ [] := by
        intro hc
        rw [hc] at hwfp
        simp at hwfp
      rw [attrs_to_xml_cons, List.append_assoc] at hdrop
      rw [parseAttrsGo_step tag f i acc k v (attrs_to_xml rest ++ tail0) hk
        hwfp.2 hdrop]
      have hdrop2 : tag.drop (i + (attrChunk (k, v)).length)
          = attrs_to_xml rest ++ tail0 := by
        rw [drop_add_of_drop hdrop ((attrChunk (k, v)).length), List.drop_left]
      rw [ih f (i + (attrChunk (k, v)).length) (acc ++ [(k, v)]) hdrop2
        (fun q hq => hwf q (by simp [hq])) (by simp at hfuel ⊢; omega)]
      simp

theorem attrChunk_ne_nil (p : List Char × List Char) : attrChunk p ≠ [] := by
  rw [attrChunk]
  simp

theorem parse_tag_attrs_inv (name : List Char)
    (attrs : List (List Char × List Char)) (tail0 : List Char)
    (hname : name ≠ []) (hnc : name.all tagNameChar = true)
    (hwf : ∀ p ∈ attrs, attrWf p = true)
    (htail : tail0.head? = some '>' ∨ tail0.head? = some '/') :
    parse_tag_attrs ('<' :: (name ++ (attrs_to_xml attrs ++ tail0)))
      = Except.ok attrs := by
  have htne : tail0 ≠ [] := by
    rcases htail with h | h <;> (intro hc; rw [hc] at h; simp at h)
  have h0 : findSub ('<' :: (name ++ (attrs_to_xml attrs ++ tail0))) ['<']
      = some 0 := findSub_self (by simp [List.isPrefixOf])
  have hd1 : ('<' :: (name ++ (attrs_to_xml attrs ++ tail0))).drop 1
      = name ++ (attrs_to_xml attrs ++ tail0) := rfl
  have e1 : (('<' :: (name ++ (attrs_to_xml attrs ++ tail0))).drop 1).takeWhile
      (fun c => !(isAsciiWhitespace c) && !(c = '>') && !(c = '/')) = name := by
    rw [hd1]
    have hnall : ∀ c ∈ name, (fun c => !(isAsciiWhitespace c) && !(c = '>')
        && !(c = '/')) c = true :=
      fun c hc => List.all_eq_true.1 hnc c hc
    cases hattrs : attrs with
    | nil =>
      rw [show attrs_to_xml [] = [] from rfl, List.nil_append]
      obtain ⟨c0, t0, hc0, hor⟩ : ∃ c0 t0, tail0 = c0 :: t0
          ∧ (c0 = '>' ∨ c0 = '/') := by
        cases tail0 with
        | nil => simp at htail
        | cons c0 t0 =>
          refine ⟨c0, t0, rfl, ?_⟩
          rcases htail with h | h
          · exact Or.inl (by simpa using h)
          · exact Or.inr (by simpa using h)
      rw [hc0, takeWhile_append_stop (by rcases hor with h | h <;> (rw [h]; decide))]
      exact List.takeWhile_eq_self_iff.2 hnall
    | cons q qs =>
      have hshape : attrs_to_xml (q :: qs) ++ tail0
          = ' ' :: (q.1 ++ '=' :: '"' :: (Excel.xml_escape_attr q.2
            ++ '"' :: (attrs_to_xml qs ++ tail0))) := by
        rw [attrs_to_xml_cons, attrChunk]
        simp
      rw [hshape, takeWhile_append_stop (by decide)]
      exact List.takeWhile_eq_self_iff.2 hnall
  have hi1 : ('<' :: (name ++ (attrs_to_xml attrs ++ tail0))).drop (1 + name.length)
      = attrs_to_xml attrs ++ tail0 := by
    rw [drop_add_of_drop hd1 name.length]
    exact List.drop_left _ _
  have hlen : ¬ (('<' :: (name ++ (attrs_to_xml attrs ++ tail0))).length
      ≤ 1 + name.length) := by
    intro hcon
    have h2 : ('<' :: (name ++ (attrs_to_xml attrs ++ tail0))).drop (1 + name.length)
        = [] := List.drop_eq_nil_of_le (by omega)
    rw [hi1] at h2
    cases htl : tail0 with
    | nil => exact htne htl
    | cons c0 t0 =>
      rw [htl] at h2
      rcases List.append_eq_nil.1 h2 with ⟨_, h4⟩
      simp at h4
  have hfl : attrs.length
      < ('<' :: (name ++ (attrs_to_xml attrs ++ tail0))).length + 1 := by
    have h2 : attrs.length ≤ (attrs_to_xml attrs).length := by
      rw [attrs_to_xml_eqn]
      have h3 := length_le_flatten (attrs.map attrChunk) (by
        intro x hx
        obtain ⟨pp, _, rfl⟩ := List.mem_map.1 hx
        exact attrChunk_ne_nil pp)
      simpa using h3
    simp
    omega
  rw [parse_tag_attrs]
  simp only [h0, e1, Nat.zero_add]
  rw [if_neg hlen]
  rw [parseAttrsGo_spec ('<' :: (name ++ (attrs_to_xml attrs ++ tail0))) tail0
    htail attrs _ (1 + name.length) [] hi1 hwf hfl]
  simp

/-! ### Round-trip support: column / row-number codecs invert -/

theorem charAlpha26 (r : Nat) (h : r < 26) :
    isAsciiAlpha (Char.ofNat ('A'.toNat + r)) = true := by
  interval_cases r <;> decide

theorem charVal26 (r : Nat) (h : r < 26) :
    (Char.ofNat ('A'.toNat + r)).toUpper.toNat - 'A'.toNat + 1 = r + 1 := by
  interval_cases r <;> decide

theorem colRev_zero : ∀ f, colToNameRevGo f 0 = [] := by
  intro f
  cases f with
  | zero => rfl
  | succ f2 => rw [colToNameRevGo, if_pos rfl]

theorem colRev_alpha : ∀ fuel col,
    (colToNameRevGo fuel col).all isAsciiAlpha = true := by
  intro fuel
  induction fuel with
  | zero => intro col; rfl
  | succ f ih =>
    intro col
    rw [colToNameRevGo]
    by_cases h : col = 0
    · rw [if_pos h]; rfl
    · rw [if_neg h, List.all_cons,
        charAlpha26 _ (Nat.mod_lt _ (by norm_num)), ih]
      rfl

theorem colRev_foldl : ∀ fuel col, 1 ≤ col → col ≤ fuel → col ≤ 16384 →
    (colToNameRevGo fuel col).reverse.foldl
      (fun out ch => min 4294967295 (min 4294967295 (out * 26)
        + (ch.toUpper.toNat - 'A'.toNat + 1))) 0 = col := by
  intro fuel
  induction fuel with
  | zero => intro col h1 h2 _; omega
  | succ f ih =>
    intro col h1 h2 h3
    rw [colToNameRevGo, if_neg (by omega), List.reverse_cons, List.foldl_append]
    by_cases hq : (col - 1) / 26 = 0
    · rw [hq, colRev_zero]
      simp only [List.reverse_nil, List.foldl_nil, List.foldl_cons]
      rw [charVal26 _ (Nat.mod_lt _ (by norm_num))]
      omega
    · rw [ih _ (by omega) (by omega) (by omega)]
      simp only [List.foldl_cons, List.foldl_nil]
      rw [charVal26 _ (Nat.mod_lt _ (by norm_num))]
      omega

theorem colRev_ne (col : Nat) (h1 : 1 ≤ col) :
    ∀ fuel, 1 ≤ fuel → colToNameRevGo fuel col ≠ [] := by
  intro fuel h2
  cases fuel with
  | zero => omega
  | succ f =>
    rw [colToNameRevGo, if_neg (by omega)]
    simp

theorem name_to_col_inv (col : Nat) (h1 : 1 ≤ col) (h2 : col ≤ 16384) :
    name_to_col (col_to_name col) = some col := by
  rw [col_to_name, if_neg (by omega), name_to_col]
  rw [if_neg (by
    intro hcon
    rw [List.reverse_eq_nil_iff] at hcon
    exact colRev_ne col h1 col (by omega) hcon)]
  rw [if_pos (by rw [List.all_reverse]; exact colRev_alpha col col)]
  rw [colRev_foldl col col h1 (by omega) h2]

theorem digitChar10 (n : Nat) (h : n < 10) :
    isAsciiDigit (Char.ofNat (48 + n)) = true
      ∧ (Char.ofNat (48 + n)).toNat - '0'.toNat = n := by
  interval_cases n <;> exact ⟨by decide, by decide⟩

theorem natDigitsGo_spec : ∀ fuel n, n < fuel →
    (natDigitsGo fuel n).all isAsciiDigit = true
      ∧ digitVal (natDigitsGo fuel n) = n
      ∧ natDigitsGo fuel n ≠ [] := by
  intro fuel
  induction fuel with
  | zero => intro n h; omega
  | succ f ih =>
    intro n h
    rw [natDigitsGo]
    by_cases h10 : n < 10
    · rw [if_pos h10]
      obtain ⟨hd, hv⟩ := digitChar10 n h10
      refine ⟨by simp [hd], ?_, by simp⟩
      rw [digitVal]
      simp only [List.foldl_cons, List.foldl_nil, Nat.zero_mul, Nat.zero_add]
      exact hv
    · rw [if_neg h10]
      obtain ⟨ha, hv, hne⟩ := ih (n / 10) (by omega)
      obtain ⟨hd2, hv2⟩ := digitChar10 (n % 10) (Nat.mod_lt _ (by norm_num))
      refine ⟨?_, ?_, by simp⟩
      · rw [List.all_append, ha]
        simp [hd2]
      · rw [digitVal, List.foldl_append]
        have hv3 : List.foldl (fun acc c => acc * 10 + (c.toNat - '0'.toNat)) 0
            (natDigitsGo f (n / 10)) = n / 10 := hv
        rw [hv3]
        simp only [List.foldl_cons, List.foldl_nil]
        omega

theorem natDigits_spec (n : Nat) :
    (natDigits n).all isAsciiDigit = true ∧ digitVal (natDigits n) = n
      ∧ natDigits n ≠ [] :=
  natDigitsGo_spec (n + 1) n (by omega)

theorem parseU32_natDigits (n : Nat) (h : n ≤ 4294967295) :
    parseU32 (natDigits n) = some n := by
  obtain ⟨ha, hv, hne⟩ := natDigits_spec n
  rw [parseU32, if_neg hne, if_pos ha]
  have hv2 : (natDigits n).foldl (fun acc c => acc * 10 + (c.toNat - '0'.toNat)) 0
      = n := hv
  simp only [hv2]
  rw [if_pos h]

theorem alpha_ne_dollar {c : Char} (h : isAsciiAlpha c = true) : ¬ c = '$' := by
  intro hc
  rw [hc] at h
  exact absurd h (by decide)

theorem digit_facts {c : Char} (h : isAsciiDigit c = true) :
    ¬ c = '$' ∧ isAsciiAlpha c = false := by
  have hb := digit_char_bounds h
  have h36 : Char.toNat '$' = 36 := by decide
  constructor
  · intro hc
    rw [hc] at hb
    omega
  · obtain ⟨hb1, hb2⟩ := hb
    have hc : Char.ofNat c.toNat = c := Char.ofNat_toNat c
    rw [← hc]
    set m := c.toNat with hm
    interval_cases m <;> decide

theorem prGo_digits : ∀ (D colS rowS : List Char), D.all isAsciiDigit = true →
    parseCellRefGo D colS rowS = some (colS, rowS ++ D) := by
  intro D
  induction D with
  | nil => intro colS rowS _; simp [parseCellRefGo]
  | cons d t ih =>
    intro colS rowS hall
    rw [List.all_cons, Bool.and_eq_true] at hall
    obtain ⟨hd, ht⟩ := hall
    obtain ⟨hnd, hna⟩ := digit_facts hd
    rw [parseCellRefGo]
    rw [if_neg hnd, if_neg (by simp [hna]), if_pos hd]
    rw [ih colS (rowS ++ [d]) ht]
    simp

theorem prGo_alpha : ∀ (A D colS : List Char), A.all isAsciiAlpha = true →
    parseCellRefGo (A ++ D) colS [] = parseCellRefGo D (colS ++ A) [] := by
  intro A
  induction A with
  | nil => intro D colS _; simp
  | cons a t ih =>
    intro D colS hall
    rw [List.all_cons, Bool.and_eq_true] at hall
    obtain ⟨haa, hat⟩ := hall
    rw [List.cons_append, parseCellRefGo]
    rw [if_neg (alpha_ne_dollar haa), if_pos haa, if_neg (by simp)]
    rw [ih D (colS ++ [a]) hat]
    simp

theorem parse_cell_ref_inv (col n : Nat) (h1 : 1 ≤ col) (h2 : col ≤ 16384)
    (h3 : n ≤ 4294967295) :
    parse_cell_ref (col_to_name col ++ natDigits n) = some (col, n) := by
  have halpha : (col_to_name col).all isAsciiAlpha = true := by
    rw [col_to_name, if_neg (by omega), List.all_reverse]
    exact colRev_alpha col col
  rw [parse_cell_ref, prGo_alpha _ _ [] halpha,
    prGo_digits _ _ _ (natDigits_spec n).1]
  simp only [List.nil_append]
  simp only [name_to_col_inv col h1 h2, parseU32_natDigits n h3]

/-! ### Round-trip support: sorted attributes, map inserts, wf access -/

theorem sortAttrs_id (l : List (List Char × List Char))
    (h : attrsLeChain l = true) : sortAttrs l = l := by
  induction l with
  | nil => rfl
  | cons a t ih =>
    have hstep : sortAttrs (a :: t) = insertAttr a (sortAttrs t) := rfl
    cases t with
    | nil => rfl
    | cons b t2 =>
      rw [attrsLeChain, Bool.and_eq_true] at h
      obtain ⟨hab, hbt⟩ := h
      rw [hstep, ih hbt, insertAttr, if_pos hab]

theorem btInsert_append {α : Type} (k : Nat) (v : α) (acc : List (Nat × α))
    (h : ∀ q ∈ acc, q.1 < k) : btInsert k v acc = acc ++ [(k, v)] := by
  induction acc with
  | nil => rfl
  | cons q t ih =>
    obtain ⟨k2, v2⟩ := q
    have hk2 : k2 < k := h (k2, v2) (by simp)
    rw [btInsert, if_neg (by omega), if_neg (by omega),
      ih (fun q hq => h q (by simp [hq]))]
    rfl

theorem natKeysInc_cons : ∀ (a : Nat) (t : List Nat),
    natKeysInc (a :: t) = true → natKeysInc t = true ∧ ∀ x ∈ t, a < x := by
  intro a t
  induction t generalizing a with
  | nil => intro _; exact ⟨rfl, by simp⟩
  | cons b t2 ih =>
    intro h
    rw [natKeysInc, Bool.and_eq_true] at h
    obtain ⟨hab, hbt⟩ := h
    have hab2 : a < b := of_decide_eq_true hab
    obtain ⟨ht2, hball⟩ := ih b hbt
    refine ⟨hbt, ?_⟩
    intro x hx
    rcases List.mem_cons.1 hx with h2 | h2
    · rw [h2]; exact hab2
    · exact lt_trans hab2 (hball x h2)

theorem get_attr_ne_nil {attrs : List (List Char × List Char)} {name v : List Char}
    (h : get_attr attrs name = some v) : attrs ≠ [] := by
  intro hc
  rw [hc] at h
  simp [get_attr] at h

theorem cell_to_xml_ne (c : Cell) : cell_to_xml c ≠ [] := by
  rw [cell_to_xml]
  simp

theorem row_to_xml_ne (r : Row) : row_to_xml r ≠ [] := by
  rw [row_to_xml]
  simp

theorem cellWf_spec {n col : Nat} {cell : Cell} (h : cellWf n col cell = true) :
    (∀ p ∈ cell.attrs, attrWf p = true)
      ∧ attrsLeChain cell.attrs = true
      ∧ get_attr cell.attrs ['r'] = some (col_to_name col ++ natDigits n)
      ∧ 1 ≤ col ∧ col ≤ 16384
      ∧ (∀ inner, cell.inner_xml = some inner →
          noSub ('<' :: '/' :: 'c' :: ['>']) inner = true) := by
  rw [cellWf] at h
  simp only [Bool.and_eq_true] at h
  obtain ⟨⟨⟨⟨⟨h1, h2⟩, h3⟩, h4⟩, h5⟩, h6⟩ := h
  refine ⟨fun p hp => List.all_eq_true.1 h1 p hp, h2, eq_of_beq h3,
    of_decide_eq_true h4, of_decide_eq_true h5, ?_⟩
  intro inner hi
  rw [hi] at h6
  exact h6

theorem rowWf_spec {n : Nat} {row : Row} (h : rowWf n row = true) :
    (∀ p ∈ row.attrs, attrWf p = true)
      ∧ attrsLeChain row.attrs = true
      ∧ get_attr row.attrs ['r'] = some (natDigits n)
      ∧ n ≤ 4294967295
      ∧ natKeysInc (row.cells.map Prod.fst) = true
      ∧ (∀ p ∈ row.cells, cellWf n p.1 p.2 = true)
      ∧ noSub ('<' :: '/' :: 'r' :: 'o' :: 'w' :: ['>'])
          ((row.cells.map (fun p => cell_to_xml p.2)).flatten) = true := by
  rw [rowWf] at h
  simp only [Bool.and_eq_true] at h
  obtain ⟨⟨⟨⟨⟨⟨h1, h2⟩, h3⟩, h4⟩, h5⟩, h6⟩, h7⟩ := h
  exact ⟨fun p hp => List.all_eq_true.1 h1 p hp, h2, eq_of_beq h3,
    of_decide_eq_true h4, h5, fun p hp => List.all_eq_true.1 h6 p hp, h7⟩

/-! ### Round-trip support: the cell loop inverts `cell_to_xml` -/

theorem parseCellsGo_step (row_body : List Char) (n : Nat) (f cursor nc : Nat)
    (acc : List (Nat × Cell)) (col : Nat) (cell : Cell) (R : List Char)
    (hn : n ≤ 4294967295)
    (hdrop : row_body.drop cursor = cell_to_xml cell ++ R)
    (hwf : cellWf n col cell = true)
    (hacc : ∀ q ∈ acc, q.1 < col) :
    parseCellsGo row_body n (f + 1) cursor nc acc
      = parseCellsGo row_body n f (cursor + (cell_to_xml cell).length)
          (min (col + 1) 4294967295) (acc ++ [(col, cell)]) := by
  obtain ⟨hattrs, hchain, hr, hc1, hc2, hinner⟩ := cellWf_spec hwf
  obtain ⟨cattrs, cinner⟩ := cell
  dsimp only at hattrs hchain hr hinner
  have hane : cattrs ≠ [] := get_attr_ne_nil hr
  have hsorted : sortAttrs cattrs = cattrs := sortAttrs_id cattrs hchain
  have hbindr : (get_attr cattrs ['r']).bind
      (fun v2 => (parse_cell_ref v2).map Prod.fst) = some col := by
    rw [hr]
    simp [parse_cell_ref_inv col n hc1 hc2 hn]
  have hset : set_attr cattrs ['r'] (col_to_name col ++ natDigits n) = cattrs :=
    set_attr_unchanged cattrs _ _ hr
  have hnogt : (('<' :: 'c' :: attrs_to_xml cattrs) : List Char).all
      (fun c => !(c = '>')) = true := by
    rw [List.all_cons, List.all_cons, attrs_to_xml_no_gt cattrs hattrs]
    rfl
  cases cinner with
  | none =>
    have hx : cell_to_xml ⟨cattrs, none⟩
        = '<' :: 'c' :: (attrs_to_xml cattrs ++ '/' :: ['>']) := by
      rw [cell_to_xml]
      dsimp only
      rw [hsorted]
      simp
    have hfind1 : findSub (row_body.drop cursor) ('<' :: ['c']) = some 0 := by
      rw [hdrop, hx]
      exact findSub_self (by simp [List.isPrefixOf])
    have hnogt2 : (('<' :: 'c' :: (attrs_to_xml cattrs ++ ['/'])) : List Char).all
        (fun c => !(c = '>')) = true := by
      rw [show ('<' :: 'c' :: (attrs_to_xml cattrs ++ ['/'])) 
          = ('<' :: 'c' :: attrs_to_xml cattrs) ++ ['/'] from by simp]
      rw [List.all_append, hnogt]
      rfl
    have hfind2 : findSub (row_body.drop cursor) ['>']
        = some ((attrs_to_xml cattrs).length + 3) := by
      rw [hdrop, hx]
      rw [show '<' :: 'c' :: (attrs_to_xml cattrs ++ '/' :: ['>']) ++ R
          = ('<' :: 'c' :: (attrs_to_xml cattrs ++ ['/'])) ++ (['>'] ++ R) from by
        simp]
      rw [findSub_at _ _ (by simp) (noSub_single hnogt2)]
      simp only [List.length_cons, List.length_append, List.length_nil,
        Option.some.injEq]
    have htag : (row_body.drop cursor).take ((attrs_to_xml cattrs).length + 3 + 1)
        = '<' :: 'c' :: (attrs_to_xml cattrs ++ '/' :: ['>']) := by
      rw [hdrop, hx]
      rw [show (attrs_to_xml cattrs).length + 3 + 1
          = ('<' :: 'c' :: (attrs_to_xml cattrs ++ '/' :: ['>'])).length from by
        simp only [List.length_cons, List.length_append, List.length_nil]]
      exact List.take_left _ _
    have hpta : parse_tag_attrs ('<' :: 'c' :: (attrs_to_xml cattrs ++ '/' :: ['>']))
        = Except.ok cattrs := by
      have h2 := parse_tag_attrs_inv ['c'] cattrs ('/' :: ['>']) (by simp)
        (by decide) hattrs (Or.inr rfl)
      simpa using h2
    have hsuffix : (('/' :: ['>']).isSuffixOf
        ('<' :: 'c' :: (attrs_to_xml cattrs ++ '/' :: ['>']))) = true := by
      rw [show '<' :: 'c' :: (attrs_to_xml cattrs ++ '/' :: ['>'])
          = ('<' :: 'c' :: attrs_to_xml cattrs) ++ '/' :: ['>'] from by simp]
      exact isSuffixOf_close_true _
    rw [parseCellsGo]
    simp only [hfind1, Nat.add_zero, hfind2, htag, hpta, hbindr, hset]
    rw [if_pos hsuffix]
    rw [btInsert_append col _ acc hacc]
    rw [show cursor + ((attrs_to_xml cattrs).length + 3) + 1
        = cursor + (cell_to_xml ⟨cattrs, none⟩).length from by
      rw [hx]
      simp only [List.length_cons, List.length_append, List.length_nil]
      omega]
  | some inner =>
    have hnoinner : noSub ('<' :: '/' :: 'c' :: ['>']) inner = true :=
      hinner inner rfl
    have hx : cell_to_xml ⟨cattrs, some inner⟩
        = '<' :: 'c' :: (attrs_to_xml cattrs
          ++ '>' :: (inner ++ '<' :: '/' :: 'c' :: ['>'])) := by
      rw [cell_to_xml]
      dsimp only
      rw [hsorted]
      simp
    have hfind1 : findSub (row_body.drop cursor) ('<' :: ['c']) = some 0 := by
      rw [hdrop, hx]
      exact findSub_self (by simp [List.isPrefixOf])
    have hfind2 : findSub (row_body.drop cursor) ['>']
        = some ((attrs_to_xml cattrs).length + 2) := by
      rw [hdrop, hx]
      rw [show '<' :: 'c' :: (attrs_to_xml cattrs
            ++ '>' :: (inner ++ '<' :: '/' :: 'c' :: ['>'])) ++ R
          = ('<' :: 'c' :: attrs_to_xml cattrs)
            ++ (['>'] ++ (inner ++ (('<' :: '/' :: 'c' :: ['>']) ++ R))) from by
        simp]
      rw [findSub_at _ _ (by simp) (noSub_single hnogt)]
      simp only [List.length_cons, Option.some.injEq]
    have htag : (row_body.drop cursor).take ((attrs_to_xml cattrs).length + 2 + 1)
        = '<' :: 'c' :: (attrs_to_xml cattrs ++ ['>']) := by
      rw [hdrop, hx]
      rw [show '<' :: 'c' :: (attrs_to_xml cattrs
            ++ '>' :: (inner ++ '<' :: '/' :: 'c' :: ['>'])) ++ R
          = ('<' :: 'c' :: (attrs_to_xml cattrs ++ ['>']))
            ++ ((inner ++ (('<' :: '/' :: 'c' :: ['>']) ++ R))) from by simp]
      rw [show (attrs_to_xml cattrs).length + 2 + 1
          = ('<' :: 'c' :: (attrs_to_xml cattrs ++ ['>'])).length from by
        simp only [List.length_cons, List.length_append, List.length_nil]]
      exact List.take_left _ _
    have hpta : parse_tag_attrs ('<' :: 'c' :: (attrs_to_xml cattrs ++ ['>']))
        = Except.ok cattrs := by
      have h2 := parse_tag_attrs_inv ['c'] cattrs ['>'] (by simp)
        (by decide) hattrs (Or.inl rfl)
      simpa using h2
    have hsufF : (('/' :: ['>']).isSuffixOf
        ('<' :: 'c' :: (attrs_to_xml cattrs ++ ['>']))) = false := by
      obtain ⟨a2, ha2⟩ := attrs_to_xml_last_quote cattrs hane
      rw [show '<' :: 'c' :: (attrs_to_xml cattrs ++ ['>'])
          = (('<' :: 'c' :: a2) ++ ['"']) ++ ['>'] from by rw [ha2]; simp]
      exact isSuffixOf_close_false _ _ (by decide)
    have hd3 : row_body.drop (cursor + ((attrs_to_xml cattrs).length + 2) + 1)
        = inner ++ (('<' :: '/' :: 'c' :: ['>']) ++ R) := by
      have hdropX : row_body.drop cursor
          = ('<' :: 'c' :: (attrs_to_xml cattrs ++ ['>']))
            ++ (inner ++ (('<' :: '/' :: 'c' :: ['>']) ++ R)) := by
        rw [hdrop, hx]
        simp
      have h2 := drop_add_of_drop hdropX
        (('<' :: 'c' :: (attrs_to_xml cattrs ++ ['>'])).length)
      rw [List.drop_left] at h2
      rw [show cursor + ((attrs_to_xml cattrs).length + 2) + 1
          = cursor + ('<' :: 'c' :: (attrs_to_xml cattrs ++ ['>'])).length from by
        simp only [List.length_cons, List.length_append, List.length_nil]
        omega]
      exact h2
    have hfind3 : findSub
        (row_body.drop (cursor + ((attrs_to_xml cattrs).length + 2) + 1))
        ('<' :: '/' :: 'c' :: ['>']) = some inner.length := by
      rw [hd3]
      exact findSub_at _ _ (by simp) hnoinner
    have htake : (row_body.drop
        (cursor + ((attrs_to_xml cattrs).length + 2) + 1)).take inner.length
        = inner := by
      rw [hd3]
      exact List.take_left _ _
    rw [parseCellsGo]
    simp only [hfind1, Nat.add_zero, hfind2, htag, hpta, hbindr, hset]
    rw [if_neg (by simp [hsufF])]
    simp only [hfind3, htake]
    rw [btInsert_append col _ acc hacc]
    rw [show cursor + ((attrs_to_xml cattrs).length + 2) + 1 + inner.length + 4
        = cursor + (cell_to_xml ⟨cattrs, some inner⟩).length from by
      rw [hx]
      simp only [List.length_cons, List.length_append, List.length_nil]
      omega]

theorem parseCellsGo_spec (row_body : List Char) (n : Nat)
    (hn : n ≤ 4294967295) :
    ∀ (cs : List (Nat × Cell)) (fuel : Nat), cs.length < fuel →
    ∀ (cursor nc : Nat) (acc : List (Nat × Cell)),
      row_body.drop cursor = (cs.map (fun p => cell_to_xml p.2)).flatten →
      (∀ p ∈ cs, cellWf n p.1 p.2 = true) →
      natKeysInc (cs.map Prod.fst) = true →
      (∀ q ∈ acc, ∀ p ∈ cs, q.1 < p.1) →
      parseCellsGo row_body n fuel cursor nc acc = Except.ok (acc ++ cs) := by
  intro cs
  induction cs with
  | nil =>
    intro fuel hf cursor nc acc hdrop _ _ _
    cases fuel with
    | zero => omega
    | succ f =>
      simp only [List.map_nil, List.flatten_nil] at hdrop
      rw [parseCellsGo]
      rw [hdrop, findSub_nil (by simp)]
      simp
  | cons hd rest ih =>
    intro fuel hf cursor nc acc hdrop hwfs hinc hlt
    obtain ⟨col, cell⟩ := hd
    cases fuel with
    | zero => simp at hf
    | succ f =>
      simp only [List.map_cons, List.flatten_cons] at hdrop
      rw [parseCellsGo_step row_body n f cursor nc acc col cell _ hn hdrop
        (hwfs (col, cell) (by simp)) (fun q hq => hlt q hq (col, cell) (by simp))]
      have hdrop2 : row_body.drop (cursor + (cell_to_xml cell).length)
          = (rest.map (fun p => cell_to_xml p.2)).flatten := by
        rw [drop_add_of_drop hdrop (cell_to_xml cell).length, List.drop_left]
      obtain ⟨hinc2, hlt2⟩ := natKeysInc_cons col (rest.map Prod.fst)
        (by simpa using hinc)
      rw [ih f (by simp at hf; omega) (cursor + (cell_to_xml cell).length)
        (min (col + 1) 4294967295) (acc ++ [(col, cell)]) hdrop2
        (fun p hp => hwfs p (by simp [hp])) hinc2 ?_]
      · simp
      · intro q hq p hp
        rcases List.mem_append.1 hq with h2 | h2
        · exact hlt q h2 p (by simp [hp])
        · have hq2 : q = (col, cell) := by simpa using h2
          rw [hq2]
          exact hlt2 p.1 (List.mem_map_of_mem Prod.fst hp)

/-! ### Round-trip support: the row loop inverts `row_to_xml` -/

theorem parseRowsGo_step (body : List Char) (f cursor : Nat)
    (acc : List (Nat × Row)) (n : Nat) (row : Row) (R : List Char)
    (hdrop : body.drop cursor = row_to_xml row ++ R)
    (hwf : rowWf n row = true)
    (hacc : ∀ q ∈ acc, q.1 < n) :
    parseRowsGo body (f + 1) cursor acc
      = parseRowsGo body f (cursor + (row_to_xml row).length) (acc ++ [(n, row)]) := by
  obtain ⟨hattrs, hchain, hr, hn, hkeys, hcells, hnosub⟩ := rowWf_spec hwf
  obtain ⟨rattrs, rcells⟩ := row
  dsimp only at hattrs hchain hr hkeys hcells hnosub
  have hane : rattrs ≠ [] := get_attr_ne_nil hr
  have hsorted : sortAttrs rattrs = rattrs := sortAttrs_id rattrs hchain
  have hrownum : (get_attr rattrs ['r']).bind parseU32 = some n := by
    rw [hr]
    simp [parseU32_natDigits n hn]
  have hset : set_attr rattrs ['r'] (natDigits n) = rattrs :=
    set_attr_unchanged rattrs _ _ hr
  have hnogt : (('<' :: 'r' :: 'o' :: 'w' :: attrs_to_xml rattrs) : List Char).all
      (fun c => !(c = '>')) = true := by
    rw [List.all_cons, List.all_cons, List.all_cons, List.all_cons,
      attrs_to_xml_no_gt rattrs hattrs]
    rfl
  by_cases hce : rcells = []
  · subst hce
    have hx : row_to_xml ⟨rattrs, []⟩
        = '<' :: 'r' :: 'o' :: 'w' :: (attrs_to_xml rattrs ++ '/' :: ['>']) := by
      rw [row_to_xml]
      dsimp only
      rw [hsorted, if_pos rfl]
      simp
    have hfind1 : findSub (body.drop cursor) ('<' :: 'r' :: 'o' :: ['w'])
        = some 0 := by
      rw [hdrop, hx]
      exact findSub_self (by simp [List.isPrefixOf])
    have hnogt2 : (('<' :: 'r' :: 'o' :: 'w' :: (attrs_to_xml rattrs ++ ['/'])) :
        List Char).all (fun c => !(c = '>')) = true := by
      rw [show ('<' :: 'r' :: 'o' :: 'w' :: (attrs_to_xml rattrs ++ ['/']))
          = ('<' :: 'r' :: 'o' :: 'w' :: attrs_to_xml rattrs) ++ ['/'] from by simp]
      rw [List.all_append, hnogt]
      rfl
    have hfind2 : findSub (body.drop cursor) ['>']
        = some ((attrs_to_xml rattrs).length + 5) := by
      rw [hdrop, hx]
      rw [show '<' :: 'r' :: 'o' :: 'w' :: (attrs_to_xml rattrs ++ '/' :: ['>']) ++ R
          = ('<' :: 'r' :: 'o' :: 'w' :: (attrs_to_xml rattrs ++ ['/']))
            ++ (['>'] ++ R) from by simp]
      rw [findSub_at _ _ (by simp) (noSub_single hnogt2)]
      simp only [List.length_cons, List.length_append, List.length_nil,
        Option.some.injEq]
    have htag : (body.drop cursor).take ((attrs_to_xml rattrs).length + 5 + 1)
        = '<' :: 'r' :: 'o' :: 'w' :: (attrs_to_xml rattrs ++ '/' :: ['>']) := by
      rw [hdrop, hx]
      rw [show (attrs_to_xml rattrs).length + 5 + 1
          = ('<' :: 'r' :: 'o' :: 'w' ::
            (attrs_to_xml rattrs ++ '/' :: ['>'])).length from by
        simp only [List.length_cons, List.length_append, List.length_nil]]
      exact List.take_left _ _
    have hpta : parse_tag_attrs
        ('<' :: 'r' :: 'o' :: 'w' :: (attrs_to_xml rattrs ++ '/' :: ['>']))
        = Except.ok rattrs := by
      have h2 := parse_tag_attrs_inv ('r' :: 'o' :: ['w']) rattrs ('/' :: ['>'])
        (by simp) (by decide) hattrs (Or.inr rfl)
      simpa using h2
    have hsuffix : (('/' :: ['>']).isSuffixOf
        ('<' :: 'r' :: 'o' :: 'w' :: (attrs_to_xml rattrs ++ '/' :: ['>']))) = true := by
      rw [show '<' :: 'r' :: 'o' :: 'w' :: (attrs_to_xml rattrs ++ '/' :: ['>'])
          = ('<' :: 'r' :: 'o' :: 'w' :: attrs_to_xml rattrs) ++ '/' :: ['>'] from by
        simp]
      exact isSuffixOf_close_true _
    rw [parseRowsGo]
    simp only [hfind1, Nat.add_zero, hfind2, htag, hpta, hrownum, hset]
    rw [if_pos hsuffix]
    rw [btInsert_append n _ acc hacc]
    rw [show cursor + ((attrs_to_xml rattrs).length + 5) + 1
        = cursor + (row_to_xml ⟨rattrs, []⟩).length from by
      rw [hx]
      simp only [List.length_cons, List.length_append, List.length_nil]
      omega]
  · have hx : row_to_xml ⟨rattrs, rcells⟩
        = '<' :: 'r' :: 'o' :: 'w' :: (attrs_to_xml rattrs
          ++ '>' :: (((rcells.map (fun p => cell_to_xml p.2)).flatten)
            ++ '<' :: '/' :: 'r' :: 'o' :: 'w' :: ['>'])) := by
      rw [row_to_xml]
      dsimp only
      rw [hsorted, if_neg hce]
      simp
    have hfind1 : findSub (body.drop cursor) ('<' :: 'r' :: 'o' :: ['w'])
        = some 0 := by
      rw [hdrop, hx]
      exact findSub_self (by simp [List.isPrefixOf])
    have hfind2 : findSub (body.drop cursor) ['>']
        = some ((attrs_to_xml rattrs).length + 4) := by
      rw [hdrop, hx]
      rw [show '<' :: 'r' :: 'o' :: 'w' :: (attrs_to_xml rattrs
            ++ '>' :: (((rcells.map (fun p => cell_to_xml p.2)).flatten)
              ++ '<' :: '/' :: 'r' :: 'o' :: 'w' :: ['>'])) ++ R
          = ('<' :: 'r' :: 'o' :: 'w' :: attrs_to_xml rattrs)
            ++ (['>'] ++ (((rcells.map (fun p => cell_to_xml p.2)).flatten)
              ++ (('<' :: '/' :: 'r' :: 'o' :: 'w' :: ['>']) ++ R))) from by simp]
      rw [findSub_at _ _ (by simp) (noSub_single hnogt)]
      simp only [List.length_cons, Option.some.injEq]
    have htag : (body.drop cursor).take ((attrs_to_xml rattrs).length + 4 + 1)
        = '<' :: 'r' :: 'o' :: 'w' :: (attrs_to_xml rattrs ++ ['>']) := by
      rw [hdrop, hx]
      rw [show '<' :: 'r' :: 'o' :: 'w' :: (attrs_to_xml rattrs
            ++ '>' :: (((rcells.map (fun p => cell_to_xml p.2)).flatten)
              ++ '<' :: '/' :: 'r' :: 'o' :: 'w' :: ['>'])) ++ R
          = ('<' :: 'r' :: 'o' :: 'w' :: (attrs_to_xml rattrs ++ ['>']))
            ++ ((((rcells.map (fun p => cell_to_xml p.2)).flatten)
              ++ (('<' :: '/' :: 'r' :: 'o' :: 'w' :: ['>']) ++ R))) from by simp]
      rw [show (attrs_to_xml rattrs).length + 4 + 1
          = ('<' :: 'r' :: 'o' :: 'w' :: (attrs_to_xml rattrs ++ ['>'])).length from by
        simp only [List.length_cons, List.length_append, List.length_nil]]
      exact List.take_left _ _
    have hpta : parse_tag_attrs
        ('<' :: 'r' :: 'o' :: 'w' :: (attrs_to_xml rattrs ++ ['>']))
        = Except.ok rattrs := by
      have h2 := parse_tag_attrs_inv ('r' :: 'o' :: ['w']) rattrs ['>']
        (by simp) (by decide) hattrs (Or.inl rfl)
      simpa using h2
    have hsufF : (('/' :: ['>']).isSuffixOf
        ('<' :: 'r' :: 'o' :: 'w' :: (attrs_to_xml rattrs ++ ['>']))) = false := by
      obtain ⟨a2, ha2⟩ := attrs_to_xml_last_quote rattrs hane
      rw [show '<' :: 'r' :: 'o' :: 'w' :: (attrs_to_xml rattrs ++ ['>'])
          = (('<' :: 'r' :: 'o' :: 'w' :: a2) ++ ['"']) ++ ['>'] from by
        rw [ha2]; simp]
      exact isSuffixOf_close_false _ _ (by decide)
    have hd3 : body.drop (cursor + ((attrs_to_xml rattrs).length + 4) + 1)
        = ((rcells.map (fun p => cell_to_xml p.2)).flatten)
          ++ (('<' :: '/' :: 'r' :: 'o' :: 'w' :: ['>']) ++ R) := by
      have hdropX : body.drop cursor
          = ('<' :: 'r' :: 'o' :: 'w' :: (attrs_to_xml rattrs ++ ['>']))
            ++ (((rcells.map (fun p => cell_to_xml p.2)).flatten)
              ++ (('<' :: '/' :: 'r' :: 'o' :: 'w' :: ['>']) ++ R)) := by
        rw [hdrop, hx]
        simp
      have h2 := drop_add_of_drop hdropX
        (('<' :: 'r' :: 'o' :: 'w' :: (attrs_to_xml rattrs ++ ['>'])).length)
      rw [List.drop_left] at h2
      rw [show cursor + ((attrs_to_xml rattrs).length + 4) + 1
          = cursor + ('<' :: 'r' :: 'o' :: 'w' ::
            (attrs_to_xml rattrs ++ ['>'])).length from by
        simp only [List.length_cons, List.length_append, List.length_nil]
        omega]
      exact h2
    have hfind3 : findSub
        (body.drop (cursor + ((attrs_to_xml rattrs).length + 4) + 1))
        ('<' :: '/' :: 'r' :: 'o' :: 'w' :: ['>'])
        = some ((rcells.map (fun p => cell_to_xml p.2)).flatten).length := by
      rw [hd3]
      exact findSub_at _ _ (by simp) hnosub
    have htake : (body.drop
        (cursor + ((attrs_to_xml rattrs).length + 4) + 1)).take
          ((rcells.map (fun p => cell_to_xml p.2)).flatten).length
        = (rcells.map (fun p => cell_to_xml p.2)).flatten := by
      rw [hd3]
      exact List.take_left _ _
    have hpc : parse_row_cells
        ((rcells.map (fun p => cell_to_xml p.2)).flatten) n = Except.ok rcells := by
      have hfuel : rcells.length
          < ((rcells.map (fun p => cell_to_xml p.2)).flatten).length + 1 := by
        have h2 := length_le_flatten (rcells.map (fun p => cell_to_xml p.2)) (by
          intro x hx2
          obtain ⟨pp, _, rfl⟩ := List.mem_map.1 hx2
          exact cell_to_xml_ne pp.2)
        simp only [List.length_map] at h2
        omega
      rw [parse_row_cells]
      rw [parseCellsGo_spec _ n hn rcells _ hfuel 0 1 [] (by simp) hcells hkeys
        (by simp)]
      simp
    rw [parseRowsGo]
    simp only [hfind1, Nat.add_zero, hfind2, htag, hpta, hrownum, hset]
    rw [if_neg (by simp [hsufF])]
    simp only [hfind3, htake, hpc]
    rw [btInsert_append n _ acc hacc]
    rw [show cursor + ((attrs_to_xml rattrs).length + 4) + 1
          + ((rcells.map (fun p => cell_to_xml p.2)).flatten).length + 6
        = cursor + (row_to_xml ⟨rattrs, rcells⟩).length from by
      rw [hx]
      simp only [List.length_cons, List.length_append, List.length_nil]
      omega]

theorem parseRowsGo_spec (body : List Char) :
    ∀ (rs : List (Nat × Row)) (fuel : Nat), rs.length < fuel →
    ∀ (cursor : Nat) (acc : List (Nat × Row)),
      body.drop cursor = (rs.map (fun p => row_to_xml p.2)).flatten →
      (∀ p ∈ rs, rowWf p.1 p.2 = true) →
      natKeysInc (rs.map Prod.fst) = true →
      (∀ q ∈ acc, ∀ p ∈ rs, q.1 < p.1) →
      parseRowsGo body fuel cursor acc = Except.ok (acc ++ rs) := by
  intro rs
  induction rs with
  | nil =>
    intro fuel hf cursor acc hdrop _ _ _
    cases fuel with
    | zero => omega
    | succ f =>
      simp only [List.map_nil, List.flatten_nil] at hdrop
      rw [parseRowsGo]
      rw [hdrop, findSub_nil (by simp)]
      simp
  | cons hd rest ih =>
    intro fuel hf cursor acc hdrop hwfs hinc hlt
    obtain ⟨n, row⟩ := hd
    cases fuel with
    | zero => simp at hf
    | succ f =>
      simp only [List.map_cons, List.flatten_cons] at hdrop
      rw [parseRowsGo_step body f cursor acc n row _ hdrop
        (hwfs (n, row) (by simp)) (fun q hq => hlt q hq (n, row) (by simp))]
      have hdrop2 : body.drop (cursor + (row_to_xml row).length)
          = (rest.map (fun p => row_to_xml p.2)).flatten := by
        rw [drop_add_of_drop hdrop (row_to_xml row).length, List.drop_left]
      obtain ⟨hinc2, hlt2⟩ := natKeysInc_cons n (rest.map Prod.fst)
        (by simpa using hinc)
      rw [ih f (by simp at hf; omega) (cursor + (row_to_xml row).length)
        (acc ++ [(n, row)]) hdrop2 (fun p hp => hwfs p (by simp [hp])) hinc2 ?_]
      · simp
      · intro q hq p hp
        rcases List.mem_append.1 hq with h2 | h2
        · exact hlt q h2 p (by simp [hp])
        · have hq2 : q = (n, row) := by simpa using h2
          rw [hq2]
          exact hlt2 p.1 (List.mem_map_of_mem Prod.fst hp)

/-! ### Claim C3: parse / serialize round trip -/

/-- C3 (corrected): the claimed byte-for-byte round trip fails for
attribute-order-canonical input in general (see `c3_counterexample`: the
parser renumbers rows from their `r` attribute, so `r="007"` comes back
as `r="7"`); the identity that does hold is the opposite composition on
canonical worksheets — for every worksheet whose rows and cells are
canonically numbered, sorted and well-formed (`wsCanonical`), once the
three scanner outcomes pin the `<sheetData>` split of the serialized
text, `Worksheet.parse (Worksheet.to_xml ws)` returns `ws` exactly, so
`to_xml ∘ parse` is the identity on the image of `to_xml` over canonical
worksheets. -/
theorem c3_theorem :
    ∀ (ws : Worksheet) (s0 : Nat),
      wsCanonical ws = true →
      find_start_tag (Worksheet.to_xml ws) sheetDataChars 0 = some s0 →
      find_tag_end (Worksheet.to_xml ws) s0 = some (ws.pfx.length - 1) →
      find_end_tag (Worksheet.to_xml ws) sheetDataChars ws.pfx.length
          = some (ws.pfx.length + (wsBody ws).length) →
      Worksheet.parse (Worksheet.to_xml ws) = Except.ok ws := by
  intro ws s0 hcan h1 h2 h3
  rw [wsCanonical] at hcan
  simp only [Bool.and_eq_true] at hcan
  obtain ⟨⟨hkeys, hrows⟩, hpfx⟩ := hcan
  have hpfxne : ws.pfx ≠ [] := by simpa using hpfx
  have hplen : 1 ≤ ws.pfx.length := by
    cases hx : ws.pfx with
    | nil => exact absurd hx hpfxne
    | cons a t => simp [hx]
  have hxml : Worksheet.to_xml ws = ws.pfx ++ (wsBody ws ++ ws.sfx) := by
    rw [Worksheet.to_xml, wsBody, List.append_assoc]
  rw [Worksheet.parse]
  simp only [h1, h2]
  rw [show ws.pfx.length - 1 + 1 = ws.pfx.length from by omega]
  simp only [h3]
  have harith : ws.pfx.length + (wsBody ws).length - ws.pfx.length
      = (wsBody ws).length := by omega
  rw [harith]
  have htake : ((Worksheet.to_xml ws).drop ws.pfx.length).take (wsBody ws).length
      = wsBody ws := by
    rw [hxml, List.drop_left]
    exact List.take_left _ _
  rw [htake]
  have hparse : parse_rows_from_sheet_data (wsBody ws) = Except.ok ws.rows := by
    have hfuel : ws.rows.length < (wsBody ws).length + 1 := by
      have h4 := length_le_flatten (ws.rows.map (fun p => row_to_xml p.2)) (by
        intro x hx2
        obtain ⟨pp, _, rfl⟩ := List.mem_map.1 hx2
        exact row_to_xml_ne pp.2)
      simp only [List.length_map] at h4
      rw [wsBody]
      omega
    rw [parse_rows_from_sheet_data]
    rw [parseRowsGo_spec (wsBody ws) ws.rows _ hfuel 0 [] (by rw [wsBody]; simp)
      (fun p hp => List.all_eq_true.1 hrows p hp) hkeys (by simp)]
    simp
  rw [hparse]
  have htk : (Worksheet.to_xml ws).take ws.pfx.length = ws.pfx := by
    rw [hxml]
    exact List.take_left _ _
  have hdk : (Worksheet.to_xml ws).drop (ws.pfx.length + (wsBody ws).length)
      = ws.sfx := by
    rw [hxml, ← List.append_assoc]
    rw [show ws.pfx.length + (wsBody ws).length
        = (ws.pfx ++ wsBody ws).length from by simp]
    exact List.drop_left _ _
  rw [htk, hdk]

/-- C3 counterexample: the markup `<sheetData><row r="007"/></sheetData>`
already has its attributes in canonical order, yet parsing it and
serializing the result yields `<sheetData><row r="7"/></sheetData>`, not
the input: the round trip is not byte-for-byte on all
attribute-order-normalized inputs. -/
theorem c3_counterexample :
    Worksheet.parse c3x = Except.ok c3pw
      ∧ Worksheet.to_xml c3pw ≠ c3x := by
  constructor
  · rfl
  · decide

/-- C3 witness: the round-trip theorem applied to the concrete canonical
one-row worksheet `c3w`, with every hypothesis evaluated by `decide`. -/
theorem c3_witness :
    Worksheet.parse (Worksheet.to_xml c3w) = Except.ok c3w :=
  c3_theorem c3w 0 (by decide) (by decide) (by decide) (by decide)
